import Mathlib

/-!
# Verification of the `claw` storage-and-reconciliation engine

A shallow embedding of the core of the `claw` version-control engine
(content-addressed object store, COF container format, patch codecs,
merge engine, and sync ref-update semantics), with theorems settling the
frozen specification claims C1-C10.

Modelling conventions:
* machine bytes are `Nat` (well-formed data keeps them below 256);
* external libraries that the source calls (BLAKE3, zstd, prost, the
  `similar` diff engine, `std` hashers) are modelled as function
  parameters constrained by the library's documented contract; concrete
  executable model instances are provided for witnesses;
* Rust `Result` is `Except`, `Option` is `Option`; filesystem state is an
  explicit `Store` value threaded through the operations.
-/

namespace Claw

/-! ## Type tags (claw-core/src/object.rs) -/

/-- The twelve object kinds, tags 0x01-0x0C (`TypeTag` in object.rs). -/
inductive TypeTag where
  | blob | tree | patch | revision | snapshot | intent
  | change | conflict | capsule | policy | workstream | reflog
deriving DecidableEq, Repr

/-- `TypeTag as u8`: the on-disk tag byte. -/
def TypeTag.toU8 : TypeTag → Nat
  | .blob => 0x01
  | .tree => 0x02
  | .patch => 0x03
  | .revision => 0x04
  | .snapshot => 0x05
  | .intent => 0x06
  | .change => 0x07
  | .conflict => 0x08
  | .capsule => 0x09
  | .policy => 0x0A
  | .workstream => 0x0B
  | .reflog => 0x0C

/-- `TypeTag::from_u8` in object.rs. -/
def TypeTag.fromU8 : Nat → Option TypeTag
  | 0x01 => some .blob
  | 0x02 => some .tree
  | 0x03 => some .patch
  | 0x04 => some .revision
  | 0x05 => some .snapshot
  | 0x06 => some .intent
  | 0x07 => some .change
  | 0x08 => some .conflict
  | 0x09 => some .capsule
  | 0x0A => some .policy
  | 0x0B => some .workstream
  | 0x0C => some .reflog
  | _ => none

theorem TypeTag.fromU8_toU8 (t : TypeTag) : TypeTag.fromU8 t.toU8 = some t := by
  cases t <;> rfl

/-! ## LEB128 unsigned varints (cof.rs `encode_uvarint` / `decode_uvarint`) -/

/-- Structural-recursion engine for `encodeUvarint` (the fuel argument only
serves termination; `encodeUvarint_eq` recovers the natural recurrence). -/
def encodeUvarintAux : Nat → Nat → List Nat
  | 0, _ => []
  | fuel + 1, v =>
    if v < 128 then [v] else (v % 128 + 128) :: encodeUvarintAux fuel (v / 128)

/-- `encode_uvarint` in cof.rs: little-endian base-128 with continuation bit. -/
def encodeUvarint (v : Nat) : List Nat := encodeUvarintAux (v + 1) v

theorem encodeUvarintAux_congr : ∀ f g v, v < f → v < g →
    encodeUvarintAux f v = encodeUvarintAux g v := by
  intro f
  induction f with
  | zero => intro g v hf _; omega
  | succ f ihf =>
    intro g v hf hg
    cases g with
    | zero => omega
    | succ g =>
      simp only [encodeUvarintAux]
      split
      · rfl
      · rename_i hge
        congr 1
        have hlt : v / 128 < v := Nat.div_lt_self (by omega) (by omega)
        exact ihf g (v / 128) (by omega) (by omega)

/-- The defining recurrence of `encode_uvarint`. -/
theorem encodeUvarint_eq (v : Nat) : encodeUvarint v
    = if v < 128 then [v] else (v % 128 + 128) :: encodeUvarint (v / 128) := by
  show encodeUvarintAux (v + 1) v = _
  simp only [encodeUvarintAux]
  split
  · rfl
  · rename_i hge
    congr 1
    have hlt : v / 128 < v := Nat.div_lt_self (by omega) (by omega)
    exact encodeUvarintAux_congr v (v / 128 + 1) (v / 128) (by omega) (by omega)

/-- `decode_uvarint` in cof.rs, in list-consuming form: the Rust loop reads
`data[pos]` and advances `pos`; here the already-consumed prefix is dropped, so
the returned list is the suffix from the final `pos`.  The accumulator is kept
in `u64` range exactly as the Rust `result: u64` is, and the `shift >= 64`
overflow check is the same. -/
def decodeUvarintL : List Nat → Nat → Nat → Option (Nat × List Nat)
  | [], _, _ => none
  | b :: rest, result, shift =>
    let result' := (result ||| ((b &&& 127) <<< shift)) % 2 ^ 64
    if b &&& 128 = 0 then some (result', rest)
    else if 64 ≤ shift + 7 then none
    else decodeUvarintL rest result' (shift + 7)

theorem encodeUvarint_ne_nil (v : Nat) : encodeUvarint v ≠ [] := by
  rw [encodeUvarint_eq]
  split <;> simp

theorem and_128_of_lt (b : Nat) (h : b < 128) : b &&& 128 = 0 := by
  apply Nat.eq_of_testBit_eq
  intro i
  simp only [Nat.testBit_and, Nat.zero_testBit]
  rcases Nat.lt_or_ge i 7 with hi | hi
  · have h2 : Nat.testBit 128 i = false := by
      interval_cases i <;> decide
    simp [h2]
  · have h1 : Nat.testBit b i = false := by
      apply Nat.testBit_lt_two_pow
      calc b < 128 := h
      _ = 2 ^ 7 := by norm_num
      _ ≤ 2 ^ i := Nat.pow_le_pow_right (by omega) hi
    simp [h1]

theorem and_127_of_lt (b : Nat) (h : b < 128) : b &&& 127 = b := by
  have h1 : b &&& 127 = b % 128 := by
    have := Nat.and_pow_two_sub_one_eq_mod b 7
    norm_num at this
    exact this
  rw [h1, Nat.mod_eq_of_lt h]

theorem and_128_of_cont (b : Nat) (h : b < 128) : (b + 128) &&& 128 ≠ 0 := by
  intro hcon
  have h7 : Nat.testBit (b + 128) 7 = true := by
    rw [Nat.testBit_to_div_mod]
    have hdiv : (b + 128) / 2 ^ 7 = 1 := by omega
    rw [hdiv]
    rfl
  have h128 : Nat.testBit 128 7 = true := by decide
  have hc := congrArg (fun n => Nat.testBit n 7) hcon
  simp only [Nat.testBit_and, h7, h128, Nat.zero_testBit, Bool.and_self] at hc
  exact Bool.noConfusion hc

theorem and_127_of_cont (b : Nat) (h : b < 128) : (b + 128) &&& 127 = b := by
  have h1 : (b + 128) &&& 127 = b % 128 := by
    have := Nat.and_pow_two_sub_one_eq_mod (b + 128) 7
    norm_num at this
    exact this
  rw [h1]
  omega

/-- Disjoint-bit OR is addition: the accumulator holds only bits below `shift`. -/
theorem or_shift_eq_add (a b s : Nat) (ha : a < 2 ^ s) :
    a ||| (b <<< s) = a + b * 2 ^ s := by
  have key : a ||| (b <<< s) = 2 ^ s * b + a := by
    apply Nat.eq_of_testBit_eq
    intro j
    rw [Nat.testBit_or, Nat.testBit_shiftLeft, Nat.testBit_mul_pow_two_add b ha j]
    rcases Nat.lt_or_ge j s with hj | hj
    · simp [Nat.not_le.mpr hj, hj]
    · have h1 : Nat.testBit a j = false := by
        apply Nat.testBit_lt_two_pow
        exact Nat.lt_of_lt_of_le ha (Nat.pow_le_pow_right (by omega) hj)
      simp [hj, Nat.not_lt.mpr hj, h1]
  rw [key]
  ring

/-- Round-trip for the varint layer: decoding an encoded value (of `u64`
range, with the accumulator invariant) consumes exactly the encoding. -/
theorem decodeUvarintL_encode (v : Nat) : ∀ (post : List Nat) (result shift : Nat),
    v < 2 ^ (64 - shift) → result < 2 ^ shift → shift < 64 →
    decodeUvarintL (encodeUvarint v ++ post) result shift
      = some (result + v * 2 ^ shift, post) := by
  induction v using Nat.strong_induction_on with
  | _ v ih =>
    intro post result shift hv hr hs
    rw [encodeUvarint_eq]
    split
    case isTrue hlt =>
      simp only [List.cons_append, List.append_eq, List.nil_append, decodeUvarintL]
      rw [and_128_of_lt v hlt, and_127_of_lt v hlt]
      have hsum : result + v * 2 ^ shift < 2 ^ 64 := by
        have h1 : (v + 1) * 2 ^ shift ≤ 2 ^ (64 - shift) * 2 ^ shift :=
          Nat.mul_le_mul_right _ (by omega)
        have h3 : (2:Nat) ^ (64 - shift) * 2 ^ shift = 2 ^ 64 := by
          rw [← pow_add]
          congr 1
          omega
        have h4 : (v + 1) * 2 ^ shift = v * 2 ^ shift + 2 ^ shift := by ring
        omega
      rw [or_shift_eq_add _ _ _ hr, Nat.mod_eq_of_lt hsum]
      simp
    case isFalse hge =>
      push_neg at hge
      have h7 : 7 < 64 - shift := by
        by_contra hc
        push_neg at hc
        have : (2:Nat) ^ (64 - shift) ≤ 2 ^ 7 := Nat.pow_le_pow_right (by omega) hc
        omega
      have hmlt : v % 128 < 128 := Nat.mod_lt _ (by omega)
      simp only [List.cons_append, List.append_eq, decodeUvarintL]
      rw [and_127_of_cont _ hmlt]
      have hc := and_128_of_cont (v % 128) hmlt
      rw [if_neg hc, if_neg (show ¬ 64 ≤ shift + 7 by omega)]
      have hr' : result + v % 128 * 2 ^ shift < 2 ^ (shift + 7) := by
        have h1 : v % 128 * 2 ^ shift ≤ 127 * 2 ^ shift :=
          Nat.mul_le_mul_right _ (by omega)
        have hp : (2:Nat) ^ (shift + 7) = 2 ^ shift * 128 := by
          rw [Nat.pow_add]
        omega
      have hmod : (result ||| ((v % 128) <<< shift)) % 2 ^ 64
          = result + v % 128 * 2 ^ shift := by
        rw [or_shift_eq_add _ _ _ hr]
        apply Nat.mod_eq_of_lt
        exact Nat.lt_of_lt_of_le hr' (Nat.pow_le_pow_right (by omega) (by omega))
      rw [hmod]
      have hrec := ih (v / 128) (Nat.div_lt_self (by omega) (by omega)) post
        (result + v % 128 * 2 ^ shift) (shift + 7)
        (by
          have hpow : (2:Nat) ^ (64 - (shift + 7)) * 128 = 2 ^ (64 - shift) := by
            rw [show (128:Nat) = 2 ^ 7 by norm_num, ← pow_add]
            congr 1
            omega
          omega)
        hr' (by omega)
      rw [hrec]
      have h2 : (2:Nat) ^ (shift + 7) = 2 ^ shift * 128 := by
        rw [Nat.pow_add]
      congr 2
      rw [h2]
      set a := v % 128 with ha
      set b := v / 128 with hb
      have hv128 : a + 128 * b = v := Nat.mod_add_div v 128
      rw [← hv128]
      ring

/-! ## CRC32 (IEEE, as computed by the `crc32fast` crate) -/

/-- One bit step of the reflected CRC-32 (polynomial 0xEDB88320). -/
def crc32Step (c : Nat) : Nat :=
  if c % 2 = 1 then (c / 2) ^^^ 0xEDB88320 else c / 2

/-- `crc32fast::hash`: standard IEEE CRC-32 of a byte sequence. -/
def crc32 (data : List Nat) : Nat :=
  (data.foldl (fun c b => crc32Step^[8] (c ^^^ (b % 256))) 0xFFFFFFFF) ^^^ 0xFFFFFFFF

theorem crc32Step_lt (c : Nat) (h : c < 2 ^ 32) : crc32Step c < 2 ^ 32 := by
  unfold crc32Step
  split
  · exact Nat.xor_lt_two_pow (by omega) (by norm_num)
  · omega

theorem crc32_lt (data : List Nat) : crc32 data < 2 ^ 32 := by
  unfold crc32
  apply Nat.xor_lt_two_pow _ (by norm_num)
  have base : ∀ (l : List Nat) (c : Nat), c < 2 ^ 32 →
      l.foldl (fun c b => crc32Step^[8] (c ^^^ (b % 256))) c < 2 ^ 32 := by
    intro l
    induction l with
    | nil => intro c hc; exact hc
    | cons x xs ihx =>
      intro c hc
      apply ihx
      have hx : c ^^^ (x % 256) < 2 ^ 32 := by
        apply Nat.xor_lt_two_pow hc
        calc x % 256 < 256 := Nat.mod_lt _ (by omega)
        _ < 2 ^ 32 := by norm_num
      have iter : ∀ n a, a < 2 ^ 32 → crc32Step^[n] a < 2 ^ 32 := by
        intro n
        induction n with
        | zero => intro a ha; simpa using ha
        | succ m ihm =>
          intro a ha
          rw [Function.iterate_succ_apply]
          exact ihm _ (crc32Step_lt a ha)
      exact iter 8 _ hx
  exact base data _ (by norm_num)

/-! ## COF v1 container (cof.rs) -/

/-- The error kinds `cof_decode` can produce (`CoreError` variants used there). -/
inductive CofError where
  | invalidMagic
  | unsupportedVersion (v : Nat)
  | unknownTypeTag (v : Nat)
  | crc32Mismatch (expected actual : Nat)
  | decompression
  | deserialization
deriving DecidableEq, Repr

/-- `Compression::from_u8`. -/
def compressionFromU8 : Nat → Option Bool
  | 0x00 => some false
  | 0x01 => some true
  | _ => none

/-- Little-endian 4-byte rendering of a `u32` (`u32::to_le_bytes`). -/
def crcLE (n : Nat) : List Nat :=
  [n % 256, n / 256 % 256, n / 2 ^ 16 % 256, n / 2 ^ 24 % 256]

/-- `u32::from_le_bytes` of the last four bytes. -/
def leToNat (bs : List Nat) : Nat :=
  match bs with
  | [a, b, c, d] => a + 256 * b + 2 ^ 16 * c + 2 ^ 24 * d
  | _ => 0

theorem leToNat_crcLE (n : Nat) (h : n < 2 ^ 32) : leToNat (crcLE n) = n := by
  simp only [crcLE, leToNat]
  omega

/-- `cof_encode` in cof.rs.  `zenc` models `zstd::encode_all` (level 3); the
compression policy compresses payloads longer than 64 bytes.  Layout:
magic "CLW1", version, type tag, flags, compression byte, uvarint of the
uncompressed length, the (possibly compressed) payload, then the CRC32 of the
uncompressed payload in little-endian. -/
def cofEncode (zenc : List Nat → List Nat) (tag : TypeTag) (payload : List Nat) :
    List Nat :=
  let compress := 64 < payload.length
  let compressed := if compress then zenc payload else payload
  let flagByte : Nat := if compress then 1 else 0
  67 :: 76 :: 87 :: 49 :: 1 :: tag.toU8 :: flagByte :: flagByte ::
    (encodeUvarint payload.length ++ compressed ++ crcLE (crc32 payload))

/-- `cof_decode` in cof.rs.  `zdec` models `zstd::decode_all` (failure =
`none`).  The Rust position bookkeeping (`pos` after the varint,
`crc_offset = len - 4`, compressed slice `data[pos..crc_offset]`) appears here
as list operations on the suffix the varint decoder returns. -/
def cofDecode (zdec : List Nat → Option (List Nat)) (data : List Nat) :
    Except CofError (TypeTag × List Nat) :=
  if data.length < 12 then .error .deserialization
  else if data.take 4 ≠ [67, 76, 87, 49] then .error .invalidMagic
  else if data.getD 4 0 ≠ 1 then .error (.unsupportedVersion (data.getD 4 0))
  else
    match TypeTag.fromU8 (data.getD 5 0) with
    | none => .error (.unknownTypeTag (data.getD 5 0))
    | some tag =>
      -- data[6] (flags) is read and ignored
      match compressionFromU8 (data.getD 7 0) with
      | none => .error .deserialization
      | some zstdComp =>
        match decodeUvarintL (data.drop 8) 0 0 with
        | none => .error .deserialization
        | some (ulen, rest) =>
          if rest.length < 4 then .error .deserialization
          else
            let expected := leToNat (rest.drop (rest.length - 4))
            let compressed := rest.take (rest.length - 4)
            let payload? : Option (List Nat) :=
              if zstdComp then
                (zdec compressed).map fun d =>
                  if d.length ≠ ulen then d.take ulen else d
              else some compressed
            match payload? with
            | none => .error .decompression
            | some payload =>
              if expected ≠ crc32 payload then
                .error (.crc32Mismatch expected (crc32 payload))
              else .ok (tag, payload)

theorem decodeUvarintL_encode_zero (v : Nat) (post : List Nat) (hv : v < 2 ^ 64) :
    decodeUvarintL (encodeUvarint v ++ post) 0 0 = some (v, post) := by
  have h := decodeUvarintL_encode v post 0 0 (by simpa using hv) (by norm_num) (by norm_num)
  simpa using h

theorem cons8_getD4 (a b c d e f g h : Nat) (t : List Nat) :
    (a::b::c::d::e::f::g::h::t).getD 4 0 = e := rfl

theorem cons8_getD5 (a b c d e f g h : Nat) (t : List Nat) :
    (a::b::c::d::e::f::g::h::t).getD 5 0 = f := rfl

theorem cons8_getD7 (a b c d e f g h : Nat) (t : List Nat) :
    (a::b::c::d::e::f::g::h::t).getD 7 0 = h := rfl

theorem cons8_take4 (a b c d e f g h : Nat) (t : List Nat) :
    (a::b::c::d::e::f::g::h::t).take 4 = [a, b, c, d] := rfl

theorem cons8_drop8 (a b c d e f g h : Nat) (t : List Nat) :
    (a::b::c::d::e::f::g::h::t).drop 8 = t := rfl

theorem cons8_length (a b c d e f g h : Nat) (t : List Nat) :
    (a::b::c::d::e::f::g::h::t).length = t.length + 8 := by simp

/-- Shared decode computation: a COF frame with a well-formed header whose body
is `uvarint(plen) ++ comp ++ crcLE(crcv)` decodes through the header checks and
reaches the payload stage. -/
theorem cofDecode_frame (zdec : List Nat → Option (List Nat)) (tag : TypeTag)
    (fb plen crcv : Nat) (comp : List Nat)
    (hplen : plen < 2 ^ 64) (hcrc : crcv < 2 ^ 32)
    (hfb : compressionFromU8 fb = some true ∨ compressionFromU8 fb = some false) :
    cofDecode zdec
        (67 :: 76 :: 87 :: 49 :: 1 :: tag.toU8 :: fb :: fb ::
          (encodeUvarint plen ++ comp ++ crcLE crcv))
      = (match (if (compressionFromU8 fb = some true) then
                  (zdec comp).map (fun d => if d.length ≠ plen then d.take plen else d)
                else some comp) with
          | none => .error .decompression
          | some payload =>
              if crcv ≠ crc32 payload then .error (.crc32Mismatch crcv (crc32 payload))
              else .ok (tag, payload)) := by
  unfold cofDecode
  rw [cons8_take4, cons8_getD4, cons8_getD5, cons8_getD7, cons8_drop8, cons8_length]
  have hne := encodeUvarint_ne_nil plen
  have hpos : 0 < (encodeUvarint plen).length := List.length_pos.mpr hne
  have h12 : ¬ ((encodeUvarint plen ++ comp ++ crcLE crcv).length + 8 < 12) := by
    simp only [List.length_append, crcLE, List.length_cons, List.length_nil]
    omega
  rw [if_neg h12]
  rw [if_neg (show ¬ ([67, 76, 87, 49] ≠ [67, 76, 87, 49]) by simp)]
  rw [if_neg (show ¬ ((1:Nat) ≠ 1) by simp)]
  rw [TypeTag.fromU8_toU8]
  rw [List.append_assoc, decodeUvarintL_encode_zero plen _ hplen]
  have hrlen : (comp ++ crcLE crcv).length = comp.length + 4 := by
    simp [crcLE]
  have h4 : ¬ ((comp ++ crcLE crcv).length < 4) := by omega
  have htake : (comp ++ crcLE crcv).take ((comp ++ crcLE crcv).length - 4) = comp := by
    rw [hrlen]
    simp only [Nat.add_sub_cancel]
    rw [List.take_left]
  have hdrop : (comp ++ crcLE crcv).drop ((comp ++ crcLE crcv).length - 4) = crcLE crcv := by
    rw [hrlen]
    simp only [Nat.add_sub_cancel]
    rw [List.drop_left]
  rcases hfb with hfbt | hfbf
  · rw [hfbt]
    simp only [h4, if_false, if_neg h4, hdrop, htake, leToNat_crcLE crcv hcrc]
  · rw [hfbf]
    simp only [h4, if_false, if_neg h4, hdrop, htake, leToNat_crcLE crcv hcrc]
    simp

/-- Helper: the COF round-trip, shared by the C1 and C3 developments. -/
theorem cofDecode_cofEncode (zenc : List Nat → List Nat)
    (zdec : List Nat → Option (List Nat)) (hz : ∀ p, zdec (zenc p) = some p)
    (tag : TypeTag) (payload : List Nat) (hlen : payload.length < 2 ^ 64) :
    cofDecode zdec (cofEncode zenc tag payload) = .ok (tag, payload) := by
  by_cases hcmp : 64 < payload.length
  · have henc : cofEncode zenc tag payload
        = 67 :: 76 :: 87 :: 49 :: 1 :: tag.toU8 :: 1 :: 1 ::
          (encodeUvarint payload.length ++ zenc payload ++ crcLE (crc32 payload)) := by
      simp [cofEncode, hcmp]
    rw [henc, cofDecode_frame zdec tag 1 payload.length (crc32 payload) (zenc payload)
      hlen (crc32_lt payload) (Or.inl rfl)]
    rw [hz payload]
    simp [compressionFromU8]
  · have henc : cofEncode zenc tag payload
        = 67 :: 76 :: 87 :: 49 :: 1 :: tag.toU8 :: 0 :: 0 ::
          (encodeUvarint payload.length ++ payload ++ crcLE (crc32 payload)) := by
      simp [cofEncode, hcmp]
    rw [henc, cofDecode_frame zdec tag 0 payload.length (crc32 payload) payload
      hlen (crc32_lt payload) (Or.inr rfl)]
    simp [compressionFromU8]

/-- **C3.** For every type tag among the twelve kinds and every payload byte
string (of machine length, i.e. below `2^64`),
`cof_decode(cof_encode(type_tag, payload))` succeeds and returns exactly
`(type_tag, payload)`.  `zenc`/`zdec` model the external zstd library under
its round-trip contract `hz` (the compressed branch is taken whenever the
payload exceeds 64 bytes). -/
theorem C3_cof_roundtrip (zenc : List Nat → List Nat)
    (zdec : List Nat → Option (List Nat)) (hz : ∀ p, zdec (zenc p) = some p)
    (tag : TypeTag) (payload : List Nat) (hlen : payload.length < 2 ^ 64) :
    cofDecode zdec (cofEncode zenc tag payload) = .ok (tag, payload) :=
  cofDecode_cofEncode zenc zdec hz tag payload hlen

/-- Witness for C3 at a concrete input: the identity compressor satisfies the
zstd contract, and a concrete 80-byte tree payload (long enough to take the
compressed branch) round-trips. -/
theorem C3_cof_roundtrip_witness :
    cofDecode some (cofEncode id TypeTag.tree (List.replicate 80 7))
      = .ok (TypeTag.tree, List.replicate 80 7) :=
  C3_cof_roundtrip id some (fun _ => rfl) TypeTag.tree (List.replicate 80 7)
    (by decide)

/-! ## Identifiers and the twelve object kinds (claw-core/src/id.rs, types/) -/

/-- `ObjectId`: a 32-byte BLAKE3 hash (id.rs), modelled as its byte list.
Well-formed ids have length 32 (the Rust `[u8; 32]` invariant); theorems that
depend on that length state it via `objWF`. -/
abbrev ObjectId := List Nat

/-- `IntentId` / `ChangeId`: 16-byte ULIDs (id.rs), modelled as byte lists. -/
abbrev UlidBytes := List Nat

structure Blob where
  data : List Nat
  mediaType : Option String
deriving DecidableEq, Repr

inductive FileMode where
  | regular | executable | symlink | directory
deriving DecidableEq, Repr

structure TreeEntry where
  name : String
  mode : FileMode
  objectId : ObjectId
deriving DecidableEq, Repr

structure Tree where
  entries : List TreeEntry
deriving DecidableEq, Repr

/-- `PatchOp` (types/patch.rs), byte-data view as stored in objects. -/
structure PatchOpB where
  address : String
  opType : String
  oldData : Option (List Nat)
  newData : Option (List Nat)
  contextHash : Option Nat
deriving DecidableEq, Repr

structure PatchB where
  targetPath : String
  codecId : String
  baseObject : Option ObjectId
  resultObject : Option ObjectId
  ops : List PatchOpB
  codecPayload : Option (List Nat)
deriving DecidableEq, Repr

structure Revision where
  changeId : Option UlidBytes
  parents : List ObjectId
  patches : List ObjectId
  snapshotBase : Option ObjectId
  tree : Option ObjectId
  capsuleId : Option ObjectId
  author : String
  createdAtMs : Nat
  summary : String
  policyEvidence : List String
deriving DecidableEq, Repr

structure Snapshot where
  treeRoot : ObjectId
  revisionId : ObjectId
  createdAtMs : Nat
deriving DecidableEq, Repr

inductive IntentStatus where
  | open | blocked | done | superseded
deriving DecidableEq, Repr

structure Intent where
  id : UlidBytes
  title : String
  goal : String
  constraints : List String
  acceptanceTests : List String
  links : List String
  policyRefs : List String
  agents : List String
  changeIds : List String
  dependsOn : List String
  supersedes : List String
  status : IntentStatus
  createdAtMs : Nat
  updatedAtMs : Nat
deriving DecidableEq, Repr

inductive ChangeStatus where
  | open | ready | integrated | abandoned
deriving DecidableEq, Repr

structure Change where
  id : UlidBytes
  intentId : UlidBytes
  headRevision : Option ObjectId
  workstreamId : Option String
  status : ChangeStatus
  createdAtMs : Nat
  updatedAtMs : Nat
deriving DecidableEq, Repr

inductive ConflictStatus where
  | open | resolved
deriving DecidableEq, Repr

structure Conflict where
  baseRevision : Option ObjectId
  leftRevision : ObjectId
  rightRevision : ObjectId
  filePath : String
  codecId : String
  leftPatchIds : List ObjectId
  rightPatchIds : List ObjectId
  resolutionPatchIds : List ObjectId
  status : ConflictStatus
  createdAtMs : Nat
deriving DecidableEq, Repr

structure Evidence where
  name : String
  status : String
  durationMs : Nat
  artifactRefs : List String
  summary : Option String
deriving DecidableEq, Repr

structure CapsulePublic where
  agentId : String
  agentVersion : Option String
  toolchainDigest : Option String
  envFingerprint : Option String
  evidence : List Evidence
deriving DecidableEq, Repr

structure CapsuleSignature where
  signerId : String
  signature : List Nat
deriving DecidableEq, Repr

structure Capsule where
  revisionId : ObjectId
  publicFields : CapsulePublic
  encryptedPrivate : Option (List Nat)
  encryption : String
  keyId : Option String
  signatures : List CapsuleSignature
deriving DecidableEq, Repr

inductive Visibility where
  | publicV | privateV | restricted
deriving DecidableEq, Repr

structure Policy where
  policyId : String
  requiredChecks : List String
  requiredReviewers : List String
  sensitivePaths : List String
  quarantineLane : Bool
  minTrustScore : Option String
  visibility : Visibility
deriving DecidableEq, Repr

structure Workstream where
  workstreamId : String
  changeStack : List UlidBytes
deriving DecidableEq, Repr

structure RefLogEntryO where
  oldTarget : Option ObjectId
  newTarget : ObjectId
  author : String
  message : String
  timestamp : Nat
deriving DecidableEq, Repr

structure RefLogO where
  refName : String
  entries : List RefLogEntryO
deriving DecidableEq, Repr

/-- `Object` (object.rs): the tagged sum of the twelve kinds. -/
inductive Object where
  | blob (b : Blob)
  | tree (t : Tree)
  | patch (p : PatchB)
  | revision (r : Revision)
  | snapshot (s : Snapshot)
  | intent (i : Intent)
  | change (c : Change)
  | conflict (c : Conflict)
  | capsule (c : Capsule)
  | policy (p : Policy)
  | workstream (w : Workstream)
  | reflog (r : RefLogO)
deriving DecidableEq, Repr

/-- `Object::type_tag`. -/
def Object.typeTag : Object → TypeTag
  | .blob _ => .blob
  | .tree _ => .tree
  | .patch _ => .patch
  | .revision _ => .revision
  | .snapshot _ => .snapshot
  | .intent _ => .intent
  | .change _ => .change
  | .conflict _ => .conflict
  | .capsule _ => .capsule
  | .policy _ => .policy
  | .workstream _ => .workstream
  | .reflog _ => .reflog

/-! ## Prost-generated proto messages (shapes as used by proto_conv.rs)

The prost `encode`/`decode` functions themselves are external library code;
they are modelled as parameters `penc`/`pdec` constrained by the prost
contract `decode(encode(m)) = m`.  The message structs below mirror the
generated `common`/`objects` protos field-for-field as `proto_conv.rs`
reads and writes them (proto3 scalars carry defaults instead of options). -/

structure PObjectId where
  hash : List Nat
deriving DecidableEq, Repr

structure PUlid where
  data : List Nat
deriving DecidableEq, Repr

structure PBlob where
  data : List Nat
  mediaType : String
deriving DecidableEq, Repr

structure PTreeEntry where
  name : String
  mode : Nat
  objectId : Option PObjectId
deriving DecidableEq, Repr

structure PTree where
  entries : List PTreeEntry
deriving DecidableEq, Repr

structure PPatchOp where
  address : String
  opType : String
  oldData : List Nat
  newData : List Nat
  contextHash : Nat
deriving DecidableEq, Repr

structure PPatch where
  targetPath : String
  codecId : String
  baseObject : Option PObjectId
  resultObject : Option PObjectId
  ops : List PPatchOp
  codecPayload : List Nat
deriving DecidableEq, Repr

structure PRevision where
  changeId : Option PUlid
  parents : List PObjectId
  patches : List PObjectId
  snapshotBase : Option PObjectId
  tree : Option PObjectId
  capsuleId : Option PObjectId
  author : String
  createdAtMs : Nat
  summary : String
  policyEvidence : List String
deriving DecidableEq, Repr

structure PSnapshot where
  treeRoot : Option PObjectId
  revisionId : Option PObjectId
  createdAtMs : Nat
deriving DecidableEq, Repr

structure PIntent where
  id : Option PUlid
  title : String
  goal : String
  constraints : List String
  acceptanceTests : List String
  links : List String
  policyRefs : List String
  agents : List String
  changeIds : List String
  dependsOn : List String
  supersedes : List String
  status : String
  createdAtMs : Nat
  updatedAtMs : Nat
deriving DecidableEq, Repr

structure PChange where
  id : Option PUlid
  intentId : Option PUlid
  headRevision : Option PObjectId
  workstreamId : String
  status : String
  createdAtMs : Nat
  updatedAtMs : Nat
deriving DecidableEq, Repr

structure PConflict where
  baseRevision : Option PObjectId
  leftRevision : Option PObjectId
  rightRevision : Option PObjectId
  filePath : String
  codecId : String
  leftPatchIds : List PObjectId
  rightPatchIds : List PObjectId
  resolutionPatchIds : List PObjectId
  status : String
  createdAtMs : Nat
deriving DecidableEq, Repr

structure PEvidence where
  name : String
  status : String
  durationMs : Nat
  artifactRefs : List String
  summary : String
deriving DecidableEq, Repr

structure PCapsulePublic where
  agentId : String
  agentVersion : String
  toolchainDigest : String
  envFingerprint : String
  evidence : List PEvidence
deriving DecidableEq, Repr

structure PCapsuleSignature where
  signerId : String
  signature : List Nat
deriving DecidableEq, Repr

structure PCapsule where
  revisionId : Option PObjectId
  publicFields : Option PCapsulePublic
  encryptedPrivate : List Nat
  encryption : String
  keyId : String
  signatures : List PCapsuleSignature
deriving DecidableEq, Repr

structure PPolicy where
  policyId : String
  requiredChecks : List String
  requiredReviewers : List String
  sensitivePaths : List String
  quarantineLane : Bool
  minTrustScore : String
  visibility : String
deriving DecidableEq, Repr

structure PWorkstream where
  workstreamId : String
  changeStack : List PUlid
deriving DecidableEq, Repr

structure PRefLogEntry where
  oldTarget : Option PObjectId
  newTarget : Option PObjectId
  author : String
  message : String
  timestamp : Nat
deriving DecidableEq, Repr

structure PRefLog where
  refName : String
  entries : List PRefLogEntry
deriving DecidableEq, Repr

/-- The sum of the twelve proto messages; `pdec` is dispatched on the type
tag just as `deserialize_object` calls `decode::<po::X>` per tag. -/
inductive ProtoObject where
  | blob (m : PBlob)
  | tree (m : PTree)
  | patch (m : PPatch)
  | revision (m : PRevision)
  | snapshot (m : PSnapshot)
  | intent (m : PIntent)
  | change (m : PChange)
  | conflict (m : PConflict)
  | capsule (m : PCapsule)
  | policy (m : PPolicy)
  | workstream (m : PWorkstream)
  | reflog (m : PRefLog)
deriving DecidableEq, Repr

def ProtoObject.tag : ProtoObject → TypeTag
  | .blob _ => .blob
  | .tree _ => .tree
  | .patch _ => .patch
  | .revision _ => .revision
  | .snapshot _ => .snapshot
  | .intent _ => .intent
  | .change _ => .change
  | .conflict _ => .conflict
  | .capsule _ => .capsule
  | .policy _ => .policy
  | .workstream _ => .workstream
  | .reflog _ => .reflog

/-! ## Conversions between hand-written types and proto types (proto_conv.rs) -/

def oidToProto (id : ObjectId) : PObjectId := ⟨id⟩

/-- `oid_from_proto`: the `[u8; 32]` try-into check. -/
def oidFromProto (p : PObjectId) : Except String ObjectId :=
  if p.hash.length = 32 then .ok p.hash else .error "invalid ObjectId length"

def optOidToProto (id : Option ObjectId) : Option PObjectId :=
  id.map oidToProto

/-- `opt_oid_from_proto`: absent or empty-hash ids decode to `None`. -/
def optOidFromProto (p : Option PObjectId) : Except String (Option ObjectId) :=
  match p with
  | some o => if o.hash ≠ [] then (oidFromProto o).map some else .ok none
  | none => .ok none

def ulidToProto (id : UlidBytes) : PUlid := ⟨id⟩

/-- `ulid_from_proto_intent` / `change_id_from_proto`: the `[u8; 16]` check. -/
def ulidFromProto (p : PUlid) : Except String UlidBytes :=
  if p.data.length = 16 then .ok p.data else .error "invalid ULID length"

def blobToProto (b : Blob) : PBlob :=
  ⟨b.data, b.mediaType.getD ""⟩

def blobFromProto (p : PBlob) : Except String Blob :=
  .ok ⟨p.data, if p.mediaType = "" then none else some p.mediaType⟩

def fileModeToProto : FileMode → Nat
  | .regular => 0o100644
  | .executable => 0o100755
  | .symlink => 0o120000
  | .directory => 0o040000

def fileModeFromProto (n : Nat) : FileMode :=
  if n = 0o100755 then .executable
  else if n = 0o120000 then .symlink
  else if n = 0o040000 then .directory
  else .regular

def treeToProto (t : Tree) : PTree :=
  ⟨t.entries.map fun e => ⟨e.name, fileModeToProto e.mode, some (oidToProto e.objectId)⟩⟩

def treeEntryFromProto (e : PTreeEntry) : Except String TreeEntry := do
  let pid ← match e.objectId with
    | some o => pure o
    | none => .error "missing object_id"
  let objectId ← oidFromProto pid
  .ok ⟨e.name, fileModeFromProto e.mode, objectId⟩

def treeFromProto (p : PTree) : Except String Tree := do
  let entries ← p.entries.mapM treeEntryFromProto
  .ok ⟨entries⟩

def patchOpToProto (op : PatchOpB) : PPatchOp :=
  ⟨op.address, op.opType, op.oldData.getD [], op.newData.getD [], op.contextHash.getD 0⟩

def patchOpFromProto (op : PPatchOp) : PatchOpB :=
  ⟨op.address, op.opType,
    if op.oldData = [] then none else some op.oldData,
    if op.newData = [] then none else some op.newData,
    if op.contextHash = 0 then none else some op.contextHash⟩

def patchToProto (p : PatchB) : PPatch :=
  ⟨p.targetPath, p.codecId, optOidToProto p.baseObject, optOidToProto p.resultObject,
    p.ops.map patchOpToProto, p.codecPayload.getD []⟩

def patchFromProto (p : PPatch) : Except String PatchB := do
  let baseObject ← optOidFromProto p.baseObject
  let resultObject ← optOidFromProto p.resultObject
  .ok ⟨p.targetPath, p.codecId, baseObject, resultObject,
    p.ops.map patchOpFromProto,
    if p.codecPayload = [] then none else some p.codecPayload⟩

def revisionToProto (r : Revision) : PRevision :=
  ⟨r.changeId.map ulidToProto, r.parents.map oidToProto, r.patches.map oidToProto,
    optOidToProto r.snapshotBase, optOidToProto r.tree, optOidToProto r.capsuleId,
    r.author, r.createdAtMs, r.summary, r.policyEvidence⟩

def revisionFromProto (p : PRevision) : Except String Revision := do
  let changeId ← match p.changeId with
    | some u => if u.data ≠ [] then (ulidFromProto u).map some else pure none
    | none => pure none
  let parents ← p.parents.mapM oidFromProto
  let patches ← p.patches.mapM oidFromProto
  let snapshotBase ← optOidFromProto p.snapshotBase
  let tree ← optOidFromProto p.tree
  let capsuleId ← optOidFromProto p.capsuleId
  .ok ⟨changeId, parents, patches, snapshotBase, tree, capsuleId,
    p.author, p.createdAtMs, p.summary, p.policyEvidence⟩

def snapshotToProto (s : Snapshot) : PSnapshot :=
  ⟨some (oidToProto s.treeRoot), some (oidToProto s.revisionId), s.createdAtMs⟩

def snapshotFromProto (p : PSnapshot) : Except String Snapshot := do
  let treeRoot ← match p.treeRoot with
    | some o => oidFromProto o
    | none => .error "missing tree_root"
  let revisionId ← match p.revisionId with
    | some o => oidFromProto o
    | none => .error "missing revision_id"
  .ok ⟨treeRoot, revisionId, p.createdAtMs⟩

def intentStatusToProto : IntentStatus → String
  | .open => "open"
  | .blocked => "blocked"
  | .done => "done"
  | .superseded => "superseded"

def intentStatusFromProto (s : String) : IntentStatus :=
  if s = "open" then .open
  else if s = "blocked" then .blocked
  else if s = "done" then .done
  else if s = "superseded" then .superseded
  else .open

def intentToProto (i : Intent) : PIntent :=
  ⟨some (ulidToProto i.id), i.title, i.goal, i.constraints, i.acceptanceTests,
    i.links, i.policyRefs, i.agents, i.changeIds, i.dependsOn, i.supersedes,
    intentStatusToProto i.status, i.createdAtMs, i.updatedAtMs⟩

def intentFromProto (p : PIntent) : Except String Intent := do
  let id ← match p.id with
    | some u => ulidFromProto u
    | none => .error "missing intent id"
  .ok ⟨id, p.title, p.goal, p.constraints, p.acceptanceTests, p.links,
    p.policyRefs, p.agents, p.changeIds, p.dependsOn, p.supersedes,
    intentStatusFromProto p.status, p.createdAtMs, p.updatedAtMs⟩

def changeStatusToProto : ChangeStatus → String
  | .open => "open"
  | .ready => "ready"
  | .integrated => "integrated"
  | .abandoned => "abandoned"

def changeStatusFromProto (s : String) : ChangeStatus :=
  if s = "open" then .open
  else if s = "ready" then .ready
  else if s = "integrated" then .integrated
  else if s = "abandoned" then .abandoned
  else .open

def changeToProto (c : Change) : PChange :=
  ⟨some (ulidToProto c.id), some (ulidToProto c.intentId),
    optOidToProto c.headRevision, c.workstreamId.getD "",
    changeStatusToProto c.status, c.createdAtMs, c.updatedAtMs⟩

def changeFromProto (p : PChange) : Except String Change := do
  let id ← match p.id with
    | some u => ulidFromProto u
    | none => .error "missing change id"
  let intentId ← match p.intentId with
    | some u => ulidFromProto u
    | none => .error "missing intent_id"
  let headRevision ← optOidFromProto p.headRevision
  .ok ⟨id, intentId, headRevision,
    if p.workstreamId = "" then none else some p.workstreamId,
    changeStatusFromProto p.status, p.createdAtMs, p.updatedAtMs⟩

def conflictStatusToProto : ConflictStatus → String
  | .open => "open"
  | .resolved => "resolved"

def conflictStatusFromProto (s : String) : ConflictStatus :=
  if s = "resolved" then .resolved else .open

def conflictToProto (c : Conflict) : PConflict :=
  ⟨optOidToProto c.baseRevision, some (oidToProto c.leftRevision),
    some (oidToProto c.rightRevision), c.filePath, c.codecId,
    c.leftPatchIds.map oidToProto, c.rightPatchIds.map oidToProto,
    c.resolutionPatchIds.map oidToProto,
    conflictStatusToProto c.status, c.createdAtMs⟩

def conflictFromProto (p : PConflict) : Except String Conflict := do
  let leftRevision ← match p.leftRevision with
    | some o => oidFromProto o
    | none => .error "missing left_revision"
  let rightRevision ← match p.rightRevision with
    | some o => oidFromProto o
    | none => .error "missing right_revision"
  let baseRevision ← optOidFromProto p.baseRevision
  let leftPatchIds ← p.leftPatchIds.mapM oidFromProto
  let rightPatchIds ← p.rightPatchIds.mapM oidFromProto
  let resolutionPatchIds ← p.resolutionPatchIds.mapM oidFromProto
  .ok ⟨baseRevision, leftRevision, rightRevision, p.filePath, p.codecId,
    leftPatchIds, rightPatchIds, resolutionPatchIds,
    conflictStatusFromProto p.status, p.createdAtMs⟩

def evidenceToProto (e : Evidence) : PEvidence :=
  ⟨e.name, e.status, e.durationMs, e.artifactRefs, e.summary.getD ""⟩

def evidenceFromProto (e : PEvidence) : Evidence :=
  ⟨e.name, e.status, e.durationMs, e.artifactRefs,
    if e.summary = "" then none else some e.summary⟩

def capsuleToProto (c : Capsule) : PCapsule :=
  ⟨some (oidToProto c.revisionId),
    some ⟨c.publicFields.agentId, c.publicFields.agentVersion.getD "",
      c.publicFields.toolchainDigest.getD "", c.publicFields.envFingerprint.getD "",
      c.publicFields.evidence.map evidenceToProto⟩,
    c.encryptedPrivate.getD [], c.encryption, c.keyId.getD "",
    c.signatures.map fun s => ⟨s.signerId, s.signature⟩⟩

def capsuleFromProto (p : PCapsule) : Except String Capsule := do
  let revisionId ← match p.revisionId with
    | some o => oidFromProto o
    | none => .error "missing revision_id"
  let pubFields ← match p.publicFields with
    | some f => pure f
    | none => .error "missing public_fields"
  .ok ⟨revisionId,
    ⟨pubFields.agentId,
      if pubFields.agentVersion = "" then none else some pubFields.agentVersion,
      if pubFields.toolchainDigest = "" then none else some pubFields.toolchainDigest,
      if pubFields.envFingerprint = "" then none else some pubFields.envFingerprint,
      pubFields.evidence.map evidenceFromProto⟩,
    if p.encryptedPrivate = [] then none else some p.encryptedPrivate,
    p.encryption,
    if p.keyId = "" then none else some p.keyId,
    p.signatures.map fun s => ⟨s.signerId, s.signature⟩⟩

def visibilityToProto : Visibility → String
  | .publicV => "public"
  | .privateV => "private"
  | .restricted => "restricted"

def visibilityFromProto (s : String) : Visibility :=
  if s = "private" then .privateV
  else if s = "restricted" then .restricted
  else .publicV

def policyToProto (p : Policy) : PPolicy :=
  ⟨p.policyId, p.requiredChecks, p.requiredReviewers, p.sensitivePaths,
    p.quarantineLane, p.minTrustScore.getD "", visibilityToProto p.visibility⟩

def policyFromProto (p : PPolicy) : Except String Policy :=
  .ok ⟨p.policyId, p.requiredChecks, p.requiredReviewers, p.sensitivePaths,
    p.quarantineLane,
    if p.minTrustScore = "" then none else some p.minTrustScore,
    visibilityFromProto p.visibility⟩

def workstreamToProto (w : Workstream) : PWorkstream :=
  ⟨w.workstreamId, w.changeStack.map ulidToProto⟩

def workstreamFromProto (p : PWorkstream) : Except String Workstream := do
  let changeStack ← p.changeStack.mapM ulidFromProto
  .ok ⟨p.workstreamId, changeStack⟩

def reflogToProto (r : RefLogO) : PRefLog :=
  ⟨r.refName, r.entries.map fun e =>
    ⟨optOidToProto e.oldTarget, some (oidToProto e.newTarget), e.author, e.message,
      e.timestamp⟩⟩

def reflogEntryFromProto (e : PRefLogEntry) : Except String RefLogEntryO := do
  let newTarget ← match e.newTarget with
    | some o => oidFromProto o
    | none => .error "missing new_target"
  let oldTarget ← optOidFromProto e.oldTarget
  .ok ⟨oldTarget, newTarget, e.author, e.message, e.timestamp⟩

def reflogFromProto (p : PRefLog) : Except String RefLogO := do
  let entries ← p.entries.mapM reflogEntryFromProto
  .ok ⟨p.refName, entries⟩

/-- `serialize_object`'s conversion half: the proto message for an object. -/
def objToProto : Object → ProtoObject
  | .blob b => .blob (blobToProto b)
  | .tree t => .tree (treeToProto t)
  | .patch p => .patch (patchToProto p)
  | .revision r => .revision (revisionToProto r)
  | .snapshot s => .snapshot (snapshotToProto s)
  | .intent i => .intent (intentToProto i)
  | .change c => .change (changeToProto c)
  | .conflict c => .conflict (conflictToProto c)
  | .capsule c => .capsule (capsuleToProto c)
  | .policy p => .policy (policyToProto p)
  | .workstream w => .workstream (workstreamToProto w)
  | .reflog r => .reflog (reflogToProto r)

/-- `deserialize_object`'s conversion half: per-tag message interpretation.
A message of the wrong kind for the tag cannot arise from prost's typed
`decode::<po::X>`; it is rejected here. -/
def objFromProto (tag : TypeTag) (m : ProtoObject) : Except String Object :=
  match tag, m with
  | .blob, .blob b => (blobFromProto b).map .blob
  | .tree, .tree t => (treeFromProto t).map .tree
  | .patch, .patch p => (patchFromProto p).map .patch
  | .revision, .revision r => (revisionFromProto r).map .revision
  | .snapshot, .snapshot s => (snapshotFromProto s).map .snapshot
  | .intent, .intent i => (intentFromProto i).map .intent
  | .change, .change c => (changeFromProto c).map .change
  | .conflict, .conflict c => (conflictFromProto c).map .conflict
  | .capsule, .capsule c => (capsuleFromProto c).map .capsule
  | .policy, .policy p => (policyFromProto p).map .policy
  | .workstream, .workstream w => (workstreamFromProto w).map .workstream
  | .reflog, .reflog r => (reflogFromProto r).map .reflog
  | _, _ => .error "message kind does not match type tag"

/-! ## Normalization performed by the proto round-trip

proto3 cannot distinguish an absent optional field from one set to the
default value: `proto_conv.rs` writes `Some("")`/`Some(vec![])`/`Some(0)` as
the default and reads the default back as `None`.  `normObject` states that
collapse; everything else survives the round-trip exactly. -/

def strNorm : Option String → Option String
  | some s => if s = "" then none else some s
  | none => none

def bytesNorm : Option (List Nat) → Option (List Nat)
  | some b => if b = [] then none else some b
  | none => none

def ctxNorm : Option Nat → Option Nat
  | some n => if n = 0 then none else some n
  | none => none

def normPatchOp (op : PatchOpB) : PatchOpB :=
  ⟨op.address, op.opType, bytesNorm op.oldData, bytesNorm op.newData,
    ctxNorm op.contextHash⟩

def normObject : Object → Object
  | .blob b => .blob ⟨b.data, strNorm b.mediaType⟩
  | .tree t => .tree t
  | .patch p => .patch ⟨p.targetPath, p.codecId, p.baseObject, p.resultObject,
      p.ops.map normPatchOp, bytesNorm p.codecPayload⟩
  | .revision r => .revision r
  | .snapshot s => .snapshot s
  | .intent i => .intent i
  | .change c => .change ⟨c.id, c.intentId, c.headRevision, strNorm c.workstreamId,
      c.status, c.createdAtMs, c.updatedAtMs⟩
  | .conflict c => .conflict c
  | .capsule c => .capsule ⟨c.revisionId,
      ⟨c.publicFields.agentId, strNorm c.publicFields.agentVersion,
        strNorm c.publicFields.toolchainDigest, strNorm c.publicFields.envFingerprint,
        c.publicFields.evidence.map fun e =>
          ⟨e.name, e.status, e.durationMs, e.artifactRefs, strNorm e.summary⟩⟩,
      bytesNorm c.encryptedPrivate, c.encryption, strNorm c.keyId, c.signatures⟩
  | .policy p => .policy ⟨p.policyId, p.requiredChecks, p.requiredReviewers,
      p.sensitivePaths, p.quarantineLane, strNorm p.minTrustScore, p.visibility⟩
  | .workstream w => .workstream w
  | .reflog r => .reflog r

/-! ## Well-formedness: the Rust fixed-size id invariants (`[u8; 32]`, `[u8; 16]`) -/

def oidWF (id : ObjectId) : Bool := id.length = 32

def ulidWF (u : UlidBytes) : Bool := u.length = 16

def optBWF (f : α → Bool) : Option α → Bool
  | some x => f x
  | none => true

def Object.wf : Object → Bool
  | .blob _ => true
  | .tree t => t.entries.all fun e => oidWF e.objectId
  | .patch p => optBWF oidWF p.baseObject && optBWF oidWF p.resultObject
  | .revision r => optBWF ulidWF r.changeId && r.parents.all oidWF &&
      r.patches.all oidWF && optBWF oidWF r.snapshotBase && optBWF oidWF r.tree &&
      optBWF oidWF r.capsuleId
  | .snapshot s => oidWF s.treeRoot && oidWF s.revisionId
  | .intent i => ulidWF i.id
  | .change c => ulidWF c.id && ulidWF c.intentId && optBWF oidWF c.headRevision
  | .conflict c => optBWF oidWF c.baseRevision && oidWF c.leftRevision &&
      oidWF c.rightRevision && c.leftPatchIds.all oidWF &&
      c.rightPatchIds.all oidWF && c.resolutionPatchIds.all oidWF
  | .capsule c => oidWF c.revisionId
  | .policy _ => true
  | .workstream w => w.changeStack.all ulidWF
  | .reflog r => r.entries.all fun e => optBWF oidWF e.oldTarget && oidWF e.newTarget

/-! ## Round-trip lemmas for the proto conversions -/


theorem exMap_ok (f : α → β) (a : α) :
    Except.map (ε := ε) f (.ok a) = .ok (f a) := rfl

theorem exBind_ok (a : α) (f : α → Except ε β) :
    (Except.ok a >>= f) = f a := rfl

theorem exPure (a : α) : (pure a : Except ε α) = .ok a := rfl

theorem optBind_some (a : α) (f : α → Option β) : (some a >>= f) = f a := rfl

theorem optPure (a : α) : (pure a : Option α) = some a := rfl

theorem oid_round (id : ObjectId) (h : oidWF id = true) :
    oidFromProto (oidToProto id) = .ok id := by
  simp only [oidWF, decide_eq_true_eq] at h
  simp [oidFromProto, oidToProto, h]

theorem oid_ne_nil (id : ObjectId) (h : oidWF id = true) : id ≠ [] := by
  simp only [oidWF, decide_eq_true_eq] at h
  intro hnil
  rw [hnil] at h
  simp at h

theorem optOid_round (o : Option ObjectId) (h : optBWF oidWF o = true) :
    optOidFromProto (optOidToProto o) = .ok o := by
  cases o with
  | none => rfl
  | some id =>
    simp only [optBWF] at h
    simp [optOidFromProto, optOidToProto, oidToProto, oid_ne_nil id h, oid_round id h,
      oidFromProto, exMap_ok, (by simpa [oidWF] using h : id.length = 32)]

theorem oids_round (ids : List ObjectId) (h : ids.all oidWF = true) :
    (ids.map oidToProto).mapM oidFromProto = Except.ok (ε := String) ids := by
  induction ids with
  | nil => rfl
  | cons x xs ihx =>
    simp only [List.all_cons, Bool.and_eq_true] at h
    simp only [List.map_cons, List.mapM_cons, oid_round x h.1, ihx h.2,
      exBind_ok, exPure]

theorem ulid_round (u : UlidBytes) (h : ulidWF u = true) :
    ulidFromProto (ulidToProto u) = .ok u := by
  simp only [ulidWF, decide_eq_true_eq] at h
  simp [ulidFromProto, ulidToProto, h]

theorem ulid_ne_nil (u : UlidBytes) (h : ulidWF u = true) : u ≠ [] := by
  simp only [ulidWF, decide_eq_true_eq] at h
  intro hnil
  rw [hnil] at h
  simp at h

theorem ulids_round (us : List UlidBytes) (h : us.all ulidWF = true) :
    (us.map ulidToProto).mapM ulidFromProto = Except.ok (ε := String) us := by
  induction us with
  | nil => rfl
  | cons x xs ihx =>
    simp only [List.all_cons, Bool.and_eq_true] at h
    simp only [List.map_cons, List.mapM_cons, ulid_round x h.1, ihx h.2,
      exBind_ok, exPure]

theorem strNorm_round (m : Option String) :
    (if m.getD "" = "" then none else some (m.getD "")) = strNorm m := by
  cases m with
  | none => rfl
  | some s =>
    by_cases hs : s = "" <;> simp [strNorm, hs]

theorem bytesNorm_round (m : Option (List Nat)) :
    (if m.getD [] = [] then none else some (m.getD [])) = bytesNorm m := by
  cases m with
  | none => rfl
  | some s =>
    by_cases hs : s = [] <;> simp [bytesNorm, hs]

theorem ctxNorm_round (m : Option Nat) :
    (if m.getD 0 = 0 then none else some (m.getD 0)) = ctxNorm m := by
  cases m with
  | none => rfl
  | some s =>
    by_cases hs : s = 0 <;> simp [ctxNorm, hs]

theorem fileMode_round (m : FileMode) : fileModeFromProto (fileModeToProto m) = m := by
  cases m <;> rfl

theorem intentStatus_round (s : IntentStatus) :
    intentStatusFromProto (intentStatusToProto s) = s := by
  cases s <;> rfl

theorem changeStatus_round (s : ChangeStatus) :
    changeStatusFromProto (changeStatusToProto s) = s := by
  cases s <;> rfl

theorem conflictStatus_round (s : ConflictStatus) :
    conflictStatusFromProto (conflictStatusToProto s) = s := by
  cases s <;> rfl

theorem visibility_round (v : Visibility) :
    visibilityFromProto (visibilityToProto v) = v := by
  cases v <;> rfl

theorem treeEntries_round (es : List TreeEntry)
    (h : (es.all fun e => oidWF e.objectId) = true) :
    (es.map fun e => PTreeEntry.mk e.name (fileModeToProto e.mode)
        (some (oidToProto e.objectId))).mapM treeEntryFromProto
      = Except.ok (ε := String) es := by
  induction es with
  | nil => rfl
  | cons x xs ihx =>
    obtain ⟨n, m, oid⟩ := x
    simp only [List.all_cons, Bool.and_eq_true] at h
    have hx : treeEntryFromProto ⟨n, fileModeToProto m, some (oidToProto oid)⟩
        = .ok ⟨n, m, oid⟩ := by
      simp only [treeEntryFromProto, oid_round oid h.1, fileMode_round,
        exBind_ok, exPure]
    simp only [List.map_cons, List.mapM_cons, hx, ihx h.2, exBind_ok, exPure]

theorem reflogEntries_round (es : List RefLogEntryO)
    (h : (es.all fun e => optBWF oidWF e.oldTarget && oidWF e.newTarget) = true) :
    (es.map fun e => PRefLogEntry.mk (optOidToProto e.oldTarget)
        (some (oidToProto e.newTarget)) e.author e.message e.timestamp).mapM
        reflogEntryFromProto
      = Except.ok (ε := String) es := by
  induction es with
  | nil => rfl
  | cons x xs ihx =>
    obtain ⟨oldT, newT, au, msg, ts⟩ := x
    simp only [List.all_cons, Bool.and_eq_true] at h
    have hx : reflogEntryFromProto
        ⟨optOidToProto oldT, some (oidToProto newT), au, msg, ts⟩
        = .ok ⟨oldT, newT, au, msg, ts⟩ := by
      simp only [reflogEntryFromProto, oid_round newT h.1.2,
        optOid_round oldT h.1.1, exBind_ok, exPure]
    simp only [List.map_cons, List.mapM_cons, hx, ihx h.2, exBind_ok, exPure]

/-- The serialize/deserialize conversion round-trip: for a well-formed object
the proto conversions return the object up to default-value normalization. -/
theorem objFromProto_objToProto (obj : Object) (h : obj.wf = true) :
    objFromProto obj.typeTag (objToProto obj) = .ok (normObject obj) := by
  cases obj with
  | blob b =>
    obtain ⟨d, mt⟩ := b
    simp only [Object.typeTag, objToProto, objFromProto, blobToProto, blobFromProto,
      exMap_ok, normObject, strNorm_round]
  | tree t =>
    obtain ⟨es⟩ := t
    simp only [Object.wf] at h
    simp only [Object.typeTag, objToProto, objFromProto, treeToProto, treeFromProto,
      normObject, treeEntries_round es h, exBind_ok, exPure, exMap_ok]
  | patch p =>
    obtain ⟨tp, ci, bo, ro, ops, cp⟩ := p
    simp only [Object.wf, Bool.and_eq_true] at h
    simp only [Object.typeTag, objToProto, objFromProto, patchToProto, patchFromProto,
      normObject, optOid_round _ h.1, optOid_round _ h.2, exBind_ok, exPure, exMap_ok,
      bytesNorm_round, List.map_map]
    have hops : (patchOpFromProto ∘ patchOpToProto) = normPatchOp := by
      funext op
      obtain ⟨a, t, od, nd, ch⟩ := op
      simp only [Function.comp, patchOpToProto, patchOpFromProto, normPatchOp,
        bytesNorm_round, ctxNorm_round]
    rw [hops]
  | revision r =>
    obtain ⟨ci, pa, ps, sb, tr, cap, au, ts, sm, pe⟩ := r
    simp only [Object.wf, Bool.and_eq_true] at h
    obtain ⟨⟨⟨⟨⟨hc, hp⟩, hpa⟩, hs⟩, ht⟩, hcap⟩ := h
    cases ci with
    | none =>
      simp only [Object.typeTag, objToProto, objFromProto, revisionToProto,
        revisionFromProto, normObject, Option.map_none', oids_round _ hp,
        oids_round _ hpa, optOid_round _ hs, optOid_round _ ht, optOid_round _ hcap,
        exBind_ok, exPure, exMap_ok]
    | some u =>
      simp only [optBWF] at hc
      simp only [Object.typeTag, objToProto, objFromProto, revisionToProto,
        revisionFromProto, normObject, Option.map_some', ne_eq,
        (show (ulidToProto u).data = u from rfl), ulid_ne_nil u hc,
        not_false_eq_true, if_true, ulid_round u hc, oids_round _ hp,
        oids_round _ hpa, optOid_round _ hs, optOid_round _ ht, optOid_round _ hcap,
        exBind_ok, exPure, exMap_ok]
  | snapshot s =>
    obtain ⟨tr, rv, ts⟩ := s
    simp only [Object.wf, Bool.and_eq_true] at h
    simp only [Object.typeTag, objToProto, objFromProto, snapshotToProto,
      snapshotFromProto, normObject, oid_round _ h.1, oid_round _ h.2,
      exBind_ok, exPure, exMap_ok]
  | intent i =>
    obtain ⟨id, ti, go, co, at_, li, pr, ag, chi, dep, sup, st, cr, up⟩ := i
    simp only [Object.wf] at h
    simp only [Object.typeTag, objToProto, objFromProto, intentToProto,
      intentFromProto, normObject, ulid_round _ h, intentStatus_round,
      exBind_ok, exPure, exMap_ok]
  | change c =>
    obtain ⟨id, iid, hr, wsid, st, cr, up⟩ := c
    simp only [Object.wf, Bool.and_eq_true] at h
    simp only [Object.typeTag, objToProto, objFromProto, changeToProto,
      changeFromProto, normObject, ulid_round _ h.1.1, ulid_round _ h.1.2,
      optOid_round _ h.2, changeStatus_round, strNorm_round,
      exBind_ok, exPure, exMap_ok]
  | conflict c =>
    obtain ⟨br, lr, rr, fp, ci, lp, rp, res, st, cr⟩ := c
    simp only [Object.wf, Bool.and_eq_true] at h
    obtain ⟨⟨⟨⟨⟨hb, hl⟩, hr⟩, hlp⟩, hrp⟩, hres⟩ := h
    simp only [Object.typeTag, objToProto, objFromProto, conflictToProto,
      conflictFromProto, normObject, optOid_round _ hb, oid_round _ hl,
      oid_round _ hr, oids_round _ hlp, oids_round _ hrp, oids_round _ hres,
      conflictStatus_round, exBind_ok, exPure, exMap_ok]
  | capsule c =>
    obtain ⟨rv, ⟨aid, av, td, ef, ev⟩, ep, en, ki, sg⟩ := c
    simp only [Object.wf] at h
    simp only [Object.typeTag, objToProto, objFromProto, capsuleToProto,
      capsuleFromProto, normObject, oid_round _ h, strNorm_round, bytesNorm_round,
      exBind_ok, exPure, exMap_ok, List.map_map]
    have hev : (evidenceFromProto ∘ evidenceToProto)
        = fun e : Evidence => Evidence.mk e.name e.status e.durationMs
            e.artifactRefs (strNorm e.summary) := by
      funext e
      obtain ⟨n, s, d, ar, sm⟩ := e
      simp only [Function.comp, evidenceToProto, evidenceFromProto, strNorm_round]
    rw [hev]
    have hsg : ((fun s : PCapsuleSignature => CapsuleSignature.mk s.signerId s.signature)
        ∘ (fun s : CapsuleSignature => PCapsuleSignature.mk s.signerId s.signature))
        = id := by
      funext s
      obtain ⟨si, sig⟩ := s
      rfl
    rw [hsg, List.map_id]
  | policy p =>
    obtain ⟨pid, rc, rr, sp, ql, mts, vis⟩ := p
    simp only [Object.typeTag, objToProto, objFromProto, policyToProto,
      policyFromProto, normObject, visibility_round, strNorm_round, exMap_ok]
  | workstream w =>
    obtain ⟨wid, cs⟩ := w
    simp only [Object.wf] at h
    simp only [Object.typeTag, objToProto, objFromProto, workstreamToProto,
      workstreamFromProto, normObject, ulids_round _ h, exBind_ok, exPure, exMap_ok]
  | reflog r =>
    obtain ⟨rn, es⟩ := r
    simp only [Object.wf] at h
    simp only [Object.typeTag, objToProto, objFromProto, reflogToProto,
      reflogFromProto, normObject, reflogEntries_round es h,
      exBind_ok, exPure, exMap_ok]

/-! ## An executable model of the prost codec

The main theorems quantify over any `penc`/`pdec` satisfying prost's
`decode(encode(m)) = m` contract.  For closed witnesses and counterexamples a
concrete contract-satisfying instance is needed; this section provides one: a
simple length-prefixed serializer for the proto messages with a verified
decoder.  (It is a stand-in for the external prost wire format, not a model of
protobuf wire bytes themselves.) -/

abbrev DecM (α : Type) := List Nat → Option (α × List Nat)

def decNat : DecM Nat
  | [] => none
  | b :: rest =>
    if b < 128 then some (b, rest)
    else match decNat rest with
      | some (v, r) => some (b - 128 + 128 * v, r)
      | none => none

theorem decNat_enc (n : Nat) : ∀ (rest : List Nat),
    decNat (encodeUvarint n ++ rest) = some (n, rest) := by
  induction n using Nat.strong_induction_on with
  | _ n ih =>
    intro rest
    rw [encodeUvarint_eq]
    split
    case isTrue hlt =>
      simp [decNat, hlt]
    case isFalse hge =>
      push_neg at hge
      have hrec := ih (n / 128) (Nat.div_lt_self (by omega) (by omega)) rest
      simp only [List.cons_append, List.append_eq, decNat, hrec]
      rw [if_neg (by omega)]
      have harith : n % 128 + 128 - 128 + 128 * (n / 128) = n := by omega
      rw [harith]

def encBool (b : Bool) : List Nat := [if b then 1 else 0]

def decBool : DecM Bool
  | [] => none
  | b :: rest => some (decide (b = 1), rest)

theorem decBool_enc (b : Bool) (rest : List Nat) :
    decBool (encBool b ++ rest) = some (b, rest) := by
  cases b <;> rfl

def encChar (c : Char) : List Nat := encodeUvarint c.toNat

def decChar : DecM Char := fun bs =>
  (decNat bs).map fun p => (Char.ofNat p.1, p.2)

theorem decChar_enc (c : Char) (rest : List Nat) :
    decChar (encChar c ++ rest) = some (c, rest) := by
  simp [decChar, encChar, decNat_enc]

def encListAux (f : α → List Nat) : List α → List Nat
  | [] => []
  | x :: xs => f x ++ encListAux f xs

def encListG (f : α → List Nat) (xs : List α) : List Nat :=
  encodeUvarint xs.length ++ encListAux f xs

def decListN (g : DecM α) : Nat → DecM (List α)
  | 0 => fun bs => some ([], bs)
  | n + 1 => fun bs =>
    match g bs with
    | some (x, r) =>
      match decListN g n r with
      | some (xs, r') => some (x :: xs, r')
      | none => none
    | none => none

def decListG (g : DecM α) : DecM (List α) := fun bs =>
  match decNat bs with
  | some (n, r) => decListN g n r
  | none => none

theorem decListN_enc (f : α → List Nat) (g : DecM α)
    (hfg : ∀ x rest, g (f x ++ rest) = some (x, rest)) (xs : List α) (rest : List Nat) :
    decListN g xs.length (encListAux f xs ++ rest) = some (xs, rest) := by
  induction xs with
  | nil => rfl
  | cons x xs ihx =>
    simp only [encListAux, List.length_cons, decListN, List.append_assoc, hfg, ihx]

theorem decListG_enc (f : α → List Nat) (g : DecM α)
    (hfg : ∀ x rest, g (f x ++ rest) = some (x, rest)) (xs : List α) (rest : List Nat) :
    decListG g (encListG f xs ++ rest) = some (xs, rest) := by
  simp only [decListG, encListG, List.append_assoc, decNat_enc,
    decListN_enc f g hfg]

def encStr (s : String) : List Nat := encListG encChar s.data

def decStr : DecM String := fun bs =>
  (decListG decChar bs).map fun p => (String.mk p.1, p.2)

theorem decStr_enc (s : String) (rest : List Nat) :
    decStr (encStr s ++ rest) = some (s, rest) := by
  simp [decStr, encStr, decListG_enc encChar decChar decChar_enc]

def encBytes (bs : List Nat) : List Nat := encListG encodeUvarint bs

def decBytes : DecM (List Nat) := decListG decNat

theorem decBytes_enc (bs rest : List Nat) :
    decBytes (encBytes bs ++ rest) = some (bs, rest) := by
  simp [decBytes, encBytes, decListG_enc encodeUvarint decNat decNat_enc]

def encOpt (f : α → List Nat) : Option α → List Nat
  | none => [0]
  | some x => 1 :: f x

def decOpt (g : DecM α) : DecM (Option α) := fun bs =>
  match bs with
  | [] => none
  | 0 :: rest => some (none, rest)
  | _ :: rest => (g rest).map fun p => (some p.1, p.2)

theorem decOpt_enc (f : α → List Nat) (g : DecM α)
    (hfg : ∀ x rest, g (f x ++ rest) = some (x, rest)) (o : Option α) (rest : List Nat) :
    decOpt g (encOpt f o ++ rest) = some (o, rest) := by
  cases o with
  | none => rfl
  | some x => simp [encOpt, decOpt, hfg]

def encPObjectId (m : PObjectId) : List Nat := encBytes m.hash

def decPObjectId : DecM PObjectId := fun bs => do
  let (h, r) ← decBytes bs
  pure (⟨h⟩, r)

theorem decPObjectId_enc (m : PObjectId) (rest : List Nat) :
    decPObjectId (encPObjectId m ++ rest) = some (m, rest) := by
  obtain ⟨h⟩ := m
  simp only [decPObjectId, encPObjectId, decBytes_enc, optBind_some, optPure, Option.map_some']

def encPUlid (m : PUlid) : List Nat := encBytes m.data

def decPUlid : DecM PUlid := fun bs => do
  let (d, r) ← decBytes bs
  pure (⟨d⟩, r)

theorem decPUlid_enc (m : PUlid) (rest : List Nat) :
    decPUlid (encPUlid m ++ rest) = some (m, rest) := by
  obtain ⟨d⟩ := m
  simp only [decPUlid, encPUlid, decBytes_enc, optBind_some, optPure, Option.map_some']

def encPBlob (m : PBlob) : List Nat := encBytes m.data ++ encStr m.mediaType

def decPBlob : DecM PBlob := fun bs => do
  let (d, r) ← decBytes bs
  let (mt, r') ← decStr r
  pure (⟨d, mt⟩, r')

theorem decPBlob_enc (m : PBlob) (rest : List Nat) :
    decPBlob (encPBlob m ++ rest) = some (m, rest) := by
  obtain ⟨d, mt⟩ := m
  simp only [decPBlob, encPBlob, List.append_assoc, decBytes_enc, decStr_enc, optBind_some, optPure, Option.map_some']

def encPTreeEntry (m : PTreeEntry) : List Nat :=
  encStr m.name ++ encodeUvarint m.mode ++ encOpt encPObjectId m.objectId

def decPTreeEntry : DecM PTreeEntry := fun bs => do
  let (n, r1) ← decStr bs
  let (md, r2) ← decNat r1
  let (oid, r3) ← decOpt decPObjectId r2
  pure (⟨n, md, oid⟩, r3)

theorem decPTreeEntry_enc (m : PTreeEntry) (rest : List Nat) :
    decPTreeEntry (encPTreeEntry m ++ rest) = some (m, rest) := by
  obtain ⟨n, md, oid⟩ := m
  simp only [decPTreeEntry, encPTreeEntry, List.append_assoc, decStr_enc, decNat_enc,
    decOpt_enc encPObjectId decPObjectId decPObjectId_enc, optBind_some, optPure, Option.map_some']

def encPTree (m : PTree) : List Nat := encListG encPTreeEntry m.entries

def decPTree : DecM PTree := fun bs => do
  let (es, r) ← decListG decPTreeEntry bs
  pure (⟨es⟩, r)

theorem decPTree_enc (m : PTree) (rest : List Nat) :
    decPTree (encPTree m ++ rest) = some (m, rest) := by
  obtain ⟨es⟩ := m
  simp only [decPTree, encPTree, decListG_enc encPTreeEntry decPTreeEntry decPTreeEntry_enc, optBind_some, optPure, Option.map_some']

def encPPatchOp (m : PPatchOp) : List Nat :=
  encStr m.address ++ encStr m.opType ++ encBytes m.oldData ++ encBytes m.newData
    ++ encodeUvarint m.contextHash

def decPPatchOp : DecM PPatchOp := fun bs => do
  let (a, r1) ← decStr bs
  let (t, r2) ← decStr r1
  let (od, r3) ← decBytes r2
  let (nd, r4) ← decBytes r3
  let (ch, r5) ← decNat r4
  pure (⟨a, t, od, nd, ch⟩, r5)

theorem decPPatchOp_enc (m : PPatchOp) (rest : List Nat) :
    decPPatchOp (encPPatchOp m ++ rest) = some (m, rest) := by
  obtain ⟨a, t, od, nd, ch⟩ := m
  simp only [decPPatchOp, encPPatchOp, List.append_assoc, decStr_enc, decBytes_enc,
    decNat_enc, optBind_some, optPure, Option.map_some']

def encPPatch (m : PPatch) : List Nat :=
  encStr m.targetPath ++ encStr m.codecId ++ encOpt encPObjectId m.baseObject
    ++ encOpt encPObjectId m.resultObject ++ encListG encPPatchOp m.ops
    ++ encBytes m.codecPayload

def decPPatch : DecM PPatch := fun bs => do
  let (tp, r1) ← decStr bs
  let (ci, r2) ← decStr r1
  let (bo, r3) ← decOpt decPObjectId r2
  let (ro, r4) ← decOpt decPObjectId r3
  let (ops, r5) ← decListG decPPatchOp r4
  let (cp, r6) ← decBytes r5
  pure (⟨tp, ci, bo, ro, ops, cp⟩, r6)

theorem decPPatch_enc (m : PPatch) (rest : List Nat) :
    decPPatch (encPPatch m ++ rest) = some (m, rest) := by
  obtain ⟨tp, ci, bo, ro, ops, cp⟩ := m
  simp only [decPPatch, encPPatch, List.append_assoc, decStr_enc, decBytes_enc,
    decOpt_enc encPObjectId decPObjectId decPObjectId_enc,
    decListG_enc encPPatchOp decPPatchOp decPPatchOp_enc, optBind_some, optPure, Option.map_some']

def encPRevision (m : PRevision) : List Nat :=
  encOpt encPUlid m.changeId ++ encListG encPObjectId m.parents
    ++ encListG encPObjectId m.patches ++ encOpt encPObjectId m.snapshotBase
    ++ encOpt encPObjectId m.tree ++ encOpt encPObjectId m.capsuleId
    ++ encStr m.author ++ encodeUvarint m.createdAtMs ++ encStr m.summary
    ++ encListG encStr m.policyEvidence

def decPRevision : DecM PRevision := fun bs => do
  let (ci, r1) ← decOpt decPUlid bs
  let (pa, r2) ← decListG decPObjectId r1
  let (ps, r3) ← decListG decPObjectId r2
  let (sb, r4) ← decOpt decPObjectId r3
  let (tr, r5) ← decOpt decPObjectId r4
  let (cap, r6) ← decOpt decPObjectId r5
  let (au, r7) ← decStr r6
  let (cr, r8) ← decNat r7
  let (sm, r9) ← decStr r8
  let (pe, r10) ← decListG decStr r9
  pure (⟨ci, pa, ps, sb, tr, cap, au, cr, sm, pe⟩, r10)

theorem decPRevision_enc (m : PRevision) (rest : List Nat) :
    decPRevision (encPRevision m ++ rest) = some (m, rest) := by
  obtain ⟨ci, pa, ps, sb, tr, cap, au, cr, sm, pe⟩ := m
  simp only [decPRevision, encPRevision, List.append_assoc, decStr_enc, decNat_enc,
    decOpt_enc encPUlid decPUlid decPUlid_enc,
    decOpt_enc encPObjectId decPObjectId decPObjectId_enc,
    decListG_enc encPObjectId decPObjectId decPObjectId_enc,
    decListG_enc encStr decStr decStr_enc, optBind_some, optPure, Option.map_some']

def encPSnapshot (m : PSnapshot) : List Nat :=
  encOpt encPObjectId m.treeRoot ++ encOpt encPObjectId m.revisionId
    ++ encodeUvarint m.createdAtMs

def decPSnapshot : DecM PSnapshot := fun bs => do
  let (tr, r1) ← decOpt decPObjectId bs
  let (rv, r2) ← decOpt decPObjectId r1
  let (cr, r3) ← decNat r2
  pure (⟨tr, rv, cr⟩, r3)

theorem decPSnapshot_enc (m : PSnapshot) (rest : List Nat) :
    decPSnapshot (encPSnapshot m ++ rest) = some (m, rest) := by
  obtain ⟨tr, rv, cr⟩ := m
  simp only [decPSnapshot, encPSnapshot, List.append_assoc, decNat_enc,
    decOpt_enc encPObjectId decPObjectId decPObjectId_enc, optBind_some, optPure, Option.map_some']

def encPIntent (m : PIntent) : List Nat :=
  encOpt encPUlid m.id ++ encStr m.title ++ encStr m.goal
    ++ encListG encStr m.constraints ++ encListG encStr m.acceptanceTests
    ++ encListG encStr m.links ++ encListG encStr m.policyRefs
    ++ encListG encStr m.agents ++ encListG encStr m.changeIds
    ++ encListG encStr m.dependsOn ++ encListG encStr m.supersedes
    ++ encStr m.status ++ encodeUvarint m.createdAtMs ++ encodeUvarint m.updatedAtMs

def decPIntent : DecM PIntent := fun bs => do
  let (i, r1) ← decOpt decPUlid bs
  let (ti, r2) ← decStr r1
  let (go, r3) ← decStr r2
  let (co, r4) ← decListG decStr r3
  let (ac, r5) ← decListG decStr r4
  let (li, r6) ← decListG decStr r5
  let (pr, r7) ← decListG decStr r6
  let (ag, r8) ← decListG decStr r7
  let (chi, r9) ← decListG decStr r8
  let (dep, r10) ← decListG decStr r9
  let (sup, r11) ← decListG decStr r10
  let (st, r12) ← decStr r11
  let (cr, r13) ← decNat r12
  let (up, r14) ← decNat r13
  pure (⟨i, ti, go, co, ac, li, pr, ag, chi, dep, sup, st, cr, up⟩, r14)

theorem decPIntent_enc (m : PIntent) (rest : List Nat) :
    decPIntent (encPIntent m ++ rest) = some (m, rest) := by
  obtain ⟨i, ti, go, co, ac, li, pr, ag, chi, dep, sup, st, cr, up⟩ := m
  simp only [decPIntent, encPIntent, List.append_assoc, decStr_enc, decNat_enc,
    decOpt_enc encPUlid decPUlid decPUlid_enc,
    decListG_enc encStr decStr decStr_enc, optBind_some, optPure, Option.map_some']

def encPChange (m : PChange) : List Nat :=
  encOpt encPUlid m.id ++ encOpt encPUlid m.intentId
    ++ encOpt encPObjectId m.headRevision ++ encStr m.workstreamId
    ++ encStr m.status ++ encodeUvarint m.createdAtMs ++ encodeUvarint m.updatedAtMs

def decPChange : DecM PChange := fun bs => do
  let (i, r1) ← decOpt decPUlid bs
  let (ii, r2) ← decOpt decPUlid r1
  let (hr, r3) ← decOpt decPObjectId r2
  let (ws, r4) ← decStr r3
  let (st, r5) ← decStr r4
  let (cr, r6) ← decNat r5
  let (up, r7) ← decNat r6
  pure (⟨i, ii, hr, ws, st, cr, up⟩, r7)

theorem decPChange_enc (m : PChange) (rest : List Nat) :
    decPChange (encPChange m ++ rest) = some (m, rest) := by
  obtain ⟨i, ii, hr, ws, st, cr, up⟩ := m
  simp only [decPChange, encPChange, List.append_assoc, decStr_enc, decNat_enc,
    decOpt_enc encPUlid decPUlid decPUlid_enc,
    decOpt_enc encPObjectId decPObjectId decPObjectId_enc, optBind_some, optPure, Option.map_some']

def encPConflict (m : PConflict) : List Nat :=
  encOpt encPObjectId m.baseRevision ++ encOpt encPObjectId m.leftRevision
    ++ encOpt encPObjectId m.rightRevision ++ encStr m.filePath ++ encStr m.codecId
    ++ encListG encPObjectId m.leftPatchIds ++ encListG encPObjectId m.rightPatchIds
    ++ encListG encPObjectId m.resolutionPatchIds ++ encStr m.status
    ++ encodeUvarint m.createdAtMs

def decPConflict : DecM PConflict := fun bs => do
  let (br, r1) ← decOpt decPObjectId bs
  let (lr, r2) ← decOpt decPObjectId r1
  let (rr, r3) ← decOpt decPObjectId r2
  let (fp, r4) ← decStr r3
  let (ci, r5) ← decStr r4
  let (lp, r6) ← decListG decPObjectId r5
  let (rp, r7) ← decListG decPObjectId r6
  let (res, r8) ← decListG decPObjectId r7
  let (st, r9) ← decStr r8
  let (cr, r10) ← decNat r9
  pure (⟨br, lr, rr, fp, ci, lp, rp, res, st, cr⟩, r10)

theorem decPConflict_enc (m : PConflict) (rest : List Nat) :
    decPConflict (encPConflict m ++ rest) = some (m, rest) := by
  obtain ⟨br, lr, rr, fp, ci, lp, rp, res, st, cr⟩ := m
  simp only [decPConflict, encPConflict, List.append_assoc, decStr_enc, decNat_enc,
    decOpt_enc encPObjectId decPObjectId decPObjectId_enc,
    decListG_enc encPObjectId decPObjectId decPObjectId_enc, optBind_some, optPure, Option.map_some']

def encPEvidence (m : PEvidence) : List Nat :=
  encStr m.name ++ encStr m.status ++ encodeUvarint m.durationMs
    ++ encListG encStr m.artifactRefs ++ encStr m.summary

def decPEvidence : DecM PEvidence := fun bs => do
  let (n, r1) ← decStr bs
  let (st, r2) ← decStr r1
  let (d, r3) ← decNat r2
  let (ar, r4) ← decListG decStr r3
  let (sm, r5) ← decStr r4
  pure (⟨n, st, d, ar, sm⟩, r5)

theorem decPEvidence_enc (m : PEvidence) (rest : List Nat) :
    decPEvidence (encPEvidence m ++ rest) = some (m, rest) := by
  obtain ⟨n, st, d, ar, sm⟩ := m
  simp only [decPEvidence, encPEvidence, List.append_assoc, decStr_enc, decNat_enc,
    decListG_enc encStr decStr decStr_enc, optBind_some, optPure, Option.map_some']

def encPCapsulePublic (m : PCapsulePublic) : List Nat :=
  encStr m.agentId ++ encStr m.agentVersion ++ encStr m.toolchainDigest
    ++ encStr m.envFingerprint ++ encListG encPEvidence m.evidence

def decPCapsulePublic : DecM PCapsulePublic := fun bs => do
  let (ai, r1) ← decStr bs
  let (av, r2) ← decStr r1
  let (td, r3) ← decStr r2
  let (ef, r4) ← decStr r3
  let (ev, r5) ← decListG decPEvidence r4
  pure (⟨ai, av, td, ef, ev⟩, r5)

theorem decPCapsulePublic_enc (m : PCapsulePublic) (rest : List Nat) :
    decPCapsulePublic (encPCapsulePublic m ++ rest) = some (m, rest) := by
  obtain ⟨ai, av, td, ef, ev⟩ := m
  simp only [decPCapsulePublic, encPCapsulePublic, List.append_assoc, decStr_enc,
    decListG_enc encPEvidence decPEvidence decPEvidence_enc, optBind_some, optPure, Option.map_some']

def encPCapsuleSignature (m : PCapsuleSignature) : List Nat :=
  encStr m.signerId ++ encBytes m.signature

def decPCapsuleSignature : DecM PCapsuleSignature := fun bs => do
  let (si, r1) ← decStr bs
  let (sg, r2) ← decBytes r1
  pure (⟨si, sg⟩, r2)

theorem decPCapsuleSignature_enc (m : PCapsuleSignature) (rest : List Nat) :
    decPCapsuleSignature (encPCapsuleSignature m ++ rest) = some (m, rest) := by
  obtain ⟨si, sg⟩ := m
  simp only [decPCapsuleSignature, encPCapsuleSignature, List.append_assoc, decStr_enc,
    decBytes_enc, optBind_some, optPure, Option.map_some']

def encPCapsule (m : PCapsule) : List Nat :=
  encOpt encPObjectId m.revisionId ++ encOpt encPCapsulePublic m.publicFields
    ++ encBytes m.encryptedPrivate ++ encStr m.encryption ++ encStr m.keyId
    ++ encListG encPCapsuleSignature m.signatures

def decPCapsule : DecM PCapsule := fun bs => do
  let (rv, r1) ← decOpt decPObjectId bs
  let (pf, r2) ← decOpt decPCapsulePublic r1
  let (ep, r3) ← decBytes r2
  let (en, r4) ← decStr r3
  let (ki, r5) ← decStr r4
  let (sg, r6) ← decListG decPCapsuleSignature r5
  pure (⟨rv, pf, ep, en, ki, sg⟩, r6)

theorem decPCapsule_enc (m : PCapsule) (rest : List Nat) :
    decPCapsule (encPCapsule m ++ rest) = some (m, rest) := by
  obtain ⟨rv, pf, ep, en, ki, sg⟩ := m
  simp only [decPCapsule, encPCapsule, List.append_assoc, decStr_enc, decBytes_enc,
    decOpt_enc encPObjectId decPObjectId decPObjectId_enc,
    decOpt_enc encPCapsulePublic decPCapsulePublic decPCapsulePublic_enc,
    decListG_enc encPCapsuleSignature decPCapsuleSignature decPCapsuleSignature_enc, optBind_some, optPure, Option.map_some']

def encPPolicy (m : PPolicy) : List Nat :=
  encStr m.policyId ++ encListG encStr m.requiredChecks
    ++ encListG encStr m.requiredReviewers ++ encListG encStr m.sensitivePaths
    ++ encBool m.quarantineLane ++ encStr m.minTrustScore ++ encStr m.visibility

def decPPolicy : DecM PPolicy := fun bs => do
  let (pid, r1) ← decStr bs
  let (rc, r2) ← decListG decStr r1
  let (rr, r3) ← decListG decStr r2
  let (sp, r4) ← decListG decStr r3
  let (ql, r5) ← decBool r4
  let (mts, r6) ← decStr r5
  let (vis, r7) ← decStr r6
  pure (⟨pid, rc, rr, sp, ql, mts, vis⟩, r7)

theorem decPPolicy_enc (m : PPolicy) (rest : List Nat) :
    decPPolicy (encPPolicy m ++ rest) = some (m, rest) := by
  obtain ⟨pid, rc, rr, sp, ql, mts, vis⟩ := m
  simp only [decPPolicy, encPPolicy, List.append_assoc, decStr_enc, decBool_enc,
    decListG_enc encStr decStr decStr_enc, optBind_some, optPure, Option.map_some']

def encPWorkstream (m : PWorkstream) : List Nat :=
  encStr m.workstreamId ++ encListG encPUlid m.changeStack

def decPWorkstream : DecM PWorkstream := fun bs => do
  let (wid, r1) ← decStr bs
  let (cs, r2) ← decListG decPUlid r1
  pure (⟨wid, cs⟩, r2)

theorem decPWorkstream_enc (m : PWorkstream) (rest : List Nat) :
    decPWorkstream (encPWorkstream m ++ rest) = some (m, rest) := by
  obtain ⟨wid, cs⟩ := m
  simp only [decPWorkstream, encPWorkstream, List.append_assoc, decStr_enc,
    decListG_enc encPUlid decPUlid decPUlid_enc, optBind_some, optPure, Option.map_some']

def encPRefLogEntry (m : PRefLogEntry) : List Nat :=
  encOpt encPObjectId m.oldTarget ++ encOpt encPObjectId m.newTarget
    ++ encStr m.author ++ encStr m.message ++ encodeUvarint m.timestamp

def decPRefLogEntry : DecM PRefLogEntry := fun bs => do
  let (ot, r1) ← decOpt decPObjectId bs
  let (nt, r2) ← decOpt decPObjectId r1
  let (au, r3) ← decStr r2
  let (msg, r4) ← decStr r3
  let (ts, r5) ← decNat r4
  pure (⟨ot, nt, au, msg, ts⟩, r5)

theorem decPRefLogEntry_enc (m : PRefLogEntry) (rest : List Nat) :
    decPRefLogEntry (encPRefLogEntry m ++ rest) = some (m, rest) := by
  obtain ⟨ot, nt, au, msg, ts⟩ := m
  simp only [decPRefLogEntry, encPRefLogEntry, List.append_assoc, decStr_enc, decNat_enc,
    decOpt_enc encPObjectId decPObjectId decPObjectId_enc, optBind_some, optPure, Option.map_some']

def encPRefLog (m : PRefLog) : List Nat :=
  encStr m.refName ++ encListG encPRefLogEntry m.entries

def decPRefLog : DecM PRefLog := fun bs => do
  let (rn, r1) ← decStr bs
  let (es, r2) ← decListG decPRefLogEntry r1
  pure (⟨rn, es⟩, r2)

theorem decPRefLog_enc (m : PRefLog) (rest : List Nat) :
    decPRefLog (encPRefLog m ++ rest) = some (m, rest) := by
  obtain ⟨rn, es⟩ := m
  simp only [decPRefLog, encPRefLog, List.append_assoc, decStr_enc,
    decListG_enc encPRefLogEntry decPRefLogEntry decPRefLogEntry_enc, optBind_some, optPure, Option.map_some']

/-- Model prost encoder over the message sum. -/
def pencModel : ProtoObject → List Nat
  | .blob m => 1 :: encPBlob m
  | .tree m => 2 :: encPTree m
  | .patch m => 3 :: encPPatch m
  | .revision m => 4 :: encPRevision m
  | .snapshot m => 5 :: encPSnapshot m
  | .intent m => 6 :: encPIntent m
  | .change m => 7 :: encPChange m
  | .conflict m => 8 :: encPConflict m
  | .capsule m => 9 :: encPCapsule m
  | .policy m => 10 :: encPPolicy m
  | .workstream m => 11 :: encPWorkstream m
  | .reflog m => 12 :: encPRefLog m

/-- Model prost decoder (the tag argument mirrors `decode::<po::X>`'s type
dispatch; this model carries the message kind in the first byte instead). -/
def pdecModel (_ : TypeTag) (bs : List Nat) : Option ProtoObject :=
  match bs with
  | 1 :: rest => (decPBlob rest).map fun p => .blob p.1
  | 2 :: rest => (decPTree rest).map fun p => .tree p.1
  | 3 :: rest => (decPPatch rest).map fun p => .patch p.1
  | 4 :: rest => (decPRevision rest).map fun p => .revision p.1
  | 5 :: rest => (decPSnapshot rest).map fun p => .snapshot p.1
  | 6 :: rest => (decPIntent rest).map fun p => .intent p.1
  | 7 :: rest => (decPChange rest).map fun p => .change p.1
  | 8 :: rest => (decPConflict rest).map fun p => .conflict p.1
  | 9 :: rest => (decPCapsule rest).map fun p => .capsule p.1
  | 10 :: rest => (decPPolicy rest).map fun p => .policy p.1
  | 11 :: rest => (decPWorkstream rest).map fun p => .workstream p.1
  | 12 :: rest => (decPRefLog rest).map fun p => .reflog p.1
  | _ => none

/-- The model codec satisfies prost's decode-encode contract. -/
theorem pdecModel_pencModel (t : TypeTag) (m : ProtoObject) :
    pdecModel t (pencModel m) = some m := by
  cases m with
  | blob b =>
    have h := decPBlob_enc b []
    rw [List.append_nil] at h
    show (decPBlob (encPBlob b)).map (fun p => ProtoObject.blob p.1) = some (.blob b)
    rw [h, Option.map_some']
  | tree b =>
    have h := decPTree_enc b []
    rw [List.append_nil] at h
    show (decPTree (encPTree b)).map (fun p => ProtoObject.tree p.1) = some (.tree b)
    rw [h, Option.map_some']
  | patch b =>
    have h := decPPatch_enc b []
    rw [List.append_nil] at h
    show (decPPatch (encPPatch b)).map (fun p => ProtoObject.patch p.1) = some (.patch b)
    rw [h, Option.map_some']
  | revision b =>
    have h := decPRevision_enc b []
    rw [List.append_nil] at h
    show (decPRevision (encPRevision b)).map (fun p => ProtoObject.revision p.1) = some (.revision b)
    rw [h, Option.map_some']
  | snapshot b =>
    have h := decPSnapshot_enc b []
    rw [List.append_nil] at h
    show (decPSnapshot (encPSnapshot b)).map (fun p => ProtoObject.snapshot p.1) = some (.snapshot b)
    rw [h, Option.map_some']
  | intent b =>
    have h := decPIntent_enc b []
    rw [List.append_nil] at h
    show (decPIntent (encPIntent b)).map (fun p => ProtoObject.intent p.1) = some (.intent b)
    rw [h, Option.map_some']
  | change b =>
    have h := decPChange_enc b []
    rw [List.append_nil] at h
    show (decPChange (encPChange b)).map (fun p => ProtoObject.change p.1) = some (.change b)
    rw [h, Option.map_some']
  | conflict b =>
    have h := decPConflict_enc b []
    rw [List.append_nil] at h
    show (decPConflict (encPConflict b)).map (fun p => ProtoObject.conflict p.1) = some (.conflict b)
    rw [h, Option.map_some']
  | capsule b =>
    have h := decPCapsule_enc b []
    rw [List.append_nil] at h
    show (decPCapsule (encPCapsule b)).map (fun p => ProtoObject.capsule p.1) = some (.capsule b)
    rw [h, Option.map_some']
  | policy b =>
    have h := decPPolicy_enc b []
    rw [List.append_nil] at h
    show (decPPolicy (encPPolicy b)).map (fun p => ProtoObject.policy p.1) = some (.policy b)
    rw [h, Option.map_some']
  | workstream b =>
    have h := decPWorkstream_enc b []
    rw [List.append_nil] at h
    show (decPWorkstream (encPWorkstream b)).map (fun p => ProtoObject.workstream p.1) = some (.workstream b)
    rw [h, Option.map_some']
  | reflog b =>
    have h := decPRefLog_enc b []
    rw [List.append_nil] at h
    show (decPRefLog (encPRefLog b)).map (fun p => ProtoObject.reflog p.1) = some (.reflog b)
    rw [h, Option.map_some']

/-! ## The object store (claw-store: loose.rs, refs.rs, reflog.rs, lib.rs)

The filesystem under `.claw/` is modelled as explicit association lists:
loose-object files keyed by `ObjectId`, ref files keyed by ref name, reflog
files keyed by ref name.  `h` models the external BLAKE3 hash function. -/

inductive StoreError where
  | objectNotFound (id : ObjectId)
  | cof (e : CofError)
  | deserialization (msg : String)
deriving DecidableEq, Repr

/-- `RefLogLine` (reflog.rs): one parsed line of a reflog file. -/
structure RefLogLine where
  old : ObjectId
  new : ObjectId
  timestampMs : Nat
  author : String
  message : String
deriving DecidableEq, Repr

structure Store where
  objects : List (ObjectId × List Nat)
  refs : List (String × ObjectId)
  reflogs : List (String × List RefLogLine)
deriving DecidableEq, Repr

def emptyStore : Store := ⟨[], [], []⟩

def alistGet [DecidableEq α] : List (α × β) → α → Option β
  | [], _ => none
  | (k', v') :: rest, k => if k' = k then some v' else alistGet rest k

def alistPut [DecidableEq α] : List (α × β) → α → β → List (α × β)
  | [], k, v => [(k, v)]
  | (k', v') :: rest, k, v =>
    if k' = k then (k, v) :: rest else (k', v') :: alistPut rest k v

theorem alistGet_put [DecidableEq α] (l : List (α × β)) (k : α) (v : β) :
    alistGet (alistPut l k v) k = some v := by
  induction l with
  | nil => simp [alistGet, alistPut]
  | cons p rest ih =>
    obtain ⟨k', v'⟩ := p
    by_cases hk : k' = k
    · subst hk
      simp [alistPut, alistGet]
    · simp [alistPut, hk, alistGet, ih]

/-- `write_loose_object` (loose.rs): if the content-addressed file exists the
write is skipped; otherwise the bytes land atomically at the id's path. -/
def writeLooseObject (st : Store) (id : ObjectId) (data : List Nat) : Store :=
  if (alistGet st.objects id).isSome then st
  else { st with objects := alistPut st.objects id data }

/-- `read_loose_object` (loose.rs). -/
def readLooseObject (st : Store) (id : ObjectId) : Except StoreError (List Nat) :=
  match alistGet st.objects id with
  | some d => .ok d
  | none => .error (.objectNotFound id)

/-- `content_hash` (hash.rs): BLAKE3 over the domain-separated stream
`"claw\0" || type_tag || version 1 || payload`.  BLAKE3's incremental hasher
is the external function `h` applied to the concatenated update bytes
(`"claw\0"` is `[99, 108, 97, 119, 0]`). -/
def contentHash (h : List Nat → ObjectId) (tag : TypeTag) (payload : List Nat) :
    ObjectId :=
  h ([99, 108, 97, 119, 0] ++ [tag.toU8] ++ [1] ++ payload)

/-- `Object::serialize_payload` = prost-encode the converted proto message. -/
def serializePayload (penc : ProtoObject → List Nat) (obj : Object) : List Nat :=
  penc (objToProto obj)

/-- `ClawStore::store_object` (lib.rs): serialize, hash, COF-encode, write. -/
def storeObject (h : List Nat → ObjectId) (penc : ProtoObject → List Nat)
    (zenc : List Nat → List Nat) (st : Store) (obj : Object) : ObjectId × Store :=
  let payload := serializePayload penc obj
  let id := contentHash h obj.typeTag payload
  let cofData := cofEncode zenc obj.typeTag payload
  (id, writeLooseObject st id cofData)

/-- `ClawStore::load_object` (lib.rs): read, COF-decode, deserialize per tag. -/
def loadObject (pdec : TypeTag → List Nat → Option ProtoObject)
    (zdec : List Nat → Option (List Nat)) (st : Store) (id : ObjectId) :
    Except StoreError Object :=
  match readLooseObject st id with
  | .error e => .error e
  | .ok cofData =>
    match cofDecode zdec cofData with
    | .error e => .error (.cof e)
    | .ok (tag, payload) =>
      match pdec tag payload with
      | none => .error (.deserialization "prost decode failed")
      | some m =>
        match objFromProto tag m with
        | .error msg => .error (.deserialization msg)
        | .ok obj => .ok obj

theorem objToProto_tag (obj : Object) : (objToProto obj).tag = obj.typeTag := by
  cases obj <;> rfl

theorem writeLoose_second (st : Store) (id : ObjectId) (data : List Nat) :
    writeLooseObject (writeLooseObject st id data) id data
      = writeLooseObject st id data := by
  unfold writeLooseObject
  rcases hs : alistGet st.objects id with _ | v
  · simp [hs, alistGet_put]
  · simp [hs]

/-- **C2.** The id returned by `store_object` is the BLAKE3 hash (modelled by
the arbitrary hash function `h`) of the domain-separated stream
`"claw\0" || type_tag_byte || version 0x01 || serialized_payload`; storing the
same logical content twice returns the identical id and leaves the stored
bytes untouched. -/
theorem C2_store_id_domain_separated (h : List Nat → ObjectId)
    (penc : ProtoObject → List Nat) (zenc : List Nat → List Nat)
    (st : Store) (obj : Object) :
    (storeObject h penc zenc st obj).1
        = h ([99, 108, 97, 119, 0] ++ [obj.typeTag.toU8] ++ [1]
            ++ serializePayload penc obj)
      ∧ (storeObject h penc zenc (storeObject h penc zenc st obj).2 obj).1
          = (storeObject h penc zenc st obj).1
      ∧ (storeObject h penc zenc (storeObject h penc zenc st obj).2 obj).2
          = (storeObject h penc zenc st obj).2 := by
  refine ⟨rfl, rfl, ?_⟩
  simp only [storeObject]
  exact writeLoose_second st _ _

/-- Helper: the full load-after-store computation on a fresh store, shared by
the C1 theorem and its witness/counterexample side. -/
theorem loadObject_storeObject (h : List Nat → ObjectId)
    (penc : ProtoObject → List Nat) (pdec : TypeTag → List Nat → Option ProtoObject)
    (zenc : List Nat → List Nat) (zdec : List Nat → Option (List Nat))
    (hpd : ∀ m : ProtoObject, pdec m.tag (penc m) = some m)
    (hz : ∀ p, zdec (zenc p) = some p)
    (obj : Object) (hwf : obj.wf = true)
    (hplen : (serializePayload penc obj).length < 2 ^ 64) :
    loadObject pdec zdec (storeObject h penc zenc emptyStore obj).2
        (storeObject h penc zenc emptyStore obj).1
      = .ok (normObject obj) := by
  have hpd' := hpd (objToProto obj)
  rw [objToProto_tag] at hpd'
  simp only [serializePayload] at hplen
  have hcof := cofDecode_cofEncode zenc zdec hz obj.typeTag
    (penc (objToProto obj)) hplen
  simp only [storeObject, serializePayload, writeLooseObject, emptyStore, alistGet,
    Option.isSome_none, Bool.false_eq_true, if_false, alistPut, loadObject,
    readLooseObject, eq_self_iff_true, if_true, hcof, hpd',
    objFromProto_objToProto obj hwf]

/-- **C1 (amended).** Storing any well-formed object in an initialized store
and loading the returned id yields the object up to proto-default
normalization (`normObject`): optional fields holding the proto3 default
(`Some("")`, `Some(vec![])`, `Some(0)` context hashes) come back as `None`,
and every other field is preserved exactly.  The hash, prost and zstd
libraries are arbitrary functions satisfying their contracts. -/
theorem C1_load_store_roundtrip_normalized (h : List Nat → ObjectId)
    (penc : ProtoObject → List Nat) (pdec : TypeTag → List Nat → Option ProtoObject)
    (zenc : List Nat → List Nat) (zdec : List Nat → Option (List Nat))
    (hpd : ∀ m : ProtoObject, pdec m.tag (penc m) = some m)
    (hz : ∀ p, zdec (zenc p) = some p)
    (obj : Object) (hwf : obj.wf = true)
    (hplen : (serializePayload penc obj).length < 2 ^ 64) :
    loadObject pdec zdec (storeObject h penc zenc emptyStore obj).2
        (storeObject h penc zenc emptyStore obj).1
      = .ok (normObject obj) :=
  loadObject_storeObject h penc pdec zenc zdec hpd hz obj hwf hplen

/-- Witness for C1: a concrete blob with a non-default media type round-trips
to exactly itself through the model prost codec, identity hash and identity
compressor. -/
theorem C1_load_store_roundtrip_normalized_witness :
    loadObject pdecModel (fun x => some x)
        (storeObject (fun bs => bs) pencModel (fun x => x) emptyStore
          (Object.blob ⟨[1, 2, 3], some "text"⟩)).2
        (storeObject (fun bs => bs) pencModel (fun x => x) emptyStore
          (Object.blob ⟨[1, 2, 3], some "text"⟩)).1
      = .ok (Object.blob ⟨[1, 2, 3], some "text"⟩) := by
  have h := C1_load_store_roundtrip_normalized (fun bs => bs) pencModel pdecModel
    (fun x => x) (fun x => some x) (pdecModel_pencModel TypeTag.blob)
    (fun _ => rfl) (Object.blob ⟨[1, 2, 3], some "text"⟩) (by decide) (by decide)
  rwa [show normObject (Object.blob ⟨[1, 2, 3], some "text"⟩)
    = Object.blob ⟨[1, 2, 3], some "text"⟩ by decide] at h

/-- Counterexample to C1 as stated: the blob `{data: [], media_type: Some("")}`
does not survive the round-trip structurally — it loads back with
`media_type: None`, because proto3 writes `Some("")` as the default and the
decoder maps the default to `None`. -/
theorem C1_load_store_counterexample :
    loadObject pdecModel (fun x => some x)
        (storeObject (fun bs => bs) pencModel (fun x => x) emptyStore
          (Object.blob ⟨[], some ""⟩)).2
        (storeObject (fun bs => bs) pencModel (fun x => x) emptyStore
          (Object.blob ⟨[], some ""⟩)).1
      = .ok (Object.blob ⟨[], none⟩)
    ∧ loadObject pdecModel (fun x => some x)
        (storeObject (fun bs => bs) pencModel (fun x => x) emptyStore
          (Object.blob ⟨[], some ""⟩)).2
        (storeObject (fun bs => bs) pencModel (fun x => x) emptyStore
          (Object.blob ⟨[], some ""⟩)).1
      ≠ .ok (Object.blob ⟨[], some ""⟩) := by
  have h := loadObject_storeObject (fun bs => bs) pencModel pdecModel
    (fun x => x) (fun x => some x) (pdecModel_pencModel TypeTag.blob)
    (fun _ => rfl) (Object.blob ⟨[], some ""⟩) (by decide) (by decide)
  rw [show normObject (Object.blob ⟨[], some ""⟩)
    = Object.blob ⟨[], none⟩ by decide] at h
  refine ⟨h, ?_⟩
  rw [h]
  intro hcon
  have hinj := Except.ok.inj hcon
  simp at hinj

/-- `PatchError` (claw-patch error.rs). -/
inductive PatchErr where
  | codecNotFound (id : String)
  | applyFailed (msg : String)
  | invertFailed (msg : String)
  | commuteFailed
  | merge3Failed (msg : String)
  | addressResolutionFailed (msg : String)
  | invalidJson (msg : String)
deriving DecidableEq, Repr

/-- A `claw_core::types::PatchOp` as handled by the text/line codec, with every
byte payload represented by its UTF-8 decoding (`List Char`).  The codec
decodes each payload with `str::from_utf8` before use; we model inputs that
are valid UTF-8, where byte equality coincides with equality of the decoded
character lists. -/
structure TextOp where
  address : List Char
  opType : String
  oldData : Option (List Char)
  newData : Option (List Char)
  contextHash : Option Nat
deriving DecidableEq, Repr

/-- Decimal digit character, as produced by Rust's `format!` for integers. -/
def decDigit (d : Nat) : Char :=
  match d with
  | 0 => '0' | 1 => '1' | 2 => '2' | 3 => '3' | 4 => '4'
  | 5 => '5' | 6 => '6' | 7 => '7' | 8 => '8' | _ => '9'

def natDecimalAux (fuel : Nat) (n : Nat) : List Char :=
  match fuel with
  | 0 => []
  | f + 1 => if n < 10 then [decDigit n] else natDecimalAux f (n / 10) ++ [decDigit (n % 10)]

/-- Decimal rendering of a natural number: the digits written by
`format!("L{}", n)` after the `L`. -/
def natDecimal (n : Nat) : List Char := natDecimalAux (n + 1) n

/-- Decimal rendering of a signed value (`format!("L{}", i64)`). -/
def intDecimal (n : Int) : List Char :=
  if n < 0 then '-' :: natDecimal n.natAbs else natDecimal n.toNat

theorem natDecimalAux_congr : ∀ f₁ f₂ n, n < f₁ → n < f₂ →
    natDecimalAux f₁ n = natDecimalAux f₂ n := by
  intro f₁
  induction f₁ with
  | zero => intro f₂ n h; omega
  | succ f ih =>
    intro f₂ n h1 h2
    cases f₂ with
    | zero => omega
    | succ g =>
      simp only [natDecimalAux]
      by_cases hn : n < 10
      · simp [hn]
      · simp only [hn, if_false]
        have hd : n / 10 < n := Nat.div_lt_self (by omega) (by omega)
        rw [ih g (n / 10) (by omega) (by omega)]

theorem natDecimal_eq (n : Nat) :
    natDecimal n = if n < 10 then [decDigit n] else natDecimal (n / 10) ++ [decDigit (n % 10)] := by
  show natDecimalAux (n + 1) n = _
  rw [show natDecimalAux (n + 1) n
      = if n < 10 then [decDigit n] else natDecimalAux n (n / 10) ++ [decDigit (n % 10)] from rfl]
  by_cases hn : n < 10
  · simp [hn]
  · simp only [hn, if_false]
    have hd : n / 10 < n := Nat.div_lt_self (by omega) (by omega)
    rw [natDecimalAux_congr n (n / 10 + 1) (n / 10) (by omega) (by omega)]
    rfl

theorem natDecimal_ne_nil (n : Nat) : natDecimal n ≠ [] := by
  rw [natDecimal_eq]
  by_cases hn : n < 10 <;> simp [hn]

/-- Value of a decimal digit character (`char::to_digit(10)` semantics used by
`str::parse::<usize>`). -/
def digitVal (c : Char) : Option Nat :=
  if c = '0' then some 0 else if c = '1' then some 1 else if c = '2' then some 2
  else if c = '3' then some 3 else if c = '4' then some 4 else if c = '5' then some 5
  else if c = '6' then some 6 else if c = '7' then some 7 else if c = '8' then some 8
  else if c = '9' then some 9 else none

def parseNatAux : List Char → Nat → Option Nat
  | [], acc => some acc
  | c :: cs, acc =>
    match digitVal c with
    | some d => parseNatAux cs (acc * 10 + d)
    | none => none

/-- `str::parse::<usize>` on the given characters: nonempty, all decimal
digits.  (Rust also accepts a leading `+` and rejects values ≥ 2^64; neither
case arises for the addresses handled here, which are all small and
`format!`-generated.) -/
def parseNatDec (cs : List Char) : Option Nat :=
  match cs with
  | [] => none
  | _ => parseNatAux cs 0

/-- `parse_line_address` (text_line.rs): strip the leading `L`, parse the rest
as a decimal number. -/
def parseLineAddr (addr : List Char) : Except PatchErr Nat :=
  match addr with
  | 'L' :: rest =>
    match parseNatDec rest with
    | some n => .ok n
    | none => .error (.addressResolutionFailed "invalid line address")
  | _ => .error (.addressResolutionFailed "invalid line address")

theorem digitVal_decDigit (d : Nat) (h : d < 10) : digitVal (decDigit d) = some d := by
  interval_cases d <;> rfl

theorem parseNatAux_append (xs ys : List Char) : ∀ acc,
    parseNatAux (xs ++ ys) acc =
      match parseNatAux xs acc with
      | some a => parseNatAux ys a
      | none => none := by
  induction xs with
  | nil => intro acc; rfl
  | cons c cs ih =>
    intro acc
    simp only [List.cons_append, parseNatAux]
    cases digitVal c with
    | none => rfl
    | some d => exact ih _

theorem parseNatAux_natDecimal (n : Nat) : ∀ acc,
    parseNatAux (natDecimal n) acc = some (acc * 10 ^ (natDecimal n).length + n) := by
  induction n using Nat.strong_induction_on with
  | _ n ih =>
    intro acc
    rw [natDecimal_eq]
    by_cases hn : n < 10
    · simp only [hn, if_true, parseNatAux, digitVal_decDigit n hn]
      simp
    · simp only [hn, if_false]
      rw [parseNatAux_append]
      have hd : n / 10 < n := Nat.div_lt_self (by omega) (by omega)
      rw [ih (n / 10) hd acc]
      simp only [parseNatAux, digitVal_decDigit (n % 10) (Nat.mod_lt n (by omega))]
      have hlen : (natDecimal (n / 10) ++ [decDigit (n % 10)]).length
          = (natDecimal (n / 10)).length + 1 := by simp
      rw [hlen]
      congr 1
      rw [pow_succ]
      have hmod : n / 10 * 10 + n % 10 = n := by omega
      have h10 : (acc * 10 ^ (natDecimal (n / 10)).length + n / 10) * 10 + n % 10
          = acc * (10 ^ (natDecimal (n / 10)).length * 10) + (n / 10 * 10 + n % 10) := by ring
      rw [h10, hmod]

theorem parseNatDec_natDecimal (n : Nat) : parseNatDec (natDecimal n) = some n := by
  cases h : natDecimal n with
  | nil => exact absurd h (natDecimal_ne_nil n)
  | cons c cs =>
    show parseNatAux (c :: cs) 0 = some n
    rw [← h, parseNatAux_natDecimal]
    simp

theorem parseLineAddr_natDecimal (n : Nat) : parseLineAddr ('L' :: natDecimal n) = .ok n := by
  have h : parseLineAddr ('L' :: natDecimal n)
      = (match parseNatDec (natDecimal n) with
         | some m => Except.ok m
         | none => Except.error (PatchErr.addressResolutionFailed "invalid line address")) := rfl
  rw [h, parseNatDec_natDecimal]

/-- Split a character list at every `'\n'`; always returns at least one
(possibly empty) segment. -/
def splitNL : List Char → List (List Char)
  | [] => [[]]
  | c :: rest =>
    match splitNL rest with
    | [] => [[]]
    | p :: ps => if c = '\n' then [] :: p :: ps else (c :: p) :: ps

/-- Remove one trailing `'\r'`. -/
def stripCR (l : List Char) : List Char :=
  if l.getLast? = some '\r' then l.dropLast else l

/-- Remove one trailing `'\n'`. -/
def stripNL (l : List Char) : List Char :=
  if l.getLast? = some '\n' then l.dropLast else l

/-- Map a function over every element except the last. -/
def mapInit (f : List Char → List Char) : List (List Char) → List (List Char)
  | [] => []
  | [x] => [x]
  | x :: rest => f x :: mapInit f rest

/-- Rust `str::lines`: lines are separated by `'\n'` (a preceding `'\r'` is
part of the separator), and a final line ending is optional.  Modelled from
the Rust standard library semantics: split at `'\n'`, drop the trailing empty
segment produced by a final newline, and strip the `'\r'` that preceded each
`'\n'`; a last segment not produced by a newline keeps a trailing `'\r'`. -/
def rustLines (s : List Char) : List (List Char) :=
  match s with
  | [] => []
  | _ =>
    let ps := splitNL s
    if ps.getLast? = some [] then (ps.dropLast).map stripCR
    else mapInit stripCR ps

/-- Tokenization used by `similar::TextDiff::from_lines`: the text is cut into
line slices that keep their `'\n'` terminators (the final slice may lack
one). -/
def linesKeepEnds : List Char → List (List Char)
  | [] => []
  | c :: rest =>
    match linesKeepEnds rest with
    | [] => [[c]]
    | p :: ps => if c = '\n' then [c] :: p :: ps else (c :: p) :: ps

def endsNL (s : List Char) : Bool := s.getLast? = some '\n'

def noCR (s : List Char) : Bool := s.all (fun c => c != '\r')

/-- `Vec<String>::join("\n")`. -/
def joinNL : List (List Char) → List Char
  | [] => []
  | [l] => l
  | l :: ls => l ++ '\n' :: joinNL ls

theorem splitNL_ne_nil : ∀ s : List Char, splitNL s ≠ [] := by
  intro s
  cases s with
  | nil => simp [splitNL]
  | cons c rest =>
    simp only [splitNL]
    split
    · simp
    · split <;> simp

theorem keepEnds_cons_nl (rest : List Char) :
    linesKeepEnds ('\n' :: rest) = ['\n'] :: linesKeepEnds rest := by
  simp only [linesKeepEnds]
  cases linesKeepEnds rest with
  | nil => rfl
  | cons p ps => simp

theorem keepEnds_ne_nil (s : List Char) (h : s ≠ []) : linesKeepEnds s ≠ [] := by
  cases s with
  | nil => exact absurd rfl h
  | cons c rest =>
    simp only [linesKeepEnds]
    split
    · simp
    · split <;> simp

theorem keepEnds_match_eq (c : Char) (rest : List Char) :
    linesKeepEnds (c :: rest)
      = (match linesKeepEnds rest with
         | [] => [[c]]
         | p :: ps => if c = '\n' then [c] :: p :: ps else (c :: p) :: ps) := rfl

theorem keepEnds_match_cons (c : Char) (p : List Char) (ps : List (List Char)) :
    (match p :: ps with
     | [] => [[c]]
     | p :: ps => if c = '\n' then [c] :: p :: ps else (c :: p) :: ps)
    = if c = '\n' then [c] :: p :: ps else (c :: p) :: ps := rfl

theorem keepEnds_chunk_ne_nil : ∀ (s : List Char), ∀ q ∈ linesKeepEnds s, q ≠ [] := by
  intro s
  induction s with
  | nil => intro q hq; simp [linesKeepEnds] at hq
  | cons c rest ih =>
    intro q hq
    rw [keepEnds_match_eq] at hq
    cases h : linesKeepEnds rest with
    | nil =>
      rw [h] at hq
      simp only [List.mem_singleton] at hq
      subst hq; simp
    | cons p ps =>
      rw [h] at hq
      rw [show (match p :: ps with
          | [] => [[c]]
          | p :: ps => if c = '\n' then [c] :: p :: ps else (c :: p) :: ps)
        = if c = '\n' then [c] :: p :: ps else (c :: p) :: ps from rfl] at hq
      by_cases hc : c = '\n'
      · rw [if_pos hc] at hq
        rcases List.mem_cons.mp hq with hq1 | hq2
        · subst hq1; simp
        · exact ih q (by rw [h]; exact hq2)
      · rw [if_neg hc] at hq
        rcases List.mem_cons.mp hq with hq1 | hq2
        · subst hq1; simp
        · exact ih q (by rw [h]; exact List.mem_cons_of_mem _ hq2)

theorem stripNL_cons (c : Char) (q : List Char) (h : q ≠ []) :
    stripNL (c :: q) = c :: stripNL q := by
  cases q with
  | nil => exact absurd rfl h
  | cons a l =>
    simp only [stripNL, List.getLast?_cons_cons]
    split <;> rfl

theorem endsNL_cons (c : Char) (s : List Char) (h : s ≠ []) :
    endsNL (c :: s) = endsNL s := by
  cases s with
  | nil => exact absurd rfl h
  | cons a l => simp [endsNL, List.getLast?_cons_cons]

theorem splitNL_keepEnds : ∀ s : List Char,
    splitNL s = (linesKeepEnds s).map stripNL
      ++ (if endsNL s || s.isEmpty then [[]] else []) := by
  intro s
  induction s with
  | nil => simp [splitNL, linesKeepEnds, endsNL]
  | cons c rest ih =>
    by_cases hc : c = '\n'
    · subst hc
      rw [keepEnds_cons_nl]
      by_cases hr : rest = []
      · subst hr; decide
      · have h1 : splitNL ('\n' :: rest) = [] :: splitNL rest := by
          simp only [splitNL]
          cases hsp : splitNL rest with
          | nil => exact absurd hsp (splitNL_ne_nil rest)
          | cons p ps => simp
        have hie : rest.isEmpty = false := by
          cases rest with
          | nil => exact absurd rfl hr
          | cons a l => rfl
        have hstrip : stripNL ['\n'] = [] := by decide
        rw [h1, ih]
        simp only [endsNL_cons '\n' rest hr, hie, List.isEmpty_cons, List.map_cons,
          hstrip, List.cons_append, Bool.or_false]
    · by_cases hr : rest = []
      · subst hr
        have h1 : splitNL [c] = [[c]] := by
          simp only [splitNL]
          simp [hc]
        have h2 : linesKeepEnds [c] = [[c]] := rfl
        have h3 : endsNL [c] = false := by
          simp [endsNL, hc]
        have h4 : stripNL [c] = [c] := by
          simp [stripNL, hc]
        rw [h1, h2, h3]
        simp [h4]
      · obtain ⟨p, ps, hsp⟩ : ∃ p ps, splitNL rest = p :: ps := by
          cases hsp : splitNL rest with
          | nil => exact absurd hsp (splitNL_ne_nil rest)
          | cons p ps => exact ⟨p, ps, rfl⟩
        obtain ⟨q, qs, hke⟩ : ∃ q qs, linesKeepEnds rest = q :: qs := by
          cases hke : linesKeepEnds rest with
          | nil => exact absurd hke (keepEnds_ne_nil rest hr)
          | cons q qs => exact ⟨q, qs, rfl⟩
        have hq : q ≠ [] := keepEnds_chunk_ne_nil rest q (by rw [hke]; exact List.mem_cons_self _ _)
        have h1 : splitNL (c :: rest) = (c :: p) :: ps := by
          simp only [splitNL, hsp]
          simp [hc]
        have h2 : linesKeepEnds (c :: rest) = (c :: q) :: qs := by
          simp only [linesKeepEnds, hke]
          simp [hc]
        have hie : rest.isEmpty = false := by
          cases rest with
          | nil => exact absurd rfl hr
          | cons a l => rfl
        rw [hsp, hke, hie] at ih
        simp only [List.map_cons, List.cons_append, Bool.or_false] at ih
        rw [List.cons.injEq] at ih
        rw [h1, h2]
        simp only [List.map_cons, List.cons_append, List.isEmpty_cons, Bool.or_false]
        rw [endsNL_cons c rest hr, stripNL_cons c q hq, ih.1, ih.2]

/-- One tokenized line slice: nonempty, with no `'\n'` before a final
(optional) terminating `'\n'`. -/
def isChunk (q : List Char) : Bool := !q.isEmpty && (stripNL q).all (fun c => c != '\n')

/-- A well-formed slice sequence: every slice is a single line, and every
slice except possibly the last ends with `'\n'`. -/
def chunksWF : List (List Char) → Bool
  | [] => true
  | q :: rest => isChunk q && (rest.isEmpty || endsNL q) && chunksWF rest

theorem chunksWF_cons_iff (q : List Char) (rest : List (List Char)) :
    chunksWF (q :: rest) = true
      ↔ isChunk q = true ∧ (rest.isEmpty || endsNL q) = true ∧ chunksWF rest = true := by
  simp only [chunksWF, Bool.and_eq_true]
  exact and_assoc

theorem isChunk_ne_nil (q : List Char) (h : isChunk q = true) : q ≠ [] := by
  intro hq
  subst hq
  simp [isChunk] at h

theorem isChunk_singleton (c : Char) : isChunk [c] = true := by
  by_cases hc : c = '\n'
  · subst hc; decide
  · simp [isChunk, stripNL, List.getLast?_singleton, hc]

theorem isChunk_cons (c : Char) (q : List Char) (hq : q ≠ []) :
    isChunk (c :: q) = true ↔ (c != '\n') = true ∧ isChunk q = true := by
  simp only [isChunk, stripNL_cons c q hq, List.all_cons, List.isEmpty_cons,
    Bool.not_false, Bool.true_and, Bool.and_eq_true]
  constructor
  · intro h
    refine ⟨h.1, ?_, h.2⟩
    cases q with
    | nil => exact absurd rfl hq
    | cons a l => simp
  · intro h
    exact ⟨h.1, h.2.2⟩

theorem chunksWF_keepEnds (s : List Char) : chunksWF (linesKeepEnds s) = true := by
  induction s with
  | nil => rfl
  | cons c rest ih =>
    rw [keepEnds_match_eq]
    cases h : linesKeepEnds rest with
    | nil =>
      show chunksWF [[c]] = true
      rw [chunksWF_cons_iff]
      exact ⟨isChunk_singleton c, by simp, rfl⟩
    | cons p ps =>
      rw [h] at ih
      rw [keepEnds_match_cons]
      have hp : p ≠ [] := keepEnds_chunk_ne_nil rest p (by rw [h]; exact List.mem_cons_self _ _)
      by_cases hc : c = '\n'
      · rw [if_pos hc, chunksWF_cons_iff]
        subst hc
        exact ⟨by decide, by simp [endsNL], ih⟩
      · rw [if_neg hc, chunksWF_cons_iff]
        rw [chunksWF_cons_iff] at ih
        refine ⟨?_, ?_, ih.2.2⟩
        · rw [isChunk_cons c p hp]
          exact ⟨by simp [hc], ih.1⟩
        · rw [endsNL_cons c p hp]
          exact ih.2.1

theorem chunksWF_tail (q : List Char) (rest : List (List Char))
    (h : chunksWF (q :: rest) = true) : chunksWF rest = true :=
  ((chunksWF_cons_iff q rest).mp h).2.2

theorem chunksWF_drop (cs : List (List Char)) (h : chunksWF cs = true) :
    ∀ n, chunksWF (cs.drop n) = true := by
  induction cs with
  | nil => intro n; simp [chunksWF]
  | cons q rest ih =>
    intro n
    cases n with
    | zero => exact h
    | succ m => exact ih (chunksWF_tail q rest h) m

theorem chunksWF_take (cs : List (List Char)) (h : chunksWF cs = true) :
    ∀ n, chunksWF (cs.take n) = true := by
  induction cs with
  | nil => intro n; simp [chunksWF]
  | cons q rest ih =>
    intro n
    cases n with
    | zero => rfl
    | succ m =>
      rw [List.take_succ_cons, chunksWF_cons_iff]
      rw [chunksWF_cons_iff] at h
      refine ⟨h.1, ?_, ih h.2.2 m⟩
      rcases (Bool.or_eq_true _ _).mp h.2.1 with he | he
      · have : rest = [] := by
          cases rest with
          | nil => rfl
          | cons a b => simp [List.isEmpty_cons] at he
        subst this
        simp
      · simp [he]

/-- `chunksWF` holds for any contiguous slice of a well-formed sequence. -/
theorem chunksWF_slice (cs : List (List Char)) (h : chunksWF cs = true) (lo k : Nat) :
    chunksWF ((cs.drop lo).take k) = true :=
  chunksWF_take _ (chunksWF_drop cs h lo) k

theorem keepEnds_chars : ∀ (s : List Char), ∀ q ∈ linesKeepEnds s, ∀ c ∈ q, c ∈ s := by
  intro s
  induction s with
  | nil => intro q hq; simp [linesKeepEnds] at hq
  | cons a rest ih =>
    intro q hq c hc
    rw [keepEnds_match_eq] at hq
    cases h : linesKeepEnds rest with
    | nil =>
      rw [h] at hq
      simp only [List.mem_singleton] at hq
      subst hq
      simp only [List.mem_singleton] at hc
      subst hc
      exact List.mem_cons_self _ _
    | cons p ps =>
      rw [h] at hq
      rw [show (match p :: ps with
          | [] => [[a]]
          | p :: ps => if a = '\n' then [a] :: p :: ps else (a :: p) :: ps)
        = if a = '\n' then [a] :: p :: ps else (a :: p) :: ps from rfl] at hq
      by_cases ha : a = '\n'
      · rw [if_pos ha] at hq
        rcases List.mem_cons.mp hq with h1 | h2
        · subst h1
          simp only [List.mem_singleton] at hc
          subst hc
          exact ha ▸ List.mem_cons_self _ _
        · exact List.mem_cons_of_mem _ (ih q (by rw [h]; exact h2) c hc)
      · rw [if_neg ha] at hq
        rcases List.mem_cons.mp hq with h1 | h2
        · subst h1
          rcases List.mem_cons.mp hc with h3 | h4
          · subst h3; exact List.mem_cons_self _ _
          · exact List.mem_cons_of_mem _
              (ih p (by rw [h]; exact List.mem_cons_self _ _) c h4)
        · exact List.mem_cons_of_mem _
            (ih q (by rw [h]; exact List.mem_cons_of_mem _ h2) c hc)

theorem getLast?_mem_of : ∀ (l : List Char) (a : Char), l.getLast? = some a → a ∈ l := by
  intro l
  induction l with
  | nil => intro a h; simp at h
  | cons x rest ih =>
    intro a h
    cases rest with
    | nil =>
      rw [List.getLast?_singleton] at h
      simp only [Option.some.injEq] at h
      subst h
      exact List.mem_cons_self _ _
    | cons y l2 =>
      rw [List.getLast?_cons_cons] at h
      exact List.mem_cons_of_mem _ (ih a h)

theorem stripCR_eq_self (x : List Char) (h : ∀ c ∈ x, c ≠ '\r') : stripCR x = x := by
  unfold stripCR
  split
  · next hx =>
    exact absurd (getLast?_mem_of x '\r' hx) (fun hm => h '\r' hm rfl)
  · rfl

theorem map_self_of (f : List Char → List Char) :
    ∀ l : List (List Char), (∀ x ∈ l, f x = x) → l.map f = l := by
  intro l
  induction l with
  | nil => intro h; rfl
  | cons x rest ih =>
    intro h
    simp only [List.map_cons]
    rw [h x (List.mem_cons_self _ _), ih (fun y hy => h y (List.mem_cons_of_mem _ hy))]

theorem mapInit_self (f : List Char → List Char) :
    ∀ l : List (List Char), (∀ x ∈ l, f x = x) → mapInit f l = l := by
  intro l
  induction l with
  | nil => intro h; rfl
  | cons x rest ih =>
    intro h
    cases rest with
    | nil => rfl
    | cons y l2 =>
      show f x :: mapInit f (y :: l2) = x :: y :: l2
      rw [h x (List.mem_cons_self _ _), ih (fun z hz => h z (List.mem_cons_of_mem _ hz))]

theorem keepEnds_getLast (s : List Char) (h : s ≠ []) :
    ∃ q, (linesKeepEnds s).getLast? = some q ∧ q ≠ [] ∧ endsNL q = endsNL s := by
  induction s with
  | nil => exact absurd rfl h
  | cons c rest ih =>
    by_cases hr : rest = []
    · subst hr
      refine ⟨[c], ?_, by simp, rfl⟩
      show (linesKeepEnds [c]).getLast? = some [c]
      rfl
    · obtain ⟨q, hl, hne, hend⟩ := ih hr
      obtain ⟨p, ps, hke⟩ : ∃ p ps, linesKeepEnds rest = p :: ps := by
        cases hke : linesKeepEnds rest with
        | nil => exact absurd hke (keepEnds_ne_nil rest hr)
        | cons p ps => exact ⟨p, ps, rfl⟩
      rw [hke] at hl
      by_cases hc : c = '\n'
      · subst hc
        rw [keepEnds_cons_nl, hke]
        refine ⟨q, ?_, hne, ?_⟩
        · rw [List.getLast?_cons_cons]
          exact hl
        · rw [hend, endsNL_cons '\n' rest hr]
      · have h2 : linesKeepEnds (c :: rest) = (c :: p) :: ps := by
          rw [keepEnds_match_eq, hke]
          simp [hc]
        rw [h2]
        cases ps with
        | nil =>
          rw [List.getLast?_singleton] at hl
          simp only [Option.some.injEq] at hl
          subst hl
          have hp : p ≠ [] := hne
          refine ⟨c :: p, List.getLast?_singleton _, by simp, ?_⟩
          rw [endsNL_cons c p hp, hend, endsNL_cons c rest hr]
        | cons r rs =>
          refine ⟨q, ?_, hne, ?_⟩
          · rw [List.getLast?_cons_cons]
            rw [List.getLast?_cons_cons] at hl
            exact hl
          · rw [hend, endsNL_cons c rest hr]

theorem rustLines_eq (s : List Char) (h : s ≠ []) :
    rustLines s
      = (if (splitNL s).getLast? = some [] then ((splitNL s).dropLast).map stripCR
         else mapInit stripCR (splitNL s)) := by
  cases s with
  | nil => exact absurd rfl h
  | cons c rest => rfl

theorem noCR_mem (s : List Char) (hcr : noCR s = true) : ∀ c ∈ s, c ≠ '\r' := by
  intro c hc
  have := (List.all_eq_true.mp hcr) c hc
  simpa using this

/-- Under a CR-free input, Rust `str::lines` is exactly the `similar` line
slices with their newline terminators removed. -/
theorem rustLines_keepEnds (s : List Char) (hcr : noCR s = true) :
    rustLines s = (linesKeepEnds s).map stripNL := by
  by_cases hs : s = []
  · subst hs; rfl
  · have hchars : ∀ x ∈ (linesKeepEnds s).map stripNL, ∀ c ∈ x, c ≠ '\r' := by
      intro x hx c hc
      rw [List.mem_map] at hx
      obtain ⟨q, hq, hxq⟩ := hx
      have hcq : c ∈ q := by
        subst hxq
        unfold stripNL at hc
        split at hc
        · exact List.dropLast_subset q hc
        · exact hc
      exact noCR_mem s hcr c (keepEnds_chars s q hq c hcq)
    have hfix : ∀ x ∈ (linesKeepEnds s).map stripNL, stripCR x = x := by
      intro x hx
      exact stripCR_eq_self x (hchars x hx)
    rw [rustLines_eq s hs, splitNL_keepEnds s]
    have hie : s.isEmpty = false := by
      cases s with
      | nil => exact absurd rfl hs
      | cons a l => rfl
    rw [hie, Bool.or_false]
    by_cases hend : endsNL s = true
    · rw [hend]
      simp only [if_true]
      rw [List.getLast?_concat]
      simp only [if_pos rfl]
      rw [List.dropLast_concat]
      exact map_self_of stripCR _ hfix
    · rw [Bool.not_eq_true] at hend
      rw [hend]
      rw [if_neg Bool.false_ne_true, List.append_nil]
      obtain ⟨q, hl, hne, hq⟩ := keepEnds_getLast s hs
      rw [hend] at hq
      have hqlast : ¬(q.getLast? = some '\n') := by
        intro hx
        rw [show endsNL q = decide (q.getLast? = some '\n') from rfl, hx] at hq
        simp at hq
      have hsq : stripNL q = q := by
        unfold stripNL
        rw [if_neg hqlast]
      have hlast : ((linesKeepEnds s).map stripNL).getLast? = some q := by
        rw [List.getLast?_map, hl]
        simp [hsq]
      rw [if_neg ?hne]
      case hne =>
        rw [hlast]
        simp only [Option.some.injEq]
        exact fun hqq => hne hqq
      exact mapInit_self stripCR _ hfix

theorem keepEnds_join_self : ∀ s : List Char, (linesKeepEnds s).flatten = s := by
  intro s
  induction s with
  | nil => rfl
  | cons c rest ih =>
    rw [keepEnds_match_eq]
    cases h : linesKeepEnds rest with
    | nil =>
      have hr : rest = [] := by
        by_contra hne
        exact keepEnds_ne_nil rest hne h
      subst hr
      rfl
    | cons p ps =>
      rw [h] at ih
      rw [keepEnds_match_cons]
      by_cases hc : c = '\n'
      · rw [if_pos hc]
        rw [show ([c] :: p :: ps).flatten = c :: (p :: ps).flatten from rfl]
        rw [ih, hc]
      · rw [if_neg hc]
        rw [show ((c :: p) :: ps).flatten = c :: (p :: ps).flatten from rfl]
        rw [ih]

theorem stripNL_append (a b : List Char) (hb : b ≠ []) :
    stripNL (a ++ b) = a ++ stripNL b := by
  induction a with
  | nil => rfl
  | cons c a2 ih =>
    have hne : a2 ++ b ≠ [] := by
      intro hx
      rcases List.append_eq_nil.mp hx with ⟨_, h2⟩
      exact hb h2
    rw [List.cons_append, stripNL_cons c _ hne, ih]
    rfl

theorem endsNL_getLast (q : List Char) (h : endsNL q = true) :
    q.dropLast ++ ['\n'] = q := by
  have hne : q ≠ [] := by
    intro hq
    subst hq
    simp [endsNL] at h
  have := List.getLast?_eq_getLast q hne
  unfold endsNL at h
  rw [this] at h
  simp only [decide_eq_true_eq, Option.some.injEq] at h
  rw [← h]
  exact List.dropLast_append_getLast hne

theorem joinNL_stripNL : ∀ cs : List (List Char), chunksWF cs = true →
    joinNL (cs.map stripNL) = stripNL cs.flatten := by
  intro cs
  induction cs with
  | nil => intro h; rfl
  | cons q rest ih =>
    intro h
    rw [chunksWF_cons_iff] at h
    cases rest with
    | nil =>
      show stripNL q = stripNL (q ++ [].flatten)
      simp
    | cons r rs =>
      have hr : r ≠ [] := isChunk_ne_nil r ((chunksWF_cons_iff r rs).mp h.2.2).1
      have hflat : (r :: rs).flatten ≠ [] := by
        rw [List.flatten_cons]
        intro hx
        rcases List.append_eq_nil.mp hx with ⟨h1, _⟩
        exact hr h1
      have hnl : endsNL q = true := by
        rcases (Bool.or_eq_true _ _).mp h.2.1 with he | he
        · simp [List.isEmpty_cons] at he
        · exact he
      show stripNL q ++ '\n' :: joinNL ((r :: rs).map stripNL) = stripNL ((q :: r :: rs).flatten)
      rw [ih h.2.2]
      have hsplit : stripNL ((q :: r :: rs).flatten) = q ++ stripNL ((r :: rs).flatten) := by
        rw [show ((q :: r :: rs).flatten) = q ++ (r :: rs).flatten from rfl]
        exact stripNL_append q _ hflat
      rw [hsplit]
      have hq : stripNL q = q.dropLast := by
        unfold stripNL
        unfold endsNL at hnl
        simp only [decide_eq_true_eq] at hnl
        rw [if_pos hnl]
      rw [hq]
      rw [show q.dropLast ++ '\n' :: stripNL ((r :: rs).flatten)
          = (q.dropLast ++ ['\n']) ++ stripNL ((r :: rs).flatten) from by
        rw [List.append_assoc]; rfl]
      rw [endsNL_getLast q hnl]

/-- Joining the Rust lines of a CR-free string with `'\n'` reproduces the
string minus a final newline. -/
theorem joinNL_rustLines (s : List Char) (hcr : noCR s = true) :
    joinNL (rustLines s) = stripNL s := by
  rw [rustLines_keepEnds s hcr, joinNL_stripNL _ (chunksWF_keepEnds s), keepEnds_join_self]

theorem keepEnds_append_chunk (q : List Char) (s : List Char)
    (hq : isChunk q = true) (hnl : endsNL q = true) :
    linesKeepEnds (q ++ s) = q :: linesKeepEnds s := by
  induction q with
  | nil => exact absurd rfl (isChunk_ne_nil [] hq)
  | cons c q2 ih =>
    by_cases hq2 : q2 = []
    · subst hq2
      have hc : c = '\n' := by
        unfold endsNL at hnl
        rw [List.getLast?_singleton] at hnl
        simpa using hnl
      subst hc
      exact keepEnds_cons_nl s
    · have hcq : (c != '\n') = true ∧ isChunk q2 = true := (isChunk_cons c q2 hq2).mp hq
      have hnl2 : endsNL q2 = true := by
        rw [endsNL_cons c q2 hq2] at hnl
        exact hnl
      have ihr := ih hcq.2 hnl2
      rw [List.cons_append, keepEnds_match_eq, ihr, keepEnds_match_cons]
      have hc : ¬(c = '\n') := by simpa using hcq.1
      simp [hc]

theorem keepEnds_of_chunk (q : List Char) (hq : isChunk q = true) :
    linesKeepEnds q = [q] := by
  induction q with
  | nil => exact absurd rfl (isChunk_ne_nil [] hq)
  | cons c q2 ih =>
    by_cases hq2 : q2 = []
    · subst hq2; rfl
    · have hcq : (c != '\n') = true ∧ isChunk q2 = true := (isChunk_cons c q2 hq2).mp hq
      have ihr := ih hcq.2
      rw [show ((c :: q2 : List Char)) = [] ++ (c :: q2) from rfl]
      rw [List.nil_append, keepEnds_match_eq, ihr, keepEnds_match_cons]
      have hc : ¬(c = '\n') := by simpa using hcq.1
      simp [hc]

theorem keepEnds_flatten (cs : List (List Char)) (hwf : chunksWF cs = true) :
    linesKeepEnds cs.flatten = cs := by
  induction cs with
  | nil => rfl
  | cons q rest ih =>
    rw [chunksWF_cons_iff] at hwf
    cases rest with
    | nil =>
      show linesKeepEnds (q ++ [].flatten) = [q]
      rw [show (([] : List (List Char)).flatten) = [] from rfl, List.append_nil]
      exact keepEnds_of_chunk q hwf.1
    | cons r rs =>
      have hnl : endsNL q = true := by
        rcases (Bool.or_eq_true _ _).mp hwf.2.1 with he | he
        · simp [List.isEmpty_cons] at he
        · exact he
      rw [List.flatten_cons, keepEnds_append_chunk q _ hwf.1 hnl, ih hwf.2.2]

/-- Rust `str::lines` applied to a concatenation of CR-free well-formed line
slices returns exactly those slices with terminators stripped. -/
theorem rustLines_flatten (cs : List (List Char)) (hwf : chunksWF cs = true)
    (hcr : noCR cs.flatten = true) :
    rustLines cs.flatten = cs.map stripNL := by
  rw [rustLines_keepEnds _ hcr, keepEnds_flatten cs hwf]

theorem keepEnds_length_le : ∀ s : List Char, (linesKeepEnds s).length ≤ s.length := by
  intro s
  induction s with
  | nil => simp [linesKeepEnds]
  | cons c rest ih =>
    rw [keepEnds_match_eq]
    cases h : linesKeepEnds rest with
    | nil => simp
    | cons p ps =>
      rw [h] at ih
      rw [keepEnds_match_cons]
      by_cases hc : c = '\n'
      · rw [if_pos hc]
        simpa using Nat.succ_le_succ ih
      · rw [if_neg hc]
        simp only [List.length_cons] at ih ⊢
        omega

theorem noCR_flatten_subset (cs ds : List (List Char))
    (hsub : ∀ q ∈ cs, q ∈ ds) (h : noCR ds.flatten = true) : noCR cs.flatten = true := by
  rw [noCR, List.all_eq_true]
  intro c hc
  rw [List.mem_flatten] at hc
  obtain ⟨q, hq, hcq⟩ := hc
  have : c ∈ ds.flatten := List.mem_flatten.mpr ⟨q, hsub q hq, hcq⟩
  exact (List.all_eq_true.mp h) c this

/-- Tags of `similar::DiffTag`. -/
inductive DTag where
  | equalT
  | deleteT
  | insertT
  | replaceT
deriving DecidableEq, Repr

/-- One `similar::DiffOp` as yielded by `diff.ops()`: a tag together with its
`old_range` and `new_range`. -/
structure DSec where
  tag : DTag
  oldLo : Nat
  oldHi : Nat
  newLo : Nat
  newHi : Nat
deriving DecidableEq, Repr

/-- `xs[lo..hi]` on token lists. -/
def tokSlice (xs : List (List Char)) (lo hi : Nat) : List (List Char) :=
  (xs.drop lo).take (hi - lo)

def secOk (oldS newS : List (List Char)) (i j : Nat) (s : DSec) : Bool :=
  s.oldLo == i && s.newLo == j &&
  (match s.tag with
   | .equalT => decide (i < s.oldHi) && decide (j < s.newHi)
       && (s.oldHi - i == s.newHi - j)
       && (tokSlice oldS i s.oldHi == tokSlice newS j s.newHi)
   | .deleteT => decide (i < s.oldHi) && (s.newHi == j)
   | .insertT => (s.oldHi == i) && decide (j < s.newHi)
   | .replaceT => decide (i < s.oldHi) && decide (j < s.newHi))

def conformsFrom (oldS newS : List (List Char)) : Nat → Nat → List DSec → Bool
  | i, j, [] => i == oldS.length && j == newS.length
  | i, j, s :: rest => secOk oldS newS i j s && conformsFrom oldS newS s.oldHi s.newHi rest

/-- The contract satisfied by the op list computed by the `similar` diff
engine on the two tokenized texts (`TextDiff::from_lines(old, new).ops()`):
the sections tile the old and the new token sequence in order; `Equal`
sections carry identical slices; `Delete` (resp. `Insert`) sections have an
empty new (resp. old) range and a non-empty old (resp. new) range; `Replace`
sections are non-empty on both sides. -/
def diffConforms (old new : List Char) (secs : List DSec) : Bool :=
  conformsFrom (linesKeepEnds old) (linesKeepEnds new) 0 0 secs

/-- `context_hash` (text_line.rs): hash the window of up to seven lines
around `center`; the `DefaultHasher` is abstracted as the parameter `dh`. -/
def contextHash (dh : List (List Char) → Nat) (lines : List (List Char)) (center : Nat) : Nat :=
  dh (tokSlice lines (center - 3) (min (center + 4) lines.length))

/-- The op-emitting loop of `TextLineCodec::diff` (text_line.rs), one
iteration per `similar` section, carrying the `old_line` cursor. -/
def textDiffGo (dh : List (List Char) → Nat) (oldS newS oldLines : List (List Char)) :
    Nat → List DSec → List TextOp
  | _, [] => []
  | oldLine, s :: rest =>
    match s.tag with
    | .equalT => textDiffGo dh oldS newS oldLines s.oldHi rest
    | .deleteT =>
      { address := 'L' :: natDecimal s.oldLo, opType := "delete",
        oldData := some (tokSlice oldS s.oldLo s.oldHi).flatten,
        newData := none,
        contextHash := some (contextHash dh oldLines s.oldLo) }
        :: textDiffGo dh oldS newS oldLines s.oldHi rest
    | .insertT =>
      { address := 'L' :: natDecimal oldLine, opType := "insert",
        oldData := none,
        newData := some (tokSlice newS s.newLo s.newHi).flatten,
        contextHash :=
          if !oldLines.isEmpty then
            some (contextHash dh oldLines (min oldLine (oldLines.length - 1)))
          else none }
        :: textDiffGo dh oldS newS oldLines oldLine rest
    | .replaceT =>
      { address := 'L' :: natDecimal s.oldLo, opType := "replace",
        oldData := some (tokSlice oldS s.oldLo s.oldHi).flatten,
        newData := some (tokSlice newS s.newLo s.newHi).flatten,
        contextHash := some (contextHash dh oldLines s.oldLo) }
        :: textDiffGo dh oldS newS oldLines s.oldHi rest

/-- `TextLineCodec::diff` (text_line.rs), parameterized by the section list
`secs` computed by the `similar` diff engine and by the `DefaultHasher`
abstraction `dh`. -/
def textDiff (dh : List (List Char) → Nat) (old new : List Char) (secs : List DSec) :
    List TextOp :=
  textDiffGo dh (linesKeepEnds old) (linesKeepEnds new) (rustLines old) 0 secs

/-- The op loop of `TextLineCodec::apply` (text_line.rs).  The Rust
`(line_num as i64 + offset) as usize` double cast is modelled by
`(· % 2^64).toNat` on the unbounded integers. -/
def textApplyGo : List TextOp → List (List Char) → Int → Except PatchErr (List (List Char))
  | [], lines, _ => .ok lines
  | op :: rest, lines, offset =>
    match parseLineAddr op.address with
    | .error e => .error e
    | .ok lineNum =>
      let adjusted : Nat := (((lineNum : Int) + offset) % (2 ^ 64 : Int)).toNat
      if op.opType = "delete" then
        match op.oldData with
        | none => .error (.applyFailed "delete op missing old_data")
        | some od =>
          let count := max (rustLines od).length 1
          if lines.length < adjusted + count then
            .error (.applyFailed "delete out of bounds")
          else
            textApplyGo rest (lines.take adjusted ++ lines.drop (adjusted + count))
              (offset - (count : Int))
      else if op.opType = "insert" then
        match op.newData with
        | none => .error (.applyFailed "insert op missing new_data")
        | some nd =>
          let newLs := rustLines nd
          let insertAt := min adjusted lines.length
          textApplyGo rest (lines.take insertAt ++ newLs ++ lines.drop insertAt)
            (offset + (newLs.length : Int))
      else if op.opType = "replace" then
        match op.oldData with
        | none => .error (.applyFailed "replace op missing old_data")
        | some od =>
          let delCount := max (rustLines od).length 1
          if lines.length < adjusted + delCount then
            .error (.applyFailed "replace delete out of bounds")
          else
            match op.newData with
            | none => .error (.applyFailed "replace op missing new_data")
            | some nd =>
              let lines2 := lines.take adjusted ++ lines.drop (adjusted + delCount)
              let newLs := rustLines nd
              let insertAt := min adjusted lines2.length
              textApplyGo rest (lines2.take insertAt ++ newLs ++ lines2.drop insertAt)
                (offset + (newLs.length : Int) - (delCount : Int))
      else .error (.applyFailed "unknown op type")

/-- `TextLineCodec::apply` (text_line.rs): split the base into Rust lines,
run the op loop, join with `'\n'`, and restore a final newline when the base
ended with one (or was empty) and the result is non-empty. -/
def textApply (base : List Char) (ops : List TextOp) : Except PatchErr (List Char) :=
  match textApplyGo ops (rustLines base) 0 with
  | .error e => .error e
  | .ok lns =>
    if (endsNL base || base.isEmpty) && !(joinNL lns).isEmpty then .ok (joinNL lns ++ ['\n'])
    else .ok (joinNL lns)

theorem secOk_bounds (oldS newS : List (List Char)) (i j : Nat) (s : DSec)
    (h : secOk oldS newS i j s = true) :
    s.oldLo = i ∧ s.newLo = j ∧ i ≤ s.oldHi ∧ j ≤ s.newHi := by
  simp only [secOk, Bool.and_eq_true, beq_iff_eq] at h
  obtain ⟨⟨h1, h2⟩, h3⟩ := h
  refine ⟨h1, h2, ?_⟩
  cases hts : s.tag <;> rw [hts] at h3 <;>
    simp only [Bool.and_eq_true, beq_iff_eq, decide_eq_true_eq] at h3 <;>
    omega

theorem conformsFrom_le (oldS newS : List (List Char)) :
    ∀ (secs : List DSec) (i j : Nat), conformsFrom oldS newS i j secs = true →
      i ≤ oldS.length ∧ j ≤ newS.length := by
  intro secs
  induction secs with
  | nil =>
    intro i j h
    simp only [conformsFrom, Bool.and_eq_true, beq_iff_eq] at h
    omega
  | cons s rest ih =>
    intro i j h
    simp only [conformsFrom, Bool.and_eq_true] at h
    have hb := secOk_bounds oldS newS i j s h.1
    have h2 := ih s.oldHi s.newHi h.2
    omega

theorem textDiffGo_equal (dh : List (List Char) → Nat)
    (oldS newS oldLines : List (List Char)) (oldLine : Nat) (s : DSec) (rest : List DSec)
    (h : s.tag = .equalT) :
    textDiffGo dh oldS newS oldLines oldLine (s :: rest)
      = textDiffGo dh oldS newS oldLines s.oldHi rest := by
  show (match s.tag with
    | DTag.equalT => textDiffGo dh oldS newS oldLines s.oldHi rest
    | DTag.deleteT =>
      { address := 'L' :: natDecimal s.oldLo, opType := "delete",
        oldData := some (tokSlice oldS s.oldLo s.oldHi).flatten,
        newData := none,
        contextHash := some (contextHash dh oldLines s.oldLo) }
        :: textDiffGo dh oldS newS oldLines s.oldHi rest
    | DTag.insertT =>
      { address := 'L' :: natDecimal oldLine, opType := "insert",
        oldData := none,
        newData := some (tokSlice newS s.newLo s.newHi).flatten,
        contextHash :=
          if !oldLines.isEmpty then
            some (contextHash dh oldLines (min oldLine (oldLines.length - 1)))
          else none }
        :: textDiffGo dh oldS newS oldLines oldLine rest
    | DTag.replaceT =>
      { address := 'L' :: natDecimal s.oldLo, opType := "replace",
        oldData := some (tokSlice oldS s.oldLo s.oldHi).flatten,
        newData := some (tokSlice newS s.newLo s.newHi).flatten,
        contextHash := some (contextHash dh oldLines s.oldLo) }
        :: textDiffGo dh oldS newS oldLines s.oldHi rest) = _
  rw [h]

theorem textDiffGo_delete (dh : List (List Char) → Nat)
    (oldS newS oldLines : List (List Char)) (oldLine : Nat) (s : DSec) (rest : List DSec)
    (h : s.tag = .deleteT) :
    textDiffGo dh oldS newS oldLines oldLine (s :: rest)
      = { address := 'L' :: natDecimal s.oldLo, opType := "delete",
          oldData := some (tokSlice oldS s.oldLo s.oldHi).flatten,
          newData := none,
          contextHash := some (contextHash dh oldLines s.oldLo) }
        :: textDiffGo dh oldS newS oldLines s.oldHi rest := by
  rw [show textDiffGo dh oldS newS oldLines oldLine (s :: rest)
      = textDiffGo dh oldS newS oldLines oldLine ({ s with tag := s.tag } :: rest) from by
        cases s; rfl]
  rw [h]
  rfl

theorem textDiffGo_insert (dh : List (List Char) → Nat)
    (oldS newS oldLines : List (List Char)) (oldLine : Nat) (s : DSec) (rest : List DSec)
    (h : s.tag = .insertT) :
    textDiffGo dh oldS newS oldLines oldLine (s :: rest)
      = { address := 'L' :: natDecimal oldLine, opType := "insert",
          oldData := none,
          newData := some (tokSlice newS s.newLo s.newHi).flatten,
          contextHash :=
            if !oldLines.isEmpty then
              some (contextHash dh oldLines (min oldLine (oldLines.length - 1)))
            else none }
        :: textDiffGo dh oldS newS oldLines oldLine rest := by
  rw [show textDiffGo dh oldS newS oldLines oldLine (s :: rest)
      = textDiffGo dh oldS newS oldLines oldLine ({ s with tag := s.tag } :: rest) from by
        cases s; rfl]
  rw [h]
  rfl

theorem textDiffGo_replace (dh : List (List Char) → Nat)
    (oldS newS oldLines : List (List Char)) (oldLine : Nat) (s : DSec) (rest : List DSec)
    (h : s.tag = .replaceT) :
    textDiffGo dh oldS newS oldLines oldLine (s :: rest)
      = { address := 'L' :: natDecimal s.oldLo, opType := "replace",
          oldData := some (tokSlice oldS s.oldLo s.oldHi).flatten,
          newData := some (tokSlice newS s.newLo s.newHi).flatten,
          contextHash := some (contextHash dh oldLines s.oldLo) }
        :: textDiffGo dh oldS newS oldLines s.oldHi rest := by
  rw [show textDiffGo dh oldS newS oldLines oldLine (s :: rest)
      = textDiffGo dh oldS newS oldLines oldLine ({ s with tag := s.tag } :: rest) from by
        cases s; rfl]
  rw [h]
  rfl

theorem take_prefix_append (A B : List (List Char)) (j : Nat) (h : j ≤ A.length) :
    ((A.take j) ++ B).take j = A.take j :=
  List.take_left' (by rw [List.length_take]; omega)

theorem drop_prefix_append (A B : List (List Char)) (j d : Nat) (h : j ≤ A.length) :
    ((A.take j) ++ B).drop (j + d) = B.drop d := by
  rw [List.drop_append_eq_append_drop]
  have h1 : (A.take j).drop (j + d) = [] :=
    List.drop_eq_nil_of_le (by rw [List.length_take]; omega)
  rw [h1, List.nil_append]
  congr 1
  rw [List.length_take]
  omega

theorem drop_prefix_append_self (A B : List (List Char)) (j : Nat) (h : j ≤ A.length) :
    ((A.take j) ++ B).drop j = B := by
  have h0 := drop_prefix_append A B j 0 h
  rw [Nat.add_zero, List.drop_zero] at h0
  exact h0

theorem textApplyGo_delete (rest : List TextOp) (lines : List (List Char)) (offset : Int)
    (k : Nat) (od : List Char) (ctx : Option Nat) :
    textApplyGo
        ({ address := 'L' :: natDecimal k, opType := "delete",
           oldData := some od, newData := none, contextHash := ctx } :: rest)
        lines offset
      = if lines.length < (((k : Int) + offset) % (2 ^ 64 : Int)).toNat
            + max (rustLines od).length 1 then
          .error (.applyFailed "delete out of bounds")
        else
          textApplyGo rest
            (lines.take (((k : Int) + offset) % (2 ^ 64 : Int)).toNat
              ++ lines.drop ((((k : Int) + offset) % (2 ^ 64 : Int)).toNat
                + max (rustLines od).length 1))
            (offset - ((max (rustLines od).length 1 : Nat) : Int)) := by
  rw [show textApplyGo
        ({ address := 'L' :: natDecimal k, opType := "delete",
           oldData := some od, newData := none, contextHash := ctx } :: rest)
        lines offset
      = (match parseLineAddr ('L' :: natDecimal k) with
         | .error e => .error e
         | .ok lineNum =>
           if lines.length < (((lineNum : Int) + offset) % (2 ^ 64 : Int)).toNat
               + max (rustLines od).length 1 then
             Except.error (.applyFailed "delete out of bounds")
           else
             textApplyGo rest
               (lines.take (((lineNum : Int) + offset) % (2 ^ 64 : Int)).toNat
                 ++ lines.drop ((((lineNum : Int) + offset) % (2 ^ 64 : Int)).toNat
                   + max (rustLines od).length 1))
               (offset - ((max (rustLines od).length 1 : Nat) : Int))) from rfl]
  rw [parseLineAddr_natDecimal]

theorem textApplyGo_insert (rest : List TextOp) (lines : List (List Char)) (offset : Int)
    (k : Nat) (nd : List Char) (ctx : Option Nat) :
    textApplyGo
        ({ address := 'L' :: natDecimal k, opType := "insert",
           oldData := none, newData := some nd, contextHash := ctx } :: rest)
        lines offset
      = textApplyGo rest
          (lines.take (min (((k : Int) + offset) % (2 ^ 64 : Int)).toNat lines.length)
            ++ rustLines nd
            ++ lines.drop (min (((k : Int) + offset) % (2 ^ 64 : Int)).toNat lines.length))
          (offset + ((rustLines nd).length : Int)) := by
  rw [show textApplyGo
        ({ address := 'L' :: natDecimal k, opType := "insert",
           oldData := none, newData := some nd, contextHash := ctx } :: rest)
        lines offset
      = (match parseLineAddr ('L' :: natDecimal k) with
         | .error e => .error e
         | .ok lineNum =>
           textApplyGo rest
             (lines.take (min (((lineNum : Int) + offset) % (2 ^ 64 : Int)).toNat lines.length)
               ++ rustLines nd
               ++ lines.drop (min (((lineNum : Int) + offset) % (2 ^ 64 : Int)).toNat
                 lines.length))
             (offset + ((rustLines nd).length : Int))) from rfl]
  rw [parseLineAddr_natDecimal]

theorem textApplyGo_replace (rest : List TextOp) (lines : List (List Char)) (offset : Int)
    (k : Nat) (od nd : List Char) (ctx : Option Nat) :
    textApplyGo
        ({ address := 'L' :: natDecimal k, opType := "replace",
           oldData := some od, newData := some nd, contextHash := ctx } :: rest)
        lines offset
      = if lines.length < (((k : Int) + offset) % (2 ^ 64 : Int)).toNat
            + max (rustLines od).length 1 then
          .error (.applyFailed "replace delete out of bounds")
        else
          textApplyGo rest
            ((lines.take (((k : Int) + offset) % (2 ^ 64 : Int)).toNat
                ++ lines.drop ((((k : Int) + offset) % (2 ^ 64 : Int)).toNat
                  + max (rustLines od).length 1)).take
              (min (((k : Int) + offset) % (2 ^ 64 : Int)).toNat
                (lines.take (((k : Int) + offset) % (2 ^ 64 : Int)).toNat
                  ++ lines.drop ((((k : Int) + offset) % (2 ^ 64 : Int)).toNat
                    + max (rustLines od).length 1)).length)
              ++ rustLines nd
              ++ (lines.take (((k : Int) + offset) % (2 ^ 64 : Int)).toNat
                ++ lines.drop ((((k : Int) + offset) % (2 ^ 64 : Int)).toNat
                  + max (rustLines od).length 1)).drop
                (min (((k : Int) + offset) % (2 ^ 64 : Int)).toNat
                  (lines.take (((k : Int) + offset) % (2 ^ 64 : Int)).toNat
                    ++ lines.drop ((((k : Int) + offset) % (2 ^ 64 : Int)).toNat
                      + max (rustLines od).length 1)).length))
            (offset + ((rustLines nd).length : Int) - ((max (rustLines od).length 1 : Nat) : Int)) := by
  rw [show textApplyGo
        ({ address := 'L' :: natDecimal k, opType := "replace",
           oldData := some od, newData := some nd, contextHash := ctx } :: rest)
        lines offset
      = (match parseLineAddr ('L' :: natDecimal k) with
         | .error e => .error e
         | .ok lineNum =>
           if lines.length < (((lineNum : Int) + offset) % (2 ^ 64 : Int)).toNat
               + max (rustLines od).length 1 then
             Except.error (.applyFailed "replace delete out of bounds")
           else
             textApplyGo rest
               ((lines.take (((lineNum : Int) + offset) % (2 ^ 64 : Int)).toNat
                   ++ lines.drop ((((lineNum : Int) + offset) % (2 ^ 64 : Int)).toNat
                     + max (rustLines od).length 1)).take
                 (min (((lineNum : Int) + offset) % (2 ^ 64 : Int)).toNat
                   (lines.take (((lineNum : Int) + offset) % (2 ^ 64 : Int)).toNat
                     ++ lines.drop ((((lineNum : Int) + offset) % (2 ^ 64 : Int)).toNat
                       + max (rustLines od).length 1)).length)
                 ++ rustLines nd
                 ++ (lines.take (((lineNum : Int) + offset) % (2 ^ 64 : Int)).toNat
                   ++ lines.drop ((((lineNum : Int) + offset) % (2 ^ 64 : Int)).toNat
                     + max (rustLines od).length 1)).drop
                   (min (((lineNum : Int) + offset) % (2 ^ 64 : Int)).toNat
                     (lines.take (((lineNum : Int) + offset) % (2 ^ 64 : Int)).toNat
                       ++ lines.drop ((((lineNum : Int) + offset) % (2 ^ 64 : Int)).toNat
                         + max (rustLines od).length 1)).length))
               (offset + ((rustLines nd).length : Int)
                 - ((max (rustLines od).length 1 : Nat) : Int))) from rfl]
  rw [parseLineAddr_natDecimal]

/-- The core correctness of applying the ops emitted by `TextLineCodec::diff`
over conforming `similar` sections: starting from any tiling point `(i, j)`
with the line buffer holding the already-rebuilt new prefix and the untouched
old suffix, the op loop rebuilds exactly the new line list. -/
theorem textApplyGo_textDiffGo (dh : List (List Char) → Nat)
    (oldS newS oldLines : List (List Char))
    (hwfO : chunksWF oldS = true) (hwfN : chunksWF newS = true)
    (hcrO : noCR oldS.flatten = true) (hcrN : noCR newS.flatten = true)
    (hszN : newS.length < 2 ^ 63) :
    ∀ (secs : List DSec) (i j : Nat),
      conformsFrom oldS newS i j secs = true →
      textApplyGo (textDiffGo dh oldS newS oldLines i secs)
          ((newS.map stripNL).take j ++ (oldS.map stripNL).drop i)
          ((j : Int) - (i : Int))
        = .ok (newS.map stripNL) := by
  intro secs
  induction secs with
  | nil =>
    intro i j h
    simp only [conformsFrom, Bool.and_eq_true, beq_iff_eq] at h
    obtain ⟨hi, hj⟩ := h
    subst hi
    subst hj
    rw [show textDiffGo dh oldS newS oldLines oldS.length [] = [] from rfl]
    rw [show (newS.map stripNL).take newS.length = newS.map stripNL from by
      rw [show newS.length = (newS.map stripNL).length from (List.length_map _ _).symm,
        List.take_length]]
    rw [show (oldS.map stripNL).drop oldS.length = [] from by
      rw [show oldS.length = (oldS.map stripNL).length from (List.length_map _ _).symm,
        List.drop_length]]
    rw [List.append_nil]
    rfl
  | cons s rest ih =>
    intro i j h
    simp only [conformsFrom, Bool.and_eq_true] at h
    obtain ⟨hsec, hrest⟩ := h
    have hRle := conformsFrom_le oldS newS rest s.oldHi s.newHi hrest
    simp only [secOk, Bool.and_eq_true, beq_iff_eq] at hsec
    obtain ⟨⟨hol, hnlo⟩, htag⟩ := hsec
    cases hts : s.tag with
    | equalT =>
      rw [hts] at htag
      simp only [Bool.and_eq_true, beq_iff_eq, decide_eq_true_eq] at htag
      obtain ⟨⟨⟨hio, hjn⟩, hdiff⟩, hslice⟩ := htag
      rw [textDiffGo_equal dh oldS newS oldLines i s rest hts]
      have hjN : j ≤ newS.length := by omega
      have hlines : (newS.map stripNL).take j ++ (oldS.map stripNL).drop i
          = (newS.map stripNL).take s.newHi ++ (oldS.map stripNL).drop s.oldHi := by
        have h3 : ((oldS.map stripNL).drop i).take (s.oldHi - i)
            = ((newS.map stripNL).drop j).take (s.newHi - j) := by
          rw [← List.map_drop, ← List.map_take, ← List.map_drop, ← List.map_take]
          rw [show (oldS.drop i).take (s.oldHi - i) = tokSlice oldS i s.oldHi from rfl]
          rw [show (newS.drop j).take (s.newHi - j) = tokSlice newS j s.newHi from rfl]
          rw [hslice]
        have h1 : (newS.map stripNL).take s.newHi
            = (newS.map stripNL).take j
              ++ ((newS.map stripNL).drop j).take (s.newHi - j) := by
          rw [← List.take_add]
          congr 1
          omega
        have h2 : (oldS.map stripNL).drop i
            = ((oldS.map stripNL).drop i).take (s.oldHi - i)
              ++ (oldS.map stripNL).drop s.oldHi := by
          rw [show (oldS.map stripNL).drop s.oldHi
              = ((oldS.map stripNL).drop i).drop (s.oldHi - i) from by
            rw [List.drop_drop]
            congr 1
            omega]
          exact (List.take_append_drop _ _).symm
        rw [h1, h2, h3, List.append_assoc]
      have hoff : (j : Int) - (i : Int) = (s.newHi : Int) - (s.oldHi : Int) := by omega
      rw [hlines, hoff]
      exact ih s.oldHi s.newHi hrest
    | deleteT =>
      rw [hts] at htag
      simp only [Bool.and_eq_true, beq_iff_eq, decide_eq_true_eq] at htag
      obtain ⟨hio, hjh⟩ := htag
      have hON : s.oldHi ≤ oldS.length := hRle.1
      have hjN : j ≤ newS.length := by omega
      rw [textDiffGo_delete dh oldS newS oldLines i s rest hts, hol]
      rw [textApplyGo_delete]
      have hrl : rustLines ((tokSlice oldS i s.oldHi).flatten)
          = (tokSlice oldS i s.oldHi).map stripNL := by
        apply rustLines_flatten
        · exact chunksWF_slice oldS hwfO i _
        · refine noCR_flatten_subset _ oldS ?_ hcrO
          intro q hq
          exact List.mem_of_mem_drop (List.mem_of_mem_take hq)
      have hslen : (tokSlice oldS i s.oldHi).length = s.oldHi - i := by
        simp only [tokSlice, List.length_take, List.length_drop]
        omega
      have hcount : max (rustLines ((tokSlice oldS i s.oldHi).flatten)).length 1
          = s.oldHi - i := by
        rw [hrl, List.length_map, hslen]
        omega
      have hadj : ((i : Int) + ((j : Int) - (i : Int))) % (2 ^ 64 : Int) = (j : Int) := by
        rw [show (i : Int) + ((j : Int) - (i : Int)) = (j : Int) from by ring]
        apply Int.emod_eq_of_lt (Int.natCast_nonneg j)
        have hj64 : (j : Int) < 2 ^ 63 := by exact_mod_cast lt_of_le_of_lt hjN hszN
        omega
      rw [hcount, hadj, Int.toNat_natCast]
      have hlinlen : ((newS.map stripNL).take j ++ (oldS.map stripNL).drop i).length
          = j + (oldS.length - i) := by
        simp only [List.length_append, List.length_take, List.length_drop, List.length_map]
        omega
      rw [hlinlen]
      rw [if_neg (by omega)]
      rw [take_prefix_append _ _ j (by rw [List.length_map]; exact hjN)]
      rw [drop_prefix_append _ _ j (s.oldHi - i) (by rw [List.length_map]; exact hjN)]
      rw [List.drop_drop]
      rw [show i + (s.oldHi - i) = s.oldHi from by omega]
      rw [show (j : Int) - (i : Int) - ((s.oldHi - i : Nat) : Int)
          = (j : Int) - (s.oldHi : Int) from by omega]
      refine ih s.oldHi j ?_
      rw [← hjh]
      exact hrest
    | insertT =>
      rw [hts] at htag
      simp only [Bool.and_eq_true, beq_iff_eq, decide_eq_true_eq] at htag
      obtain ⟨hhi, hjn⟩ := htag
      have hiO : i ≤ oldS.length := by omega
      have hNN : s.newHi ≤ newS.length := hRle.2
      have hjN : j ≤ newS.length := by omega
      rw [textDiffGo_insert dh oldS newS oldLines i s rest hts, hnlo]
      rw [textApplyGo_insert]
      have hrl : rustLines ((tokSlice newS j s.newHi).flatten)
          = (tokSlice newS j s.newHi).map stripNL := by
        apply rustLines_flatten
        · exact chunksWF_slice newS hwfN j _
        · refine noCR_flatten_subset _ newS ?_ hcrN
          intro q hq
          exact List.mem_of_mem_drop (List.mem_of_mem_take hq)
      have hslen : (tokSlice newS j s.newHi).length = s.newHi - j := by
        simp only [tokSlice, List.length_take, List.length_drop]
        omega
      have hadj : ((i : Int) + ((j : Int) - (i : Int))) % (2 ^ 64 : Int) = (j : Int) := by
        rw [show (i : Int) + ((j : Int) - (i : Int)) = (j : Int) from by ring]
        apply Int.emod_eq_of_lt (Int.natCast_nonneg j)
        have hj64 : (j : Int) < 2 ^ 63 := by exact_mod_cast lt_of_le_of_lt hjN hszN
        omega
      rw [hadj, Int.toNat_natCast]
      have hlinlen : ((newS.map stripNL).take j ++ (oldS.map stripNL).drop i).length
          = j + (oldS.length - i) := by
        simp only [List.length_append, List.length_take, List.length_drop, List.length_map]
        omega
      rw [hlinlen]
      rw [show min j (j + (oldS.length - i)) = j from by omega]
      rw [take_prefix_append _ _ j (by rw [List.length_map]; exact hjN)]
      rw [drop_prefix_append_self _ _ j (by rw [List.length_map]; exact hjN)]
      have hjoin : (newS.map stripNL).take j ++ rustLines ((tokSlice newS j s.newHi).flatten)
          = (newS.map stripNL).take s.newHi := by
        rw [hrl]
        rw [show (tokSlice newS j s.newHi).map stripNL
            = ((newS.map stripNL).drop j).take (s.newHi - j) from by
          rw [show tokSlice newS j s.newHi = (newS.drop j).take (s.newHi - j) from rfl]
          rw [List.map_take, List.map_drop]]
        rw [← List.take_add]
        congr 1
        omega
      rw [hjoin]
      have hndlen : (rustLines ((tokSlice newS j s.newHi).flatten)).length = s.newHi - j := by
        rw [hrl, List.length_map, hslen]
      rw [hndlen]
      rw [show (j : Int) - (i : Int) + ((s.newHi - j : Nat) : Int)
          = (s.newHi : Int) - (i : Int) from by omega]
      refine ih i s.newHi ?_
      rw [← hhi]
      exact hrest
    | replaceT =>
      rw [hts] at htag
      simp only [Bool.and_eq_true, beq_iff_eq, decide_eq_true_eq] at htag
      obtain ⟨hio, hjn⟩ := htag
      have hON : s.oldHi ≤ oldS.length := hRle.1
      have hNN : s.newHi ≤ newS.length := hRle.2
      have hjN : j ≤ newS.length := by omega
      rw [textDiffGo_replace dh oldS newS oldLines i s rest hts, hol, hnlo]
      rw [textApplyGo_replace]
      have hrlO : rustLines ((tokSlice oldS i s.oldHi).flatten)
          = (tokSlice oldS i s.oldHi).map stripNL := by
        apply rustLines_flatten
        · exact chunksWF_slice oldS hwfO i _
        · refine noCR_flatten_subset _ oldS ?_ hcrO
          intro q hq
          exact List.mem_of_mem_drop (List.mem_of_mem_take hq)
      have hrlN : rustLines ((tokSlice newS j s.newHi).flatten)
          = (tokSlice newS j s.newHi).map stripNL := by
        apply rustLines_flatten
        · exact chunksWF_slice newS hwfN j _
        · refine noCR_flatten_subset _ newS ?_ hcrN
          intro q hq
          exact List.mem_of_mem_drop (List.mem_of_mem_take hq)
      have hslenO : (tokSlice oldS i s.oldHi).length = s.oldHi - i := by
        simp only [tokSlice, List.length_take, List.length_drop]
        omega
      have hslenN : (tokSlice newS j s.newHi).length = s.newHi - j := by
        simp only [tokSlice, List.length_take, List.length_drop]
        omega
      have hcount : max (rustLines ((tokSlice oldS i s.oldHi).flatten)).length 1
          = s.oldHi - i := by
        rw [hrlO, List.length_map, hslenO]
        omega
      have hadj : ((i : Int) + ((j : Int) - (i : Int))) % (2 ^ 64 : Int) = (j : Int) := by
        rw [show (i : Int) + ((j : Int) - (i : Int)) = (j : Int) from by ring]
        apply Int.emod_eq_of_lt (Int.natCast_nonneg j)
        have hj64 : (j : Int) < 2 ^ 63 := by exact_mod_cast lt_of_le_of_lt hjN hszN
        omega
      rw [hcount, hadj, Int.toNat_natCast]
      have hlinlen : ((newS.map stripNL).take j ++ (oldS.map stripNL).drop i).length
          = j + (oldS.length - i) := by
        simp only [List.length_append, List.length_take, List.length_drop, List.length_map]
        omega
      rw [hlinlen]
      rw [if_neg (by omega)]
      rw [take_prefix_append _ _ j (by rw [List.length_map]; exact hjN)]
      rw [drop_prefix_append _ _ j (s.oldHi - i) (by rw [List.length_map]; exact hjN)]
      rw [List.drop_drop]
      rw [show i + (s.oldHi - i) = s.oldHi from by omega]
      have hlin2len : ((newS.map stripNL).take j ++ (oldS.map stripNL).drop s.oldHi).length
          = j + (oldS.length - s.oldHi) := by
        simp only [List.length_append, List.length_take, List.length_drop, List.length_map]
        omega
      rw [hlin2len]
      rw [show min j (j + (oldS.length - s.oldHi)) = j from by omega]
      rw [take_prefix_append _ _ j (by rw [List.length_map]; exact hjN)]
      rw [drop_prefix_append_self _ _ j (by rw [List.length_map]; exact hjN)]
      have hjoin : (newS.map stripNL).take j ++ rustLines ((tokSlice newS j s.newHi).flatten)
          = (newS.map stripNL).take s.newHi := by
        rw [hrlN]
        rw [show (tokSlice newS j s.newHi).map stripNL
            = ((newS.map stripNL).drop j).take (s.newHi - j) from by
          rw [show tokSlice newS j s.newHi = (newS.drop j).take (s.newHi - j) from rfl]
          rw [List.map_take, List.map_drop]]
        rw [← List.take_add]
        congr 1
        omega
      rw [hjoin]
      have hndlen : (rustLines ((tokSlice newS j s.newHi).flatten)).length = s.newHi - j := by
        rw [hrlN, List.length_map, hslenN]
      rw [hndlen]
      rw [show (j : Int) - (i : Int) + ((s.newHi - j : Nat) : Int) - ((s.oldHi - i : Nat) : Int)
          = (s.newHi : Int) - (s.oldHi : Int) from by omega]
      exact ih s.oldHi s.newHi hrest

/-- Round trip of the text/line codec under its amended conditions: CR-free
inputs, conforming diff sections, and compatible trailing-newline shape. -/
theorem textApply_textDiff (dh : List (List Char) → Nat) (old new : List Char)
    (secs : List DSec)
    (hcrO : noCR old = true) (hcrN : noCR new = true)
    (hconf : diffConforms old new secs = true)
    (hsz : new.length < 2 ^ 63)
    (hnl : new = [] ∨ (new ≠ ['\n'] ∧ endsNL new = (endsNL old || old.isEmpty))) :
    textApply old (textDiff dh old new secs) = .ok new := by
  have hcrOF : noCR (linesKeepEnds old).flatten = true := by
    rw [keepEnds_join_self]
    exact hcrO
  have hcrNF : noCR (linesKeepEnds new).flatten = true := by
    rw [keepEnds_join_self]
    exact hcrN
  have hszN : (linesKeepEnds new).length < 2 ^ 63 :=
    lt_of_le_of_lt (keepEnds_length_le new) hsz
  have hmain := textApplyGo_textDiffGo dh (linesKeepEnds old) (linesKeepEnds new)
    (rustLines old) (chunksWF_keepEnds old) (chunksWF_keepEnds new)
    hcrOF hcrNF hszN secs 0 0 hconf
  rw [List.take_zero, List.drop_zero, List.nil_append] at hmain
  rw [show ((0 : Nat) : Int) - ((0 : Nat) : Int) = (0 : Int) from by simp] at hmain
  rw [← rustLines_keepEnds old hcrO] at hmain
  rw [← rustLines_keepEnds new hcrN] at hmain
  unfold textApply
  rw [show textDiff dh old new secs
      = textDiffGo dh (linesKeepEnds old) (linesKeepEnds new) (rustLines old) 0 secs from rfl]
  rw [hmain]
  rw [show (match (Except.ok (rustLines new) : Except PatchErr (List (List Char))) with
      | Except.error e => (Except.error e : Except PatchErr (List Char))
      | Except.ok lns =>
        if (endsNL old || old.isEmpty) && !(joinNL lns).isEmpty then .ok (joinNL lns ++ ['\n'])
        else .ok (joinNL lns))
    = (if (endsNL old || old.isEmpty) && !(joinNL (rustLines new)).isEmpty
        then (.ok (joinNL (rustLines new) ++ ['\n']) : Except PatchErr (List Char))
        else .ok (joinNL (rustLines new))) from rfl]
  rw [joinNL_rustLines new hcrN]
  rcases hnl with hnew | ⟨hne1, hiff⟩
  · subst hnew
    rw [show stripNL ([] : List Char) = [] from by simp [stripNL]]
    simp
  · by_cases hend : endsNL new = true
    · have hcond : (endsNL old || old.isEmpty) = true := by
        rw [← hiff]
        exact hend
      have hdrop : stripNL new = new.dropLast := by
        unfold stripNL
        unfold endsNL at hend
        simp only [decide_eq_true_eq] at hend
        rw [if_pos hend]
      have hne2 : ¬(new.dropLast = []) := by
        intro hx
        cases new with
        | nil => simp [endsNL] at hend
        | cons c rest =>
          cases rest with
          | nil =>
            have hc : c = '\n' := by
              unfold endsNL at hend
              rw [List.getLast?_singleton] at hend
              simpa using hend
            exact hne1 (by rw [hc])
          | cons d t => simp [List.dropLast] at hx
      have hie : new.dropLast.isEmpty = false := by
        cases hdl : new.dropLast with
        | nil => exact absurd hdl hne2
        | cons a l => rfl
      rw [hdrop, hcond, hie]
      rw [show (true && !false) = true from rfl, if_pos rfl]
      rw [endsNL_getLast new hend]
    · have hendf : endsNL new = false := by
        revert hend
        cases endsNL new <;> simp
      have hcond : (endsNL old || old.isEmpty) = false := by
        rw [← hiff]
        exact hendf
      have hid : stripNL new = new := by
        unfold stripNL
        rw [if_neg ?hx]
        case hx =>
          intro hx
          unfold endsNL at hendf
          rw [hx] at hendf
          simp at hendf
      rw [hid, hcond]
      simp


/-- `BinaryCodec::diff` (binary.rs): identical inputs produce no ops,
otherwise a single whole-content replace op at address `B0`. -/
def binDiff (old new : List Nat) : List PatchOpB :=
  if old = new then []
  else [{ address := "B0", opType := "replace", oldData := some old,
          newData := some new, contextHash := none }]

/-- The reverse scan of `BinaryCodec::apply` (binary.rs): return the
`new_data` of the last op carrying one. -/
def binApplyRev : List PatchOpB → Except PatchErr (List Nat)
  | [] => .error (.applyFailed "no replace op found")
  | op :: rest =>
    match op.newData with
    | some nd => .ok nd
    | none => binApplyRev rest

/-- `BinaryCodec::apply` (binary.rs): an empty op list returns the base
unchanged; otherwise the ops are scanned in reverse for a `new_data`. -/
def binApply (base : List Nat) (ops : List PatchOpB) : Except PatchErr (List Nat) :=
  match ops with
  | [] => .ok base
  | _ => binApplyRev ops.reverse

theorem binApply_binDiff (old new : List Nat) : binApply old (binDiff old new) = .ok new := by
  by_cases h : old = new
  · subst h
    rw [show binDiff old old = [] from by rw [binDiff, if_pos rfl]]
    rfl
  · rw [show binDiff old new
        = [{ address := "B0", opType := "replace", oldData := some old,
             newData := some new, contextHash := none }] from by rw [binDiff, if_neg h]]
    rfl

/-- **C4** (amended): the binary codec satisfies `apply(b, diff(b, b')) = b'`
for all byte strings, and the text/line codec satisfies it for all CR-free
UTF-8 inputs whose diff sections conform to the `similar` contract, provided
the new text is empty or is not the single newline and agrees with the base
about the trailing-newline shape (`apply` re-adds a final newline exactly
when the base ended with one or was empty).  As stated — for every accepted
input of every registered codec — the claim is false: the json/tree codec
pretty-prints its output (see the counterexample), and the text/line codec
fails on CR or trailing-newline mismatches. -/
theorem C4_codec_roundtrip :
    (∀ old new : List Nat, binApply old (binDiff old new) = .ok new)
    ∧ (∀ (dh : List (List Char) → Nat) (old new : List Char) (secs : List DSec),
        noCR old = true → noCR new = true →
        diffConforms old new secs = true →
        new.length < 2 ^ 63 →
        (new = [] ∨ (new ≠ ['\n'] ∧ endsNL new = (endsNL old || old.isEmpty))) →
        textApply old (textDiff dh old new secs) = .ok new) :=
  ⟨binApply_binDiff, textApply_textDiff⟩

/-- Closed witness for C4: a concrete binary round trip, and a concrete
text/line round trip inserting a line into `"a\nb\n"`. -/
theorem C4_codec_roundtrip_witness :
    binApply [0, 1] (binDiff [0, 1] [2, 3]) = .ok [2, 3]
    ∧ textApply ['a', '\n', 'b', '\n']
        (textDiff (fun _ => 0) ['a', '\n', 'b', '\n'] ['a', '\n', 'x', '\n', 'b', '\n']
          [⟨.equalT, 0, 1, 0, 1⟩, ⟨.insertT, 1, 1, 1, 2⟩, ⟨.equalT, 1, 2, 2, 3⟩])
      = .ok ['a', '\n', 'x', '\n', 'b', '\n'] :=
  ⟨C4_codec_roundtrip.1 [0, 1] [2, 3],
   C4_codec_roundtrip.2 (fun _ => 0) ['a', '\n', 'b', '\n'] ['a', '\n', 'x', '\n', 'b', '\n']
     [⟨.equalT, 0, 1, 0, 1⟩, ⟨.insertT, 1, 1, 1, 2⟩, ⟨.equalT, 1, 2, 2, 3⟩]
     (by decide) (by decide) (by decide) (by decide) (by decide)⟩

/-- `op_line_count` (text_line.rs): line count of the relevant payload,
clamped below by 1; 0 for unknown op types. -/
def opLineCount (op : TextOp) : Nat :=
  if op.opType = "delete" ∨ op.opType = "replace" then
    match op.oldData with
    | some d => max (rustLines d).length 1
    | none => 1
  else if op.opType = "insert" then
    match op.newData with
    | some d => max (rustLines d).length 1
    | none => 1
  else 0

/-- The inner loop of `TextLineCodec::commute` over the left ops: walk `left`,
detecting overlap with the (offset-adjusted) right op and accumulating the
offset adjustment.  Returns `none` when the ops overlap (`can_commute =
false`). -/
def commuteRAdjust (rOp : TextOp) (rCount : Nat) :
    List TextOp → Int → Except PatchErr (Option Int)
  | [], rAdjusted => .ok (some rAdjusted)
  | lOp :: rest, rAdjusted =>
    match parseLineAddr lOp.address with
    | .error e => .error e
    | .ok lLine =>
      let lCount := opLineCount lOp
      let lStart : Int := (lLine : Int)
      let lEnd : Int :=
        if lOp.opType = "delete" ∨ lOp.opType = "replace" then (lLine : Int) + (lCount : Int)
        else (lLine : Int)
      let rStart : Int := rAdjusted
      let rEnd : Int :=
        if rOp.opType = "delete" ∨ rOp.opType = "replace" then rAdjusted + (rCount : Int)
        else rAdjusted
      if rStart < lEnd ∧ rEnd > lStart then .ok none
      else
        commuteRAdjust rOp rCount rest
          (if lEnd ≤ rStart then
            if lOp.opType = "delete" then rAdjusted - (lCount : Int)
            else if lOp.opType = "insert" then rAdjusted + (lCount : Int)
            else rAdjusted
          else rAdjusted)

/-- The first loop of `TextLineCodec::commute`: rebase every right op over the
left ops. -/
def commuteRightLoop (left : List TextOp) : List TextOp → Except PatchErr (List TextOp)
  | [] => .ok []
  | rOp :: rest =>
    match parseLineAddr rOp.address with
    | .error e => .error e
    | .ok rLine =>
      match commuteRAdjust rOp (opLineCount rOp) left ((rLine : Nat) : Int) with
      | .error e => .error e
      | .ok none => .error .commuteFailed
      | .ok (some rAdj) =>
        match commuteRightLoop left rest with
        | .error e => .error e
        | .ok tail => .ok ({ rOp with address := 'L' :: intDecimal rAdj } :: tail)

/-- The offset accumulation of the second `commute` loop: adjust one left op
over the rebased right ops.  `(l_adjusted as usize) > r_line` is the Rust
`i64`-to-`usize` cast, modelled with `(· % 2^64).toNat`. -/
def commuteLAdjust : List TextOp → Int → Except PatchErr Int
  | [], lAdjusted => .ok lAdjusted
  | rOp :: rest, lAdjusted =>
    match parseLineAddr rOp.address with
    | .error e => .error e
    | .ok rLine =>
      commuteLAdjust rest
        (if rLine < (lAdjusted % (2 ^ 64 : Int)).toNat then
          if rOp.opType = "insert" then lAdjusted + (opLineCount rOp : Int)
          else if rOp.opType = "delete" then lAdjusted - (opLineCount rOp : Int)
          else lAdjusted
        else lAdjusted)

/-- The second loop of `TextLineCodec::commute`: adjust the left ops as if the
rebased right ops were applied first. -/
def commuteLeftLoop (newRight : List TextOp) : List TextOp → Except PatchErr (List TextOp)
  | [] => .ok []
  | lOp :: rest =>
    match parseLineAddr lOp.address with
    | .error e => .error e
    | .ok lLine =>
      match commuteLAdjust newRight ((lLine : Nat) : Int) with
      | .error e => .error e
      | .ok lAdj =>
        match commuteLeftLoop newRight rest with
        | .error e => .error e
        | .ok tail => .ok ({ lOp with address := 'L' :: intDecimal (max lAdj 0) } :: tail)

/-- `TextLineCodec::commute` (text_line.rs). -/
def textCommute (left right : List TextOp) :
    Except PatchErr (List TextOp × List TextOp) :=
  match commuteRightLoop left right with
  | .error e => .error e
  | .ok newRight =>
    match commuteLeftLoop newRight left with
    | .error e => .error e
    | .ok newLeft => .ok (newRight, newLeft)

theorem intDecimal_natCast (n : Nat) : intDecimal ((n : Nat) : Int) = natDecimal n := by
  unfold intDecimal
  rw [if_neg (by omega), Int.toNat_natCast]

/-- Counterexample to C5 as stated: `b = "a\nb\n"`, `L = [delete L0 "a\n"]`,
`R = [insert L1 "y\n"]`.  `commute(L, R)` succeeds with `R' = [insert L0
"y\n"]` and `L' = L`, yet applying `L` then `R` yields `"b\ny\n"` while
applying `R'` then `L'` yields `"a\nb\n"`: the right op's address is shifted
by the left delete even though it addresses a position before the deleted
range in the intermediate text. -/
theorem C5_commute_counterexample :
    textCommute
        [{ address := ['L', '0'], opType := "delete", oldData := some ['a', '\n'],
           newData := none, contextHash := none }]
        [{ address := ['L', '1'], opType := "insert", oldData := none,
           newData := some ['y', '\n'], contextHash := none }]
      = .ok ([{ address := ['L', '0'], opType := "insert", oldData := none,
                newData := some ['y', '\n'], contextHash := none }],
             [{ address := ['L', '0'], opType := "delete", oldData := some ['a', '\n'],
                newData := none, contextHash := none }])
    ∧ (match textApply ['a', '\n', 'b', '\n']
          [{ address := ['L', '0'], opType := "delete", oldData := some ['a', '\n'],
             newData := none, contextHash := none }] with
       | .ok s1 => textApply s1
          [{ address := ['L', '1'], opType := "insert", oldData := none,
             newData := some ['y', '\n'], contextHash := none }]
       | .error e => .error e)
      = .ok ['b', '\n', 'y', '\n']
    ∧ (match textApply ['a', '\n', 'b', '\n']
          [{ address := ['L', '0'], opType := "insert", oldData := none,
             newData := some ['y', '\n'], contextHash := none }] with
       | .ok s1 => textApply s1
          [{ address := ['L', '0'], opType := "delete", oldData := some ['a', '\n'],
             newData := none, contextHash := none }]
       | .error e => .error e)
      = .ok ['a', '\n', 'b', '\n']
    ∧ (['b', '\n', 'y', '\n'] : List Char) ≠ ['a', '\n', 'b', '\n'] :=
  ⟨rfl, rfl, rfl, by decide⟩

theorem splitNL_nlfree : ∀ (s : List Char), ∀ p ∈ splitNL s, ∀ c ∈ p, c ≠ '\n' := by
  intro s
  induction s with
  | nil =>
    intro p hp c hc
    simp only [splitNL, List.mem_singleton] at hp
    subst hp
    simp at hc
  | cons a rest ih =>
    intro p hp c hc
    simp only [splitNL] at hp
    cases h : splitNL rest with
    | nil => exact absurd h (splitNL_ne_nil rest)
    | cons q qs =>
      rw [h] at hp
      rw [show (match q :: qs with
          | [] => [[]]
          | p :: ps => if a = '\n' then [] :: p :: ps else (a :: p) :: ps)
        = if a = '\n' then [] :: q :: qs else (a :: q) :: qs from rfl] at hp
      by_cases ha : a = '\n'
      · rw [if_pos ha] at hp
        rcases List.mem_cons.mp hp with h1 | h2
        · subst h1; simp at hc
        · exact ih p (by rw [h]; exact h2) c hc
      · rw [if_neg ha] at hp
        rcases List.mem_cons.mp hp with h1 | h2
        · subst h1
          rcases List.mem_cons.mp hc with h3 | h4
          · subst h3; exact ha
          · exact ih q (by rw [h]; exact List.mem_cons_self _ _) c h4
        · exact ih p (by rw [h]; exact List.mem_cons_of_mem _ h2) c hc

theorem splitNL_chars : ∀ (s : List Char), ∀ p ∈ splitNL s, ∀ c ∈ p, c ∈ s := by
  intro s
  induction s with
  | nil =>
    intro p hp c hc
    simp only [splitNL, List.mem_singleton] at hp
    subst hp
    simp at hc
  | cons a rest ih =>
    intro p hp c hc
    simp only [splitNL] at hp
    cases h : splitNL rest with
    | nil => exact absurd h (splitNL_ne_nil rest)
    | cons q qs =>
      rw [h] at hp
      rw [show (match q :: qs with
          | [] => [[]]
          | p :: ps => if a = '\n' then [] :: p :: ps else (a :: p) :: ps)
        = if a = '\n' then [] :: q :: qs else (a :: q) :: qs from rfl] at hp
      by_cases ha : a = '\n'
      · rw [if_pos ha] at hp
        rcases List.mem_cons.mp hp with h1 | h2
        · subst h1; simp at hc
        · exact List.mem_cons_of_mem _ (ih p (by rw [h]; exact h2) c hc)
      · rw [if_neg ha] at hp
        rcases List.mem_cons.mp hp with h1 | h2
        · subst h1
          rcases List.mem_cons.mp hc with h3 | h4
          · subst h3; exact List.mem_cons_self _ _
          · exact List.mem_cons_of_mem _
              (ih q (by rw [h]; exact List.mem_cons_self _ _) c h4)
        · exact List.mem_cons_of_mem _
            (ih p (by rw [h]; exact List.mem_cons_of_mem _ h2) c hc)

theorem stripCR_chars (p : List Char) : ∀ c ∈ stripCR p, c ∈ p := by
  intro c hc
  unfold stripCR at hc
  split at hc
  · exact List.dropLast_subset p hc
  · exact hc

theorem mapInit_mem (f : List Char → List Char) :
    ∀ (l : List (List Char)) (x : List Char), x ∈ mapInit f l →
      (∃ p ∈ l, x = f p) ∨ x ∈ l := by
  intro l
  induction l with
  | nil => intro x hx; simp [mapInit] at hx
  | cons a rest ih =>
    intro x hx
    cases rest with
    | nil =>
      simp only [mapInit, List.mem_singleton] at hx
      right
      simp [hx]
    | cons b t =>
      rw [show mapInit f (a :: b :: t) = f a :: mapInit f (b :: t) from rfl] at hx
      rcases List.mem_cons.mp hx with h1 | h2
      · exact Or.inl ⟨a, List.mem_cons_self _ _, h1⟩
      · rcases ih x h2 with ⟨p, hp, hxp⟩ | hmem
        · exact Or.inl ⟨p, List.mem_cons_of_mem _ hp, hxp⟩
        · exact Or.inr (List.mem_cons_of_mem _ hmem)

/-- Every character of a Rust line of `s` occurs in `s` and is not a
newline. -/
theorem rustLines_chars (s : List Char) :
    ∀ x ∈ rustLines s, ∀ c ∈ x, c ∈ s ∧ c ≠ '\n' := by
  intro x hx c hc
  by_cases hs : s = []
  · subst hs
    simp [rustLines] at hx
  · rw [rustLines_eq s hs] at hx
    have hfrom : ∃ p ∈ splitNL s, c ∈ p := by
      split at hx
      · rw [List.mem_map] at hx
        obtain ⟨p, hp, hxp⟩ := hx
        refine ⟨p, List.dropLast_subset _ hp, ?_⟩
        subst hxp
        exact stripCR_chars p c hc
      · rcases mapInit_mem stripCR (splitNL s) x hx with ⟨p, hp, hxp⟩ | hmem
        · refine ⟨p, hp, ?_⟩
          subst hxp
          exact stripCR_chars p c hc
        · exact ⟨x, hmem, hc⟩
    obtain ⟨p, hp, hcp⟩ := hfrom
    exact ⟨splitNL_chars s p hp c hcp, splitNL_nlfree s p hp c hcp⟩

theorem splitNL_append_nlfree (x : List Char) (hx : ∀ c ∈ x, c ≠ '\n') :
    ∀ (t : List Char) (p : List Char) (ps : List (List Char)),
      splitNL t = p :: ps → splitNL (x ++ t) = (x ++ p) :: ps := by
  induction x with
  | nil => intro t p ps h; simpa using h
  | cons a x2 ih =>
    intro t p ps h
    have ha : ¬(a = '\n') := fun hc => hx a (List.mem_cons_self _ _) hc
    have h2 := ih (fun c hc => hx c (List.mem_cons_of_mem _ hc)) t p ps h
    rw [List.cons_append]
    simp only [splitNL]
    rw [h2]
    simp [ha]

theorem splitNL_joinNL :
    ∀ (ls : List (List Char)), ls ≠ [] → (∀ x ∈ ls, ∀ c ∈ x, c ≠ '\n') →
      splitNL (joinNL ls ++ ['\n']) = ls ++ [[]] := by
  intro ls
  induction ls with
  | nil => intro h; exact absurd rfl h
  | cons x rest ih =>
    intro _ hnl
    cases rest with
    | nil =>
      show splitNL (x ++ ['\n']) = [x, []]
      have h0 : splitNL ['\n'] = [[], []] := by decide
      have := splitNL_append_nlfree x (hnl x (List.mem_cons_self _ _)) ['\n'] [] [[]] h0
      rw [this]
      simp
    | cons y t =>
      have hrec := ih (by simp) (fun z hz => hnl z (List.mem_cons_of_mem _ hz))
      show splitNL ((x ++ '\n' :: joinNL (y :: t)) ++ ['\n']) = (x :: y :: t) ++ [[]]
      rw [List.append_assoc, List.cons_append]
      have hsp : splitNL ('\n' :: (joinNL (y :: t) ++ ['\n']))
          = [] :: splitNL (joinNL (y :: t) ++ ['\n']) := by
        simp only [splitNL]
        cases h : splitNL (joinNL (y :: t) ++ ['\n']) with
        | nil => exact absurd h (splitNL_ne_nil _)
        | cons p ps => simp
      obtain ⟨p, ps, hpp⟩ : ∃ p ps, splitNL ('\n' :: (joinNL (y :: t) ++ ['\n']))
          = p :: ps := by
        cases h : splitNL ('\n' :: (joinNL (y :: t) ++ ['\n'])) with
        | nil => exact absurd h (splitNL_ne_nil _)
        | cons p ps => exact ⟨p, ps, rfl⟩
      rw [splitNL_append_nlfree x (hnl x (List.mem_cons_self _ _)) _ p ps hpp]
      rw [hsp, hrec] at hpp
      have hp : p = [] := (List.cons.injEq _ _ _ _ ▸ hpp).1.symm
      have hps : ps = (y :: t) ++ [[]] := (List.cons.injEq _ _ _ _ ▸ hpp).2.symm
      rw [hp, hps, List.append_nil]
      rfl

/-- Re-parsing the string produced by joining newline-free, CR-safe lines and
appending a final newline recovers exactly those lines. -/
theorem rustLines_joinNL (ls : List (List Char)) (hne : ls ≠ [])
    (hnl : ∀ x ∈ ls, ∀ c ∈ x, c ≠ '\n') (hcr : ∀ x ∈ ls, ∀ c ∈ x, c ≠ '\r') :
    rustLines (joinNL ls ++ ['\n']) = ls := by
  have hs : joinNL ls ++ ['\n'] ≠ [] := by
    intro hx
    rcases List.append_eq_nil.mp hx with ⟨_, h2⟩
    simp at h2
  rw [rustLines_eq _ hs, splitNL_joinNL ls hne hnl]
  rw [List.getLast?_concat]
  rw [if_pos rfl, List.dropLast_concat]
  exact map_self_of stripCR ls (fun x hx => stripCR_eq_self x (hcr x hx))

theorem joinNL_ne_nil_of_two (ls : List (List Char)) (h : 2 ≤ ls.length) :
    joinNL ls ≠ [] := by
  cases ls with
  | nil => simp at h
  | cons x rest =>
    cases rest with
    | nil => simp at h
    | cons y t =>
      show x ++ '\n' :: joinNL (y :: t) ≠ []
      intro hx
      rcases List.append_eq_nil.mp hx with ⟨_, h2⟩
      simp at h2

/-- The single replace op with canonical `L<n>` address used by the amended
C5 statement. -/
def replOp (p : Nat) (od nd : List Char) (ctx : Option Nat) : TextOp :=
  { address := 'L' :: natDecimal p, opType := "replace", oldData := some od,
    newData := some nd, contextHash := ctx }

theorem textApply_replOp (b od nd : List Char) (p : Nat) (ctx : Option Nat)
    (hend : endsNL b = true)
    (hbound : p + max (rustLines od).length 1 ≤ (rustLines b).length)
    (hsz : (rustLines b).length < 2 ^ 63)
    (htwo : 2 ≤ ((rustLines b).take p ++ rustLines nd
      ++ (rustLines b).drop (p + max (rustLines od).length 1)).length) :
    textApply b [replOp p od nd ctx]
      = .ok (joinNL ((rustLines b).take p ++ rustLines nd
          ++ (rustLines b).drop (p + max (rustLines od).length 1)) ++ ['\n']) := by
  have hpL : p ≤ (rustLines b).length := by omega
  have hp63 : (p : Int) < 2 ^ 63 := by exact_mod_cast lt_of_le_of_lt hpL hsz
  have hadj : (((p : Nat) : Int) + (0 : Int)) % (2 ^ 64 : Int) = ((p : Nat) : Int) := by
    rw [add_zero]
    apply Int.emod_eq_of_lt (Int.natCast_nonneg p)
    omega
  unfold textApply
  rw [show ([replOp p od nd ctx]) = (replOp p od nd ctx :: ([] : List TextOp)) from rfl]
  rw [show replOp p od nd ctx
      = { address := 'L' :: natDecimal p, opType := "replace", oldData := some od,
          newData := some nd, contextHash := ctx } from rfl]
  rw [textApplyGo_replace]
  rw [hadj, Int.toNat_natCast]
  rw [if_neg (by omega)]
  have hl2 : ((rustLines b).take p
        ++ (rustLines b).drop (p + max (rustLines od).length 1)).length
      = p + ((rustLines b).length - (p + max (rustLines od).length 1)) := by
    simp only [List.length_append, List.length_take, List.length_drop]
    omega
  rw [hl2]
  rw [show min p (p + ((rustLines b).length - (p + max (rustLines od).length 1))) = p
    from by omega]
  rw [take_prefix_append _ _ p hpL, drop_prefix_append_self _ _ p hpL]
  rw [show textApplyGo []
      ((rustLines b).take p ++ rustLines nd
        ++ (rustLines b).drop (p + max (rustLines od).length 1))
      ((0 : Int) + ((rustLines nd).length : Int)
        - ((max (rustLines od).length 1 : Nat) : Int))
    = Except.ok ((rustLines b).take p ++ rustLines nd
        ++ (rustLines b).drop (p + max (rustLines od).length 1)) from rfl]
  rw [show (match (Except.ok ((rustLines b).take p ++ rustLines nd
        ++ (rustLines b).drop (p + max (rustLines od).length 1))
        : Except PatchErr (List (List Char))) with
      | Except.error e => (Except.error e : Except PatchErr (List Char))
      | Except.ok lns =>
        if (endsNL b || b.isEmpty) && !(joinNL lns).isEmpty then .ok (joinNL lns ++ ['\n'])
        else .ok (joinNL lns))
    = (if (endsNL b || b.isEmpty)
          && !(joinNL ((rustLines b).take p ++ rustLines nd
            ++ (rustLines b).drop (p + max (rustLines od).length 1))).isEmpty
        then (.ok (joinNL ((rustLines b).take p ++ rustLines nd
            ++ (rustLines b).drop (p + max (rustLines od).length 1)) ++ ['\n'])
          : Except PatchErr (List Char))
        else .ok (joinNL ((rustLines b).take p ++ rustLines nd
            ++ (rustLines b).drop (p + max (rustLines od).length 1)))) from rfl]
  have hnn : (joinNL ((rustLines b).take p ++ rustLines nd
      ++ (rustLines b).drop (p + max (rustLines od).length 1))).isEmpty = false := by
    cases hj : joinNL ((rustLines b).take p ++ rustLines nd
        ++ (rustLines b).drop (p + max (rustLines od).length 1)) with
    | nil => exact absurd hj (joinNL_ne_nil_of_two _ htwo)
    | cons a l => rfl
  rw [hend, hnn]
  rfl

theorem opLineCount_replOp (p : Nat) (od nd : List Char) (ctx : Option Nat) :
    opLineCount (replOp p od nd ctx) = max (rustLines od).length 1 := by
  unfold opLineCount replOp
  rw [if_pos (Or.inr rfl)]

theorem commuteRAdjust_cons (rOp : TextOp) (rCount : Nat) (lOp : TextOp)
    (rest : List TextOp) (rAdjusted : Int) (k : Nat)
    (haddr : lOp.address = 'L' :: natDecimal k) :
    commuteRAdjust rOp rCount (lOp :: rest) rAdjusted
      = (if rAdjusted < (if lOp.opType = "delete" ∨ lOp.opType = "replace"
            then (k : Int) + (opLineCount lOp : Int) else (k : Int))
          ∧ (if rOp.opType = "delete" ∨ rOp.opType = "replace"
              then rAdjusted + (rCount : Int) else rAdjusted) > (k : Int)
        then .ok none
        else commuteRAdjust rOp rCount rest
          (if (if lOp.opType = "delete" ∨ lOp.opType = "replace"
              then (k : Int) + (opLineCount lOp : Int) else (k : Int)) ≤ rAdjusted then
            if lOp.opType = "delete" then rAdjusted - (opLineCount lOp : Int)
            else if lOp.opType = "insert" then rAdjusted + (opLineCount lOp : Int)
            else rAdjusted
          else rAdjusted)) := by
  rw [show commuteRAdjust rOp rCount (lOp :: rest) rAdjusted
      = (match parseLineAddr lOp.address with
         | .error e => .error e
         | .ok lLine =>
           if rAdjusted < (if lOp.opType = "delete" ∨ lOp.opType = "replace"
               then (lLine : Int) + (opLineCount lOp : Int) else (lLine : Int))
             ∧ (if rOp.opType = "delete" ∨ rOp.opType = "replace"
                 then rAdjusted + (rCount : Int) else rAdjusted) > (lLine : Int)
           then .ok none
           else commuteRAdjust rOp rCount rest
             (if (if lOp.opType = "delete" ∨ lOp.opType = "replace"
                 then (lLine : Int) + (opLineCount lOp : Int) else (lLine : Int))
                 ≤ rAdjusted then
               if lOp.opType = "delete" then rAdjusted - (opLineCount lOp : Int)
               else if lOp.opType = "insert" then rAdjusted + (opLineCount lOp : Int)
               else rAdjusted
             else rAdjusted)) from rfl]
  rw [haddr, parseLineAddr_natDecimal]

theorem commuteRightLoop_cons (left : List TextOp) (rOp : TextOp) (rest : List TextOp)
    (k : Nat) (haddr : rOp.address = 'L' :: natDecimal k) :
    commuteRightLoop left (rOp :: rest)
      = (match commuteRAdjust rOp (opLineCount rOp) left ((k : Nat) : Int) with
         | .error e => .error e
         | .ok none => .error .commuteFailed
         | .ok (some rAdj) =>
           match commuteRightLoop left rest with
           | .error e => .error e
           | .ok tail => .ok ({ rOp with address := 'L' :: intDecimal rAdj } :: tail)) := by
  rw [show commuteRightLoop left (rOp :: rest)
      = (match parseLineAddr rOp.address with
         | .error e => .error e
         | .ok rLine =>
           match commuteRAdjust rOp (opLineCount rOp) left ((rLine : Nat) : Int) with
           | .error e => .error e
           | .ok none => .error .commuteFailed
           | .ok (some rAdj) =>
             match commuteRightLoop left rest with
             | .error e => .error e
             | .ok tail => .ok ({ rOp with address := 'L' :: intDecimal rAdj } :: tail))
        from rfl]
  rw [haddr, parseLineAddr_natDecimal]

theorem commuteLAdjust_cons (rOp : TextOp) (rest : List TextOp) (lAdjusted : Int)
    (k : Nat) (haddr : rOp.address = 'L' :: natDecimal k) :
    commuteLAdjust (rOp :: rest) lAdjusted
      = commuteLAdjust rest
          (if k < (lAdjusted % (2 ^ 64 : Int)).toNat then
            if rOp.opType = "insert" then lAdjusted + (opLineCount rOp : Int)
            else if rOp.opType = "delete" then lAdjusted - (opLineCount rOp : Int)
            else lAdjusted
          else lAdjusted) := by
  rw [show commuteLAdjust (rOp :: rest) lAdjusted
      = (match parseLineAddr rOp.address with
         | .error e => .error e
         | .ok rLine =>
           commuteLAdjust rest
             (if rLine < (lAdjusted % (2 ^ 64 : Int)).toNat then
               if rOp.opType = "insert" then lAdjusted + (opLineCount rOp : Int)
               else if rOp.opType = "delete" then lAdjusted - (opLineCount rOp : Int)
               else lAdjusted
             else lAdjusted)) from rfl]
  rw [haddr, parseLineAddr_natDecimal]

theorem commuteLeftLoop_cons (newRight : List TextOp) (lOp : TextOp) (rest : List TextOp)
    (k : Nat) (haddr : lOp.address = 'L' :: natDecimal k) :
    commuteLeftLoop newRight (lOp :: rest)
      = (match commuteLAdjust newRight ((k : Nat) : Int) with
         | .error e => .error e
         | .ok lAdj =>
           match commuteLeftLoop newRight rest with
           | .error e => .error e
           | .ok tail => .ok ({ lOp with address := 'L' :: intDecimal (max lAdj 0) } :: tail)) := by
  rw [show commuteLeftLoop newRight (lOp :: rest)
      = (match parseLineAddr lOp.address with
         | .error e => .error e
         | .ok lLine =>
           match commuteLAdjust newRight ((lLine : Nat) : Int) with
           | .error e => .error e
           | .ok lAdj =>
             match commuteLeftLoop newRight rest with
             | .error e => .error e
             | .ok tail => .ok ({ lOp with address := 'L' :: intDecimal (max lAdj 0) } :: tail))
        from rfl]
  rw [haddr, parseLineAddr_natDecimal]

/-- **C5** (amended): for single count-preserving `replace` ops on disjoint
line ranges with the right op strictly before the left op, `commute` succeeds
and returns both ops unchanged, and applying `L` then `R` equals applying
`R' = R` then `L' = L` (both defined), on any CR-free base ending in a
newline.  The general claim is false: the offset adjustments in `commute`
shift ops incorrectly (see the counterexample). -/
theorem C5_commute_replace (b lo ln ro rn : List Char) (pl pr dl dr : Nat)
    (cl cr : Option Nat)
    (hcrb : noCR b = true) (hendb : endsNL b = true)
    (hcrln : noCR ln = true) (hcrrn : noCR rn = true)
    (hdl : (rustLines lo).length = dl) (hdln : (rustLines ln).length = dl)
    (hdr : (rustLines ro).length = dr) (hdrn : (rustLines rn).length = dr)
    (hdl1 : 1 ≤ dl) (hdr1 : 1 ≤ dr)
    (hord : pr + dr ≤ pl)
    (hbound : pl + dl ≤ (rustLines b).length)
    (hsz : (rustLines b).length < 2 ^ 63) :
    textCommute [replOp pl lo ln cl] [replOp pr ro rn cr]
      = .ok ([replOp pr ro rn cr], [replOp pl lo ln cl])
    ∧ ∃ out : List Char,
      (match textApply b [replOp pl lo ln cl] with
       | .ok s1 => textApply s1 [replOp pr ro rn cr]
       | .error e => .error e) = .ok out
      ∧ (match textApply b [replOp pr ro rn cr] with
         | .ok s1 => textApply s1 [replOp pl lo ln cl]
         | .error e => .error e) = .ok out := by
  have hmaxl : max (rustLines lo).length 1 = dl := by rw [hdl]; omega
  have hmaxr : max (rustLines ro).length 1 = dr := by rw [hdr]; omega
  have hplL : pl ≤ (rustLines b).length := by omega
  have hpl63 : (pl : Int) < 2 ^ 63 := by exact_mod_cast lt_of_le_of_lt hplL hsz
  constructor
  · -- the commute computation
    unfold textCommute
    have hadjr : commuteRAdjust (replOp pr ro rn cr) (opLineCount (replOp pr ro rn cr))
        [replOp pl lo ln cl] ((pr : Nat) : Int) = .ok (some ((pr : Nat) : Int)) := by
      rw [commuteRAdjust_cons (replOp pr ro rn cr) (opLineCount (replOp pr ro rn cr))
        (replOp pl lo ln cl) [] ((pr : Nat) : Int) pl rfl]
      rw [show (replOp pl lo ln cl).opType = "replace" from rfl]
      rw [show (replOp pr ro rn cr).opType = "replace" from rfl]
      rw [if_pos (Or.inr rfl), if_pos (Or.inr rfl)]
      rw [opLineCount_replOp, opLineCount_replOp, hmaxl, hmaxr]
      have hcast1 : ((pr : Nat) : Int) + ((dr : Nat) : Int) ≤ ((pl : Nat) : Int) := by
        exact_mod_cast hord
      have hcast2 : ((pr : Nat) : Int) < ((pl : Nat) : Int) + ((dl : Nat) : Int) := by
        have : pr < pl + dl := by omega
        exact_mod_cast this
      rw [if_neg (by
        intro hcon
        exact absurd hcon.2 (by omega))]
      rw [if_neg (by omega)]
      rfl
    have hright : commuteRightLoop [replOp pl lo ln cl] [replOp pr ro rn cr]
        = .ok [replOp pr ro rn cr] := by
      rw [commuteRightLoop_cons [replOp pl lo ln cl] (replOp pr ro rn cr) [] pr rfl]
      rw [hadjr]
      rfl
    rw [hright]
    have hladj : commuteLAdjust [replOp pr ro rn cr] ((pl : Nat) : Int)
        = .ok ((pl : Nat) : Int) := by
      rw [commuteLAdjust_cons (replOp pr ro rn cr) [] ((pl : Nat) : Int) pr rfl]
      rw [Int.emod_eq_of_lt (Int.natCast_nonneg pl) (by omega), Int.toNat_natCast]
      rw [if_pos (by omega)]
      rw [show (replOp pr ro rn cr).opType = "replace" from rfl]
      rw [if_neg (by decide), if_neg (by decide)]
      rfl
    have hleft : commuteLeftLoop [replOp pr ro rn cr] [replOp pl lo ln cl]
        = .ok [replOp pl lo ln cl] := by
      rw [commuteLeftLoop_cons [replOp pr ro rn cr] (replOp pl lo ln cl) [] pl rfl]
      rw [hladj]
      rw [show (match (Except.ok ((pl : Nat) : Int) : Except PatchErr Int) with
          | Except.error e => (Except.error e : Except PatchErr (List TextOp))
          | Except.ok lAdj =>
            match commuteLeftLoop [replOp pr ro rn cr] ([] : List TextOp) with
            | Except.error e => Except.error e
            | Except.ok tail =>
              Except.ok ({ replOp pl lo ln cl with
                address := 'L' :: intDecimal (max lAdj 0) } :: tail))
        = Except.ok [{ replOp pl lo ln cl with
            address := 'L' :: intDecimal (max ((pl : Nat) : Int) 0) }] from rfl]
      rw [show max ((pl : Nat) : Int) 0 = ((pl : Nat) : Int) from by omega]
      rw [intDecimal_natCast pl]
      rfl
    show (match commuteLeftLoop [replOp pr ro rn cr] [replOp pl lo ln cl] with
        | Except.error e => (Except.error e : Except PatchErr (List TextOp × List TextOp))
        | Except.ok newLeft => Except.ok ([replOp pr ro rn cr], newLeft))
      = Except.ok ([replOp pr ro rn cr], [replOp pl lo ln cl])
    rw [hleft]
  · -- the two application orders agree
    have hS1len : ((rustLines b).take pl ++ rustLines ln
        ++ (rustLines b).drop (pl + dl)).length = (rustLines b).length := by
      simp only [List.length_append, List.length_take, List.length_drop, hdln]
      omega
    have hS2len : ((rustLines b).take pr ++ rustLines rn
        ++ (rustLines b).drop (pr + dr)).length = (rustLines b).length := by
      simp only [List.length_append, List.length_take, List.length_drop, hdrn]
      omega
    have hLtwo : 2 ≤ (rustLines b).length := by omega
    have happ1 : textApply b [replOp pl lo ln cl]
        = .ok (joinNL ((rustLines b).take pl ++ rustLines ln
            ++ (rustLines b).drop (pl + dl)) ++ ['\n']) := by
      have h := textApply_replOp b lo ln pl cl hendb (by omega) hsz
        (by rw [hmaxl, hS1len]; omega)
      rw [hmaxl] at h
      exact h
    have happ2 : textApply b [replOp pr ro rn cr]
        = .ok (joinNL ((rustLines b).take pr ++ rustLines rn
            ++ (rustLines b).drop (pr + dr)) ++ ['\n']) := by
      have h := textApply_replOp b ro rn pr cr hendb (by omega) hsz
        (by rw [hmaxr, hS2len]; omega)
      rw [hmaxr] at h
      exact h
    have hblnl : ∀ x ∈ rustLines b, ∀ c ∈ x, c ≠ '\n' :=
      fun x hx c hc => (rustLines_chars b x hx c hc).2
    have hblcr : ∀ x ∈ rustLines b, ∀ c ∈ x, c ≠ '\r' :=
      fun x hx c hc => noCR_mem b hcrb c (rustLines_chars b x hx c hc).1
    have hlnnl : ∀ x ∈ rustLines ln, ∀ c ∈ x, c ≠ '\n' :=
      fun x hx c hc => (rustLines_chars ln x hx c hc).2
    have hlncr : ∀ x ∈ rustLines ln, ∀ c ∈ x, c ≠ '\r' :=
      fun x hx c hc => noCR_mem ln hcrln c (rustLines_chars ln x hx c hc).1
    have hrnnl : ∀ x ∈ rustLines rn, ∀ c ∈ x, c ≠ '\n' :=
      fun x hx c hc => (rustLines_chars rn x hx c hc).2
    have hrncr : ∀ x ∈ rustLines rn, ∀ c ∈ x, c ≠ '\r' :=
      fun x hx c hc => noCR_mem rn hcrrn c (rustLines_chars rn x hx c hc).1
    have hS1nl : ∀ x ∈ (rustLines b).take pl ++ rustLines ln
        ++ (rustLines b).drop (pl + dl), ∀ c ∈ x, c ≠ '\n' := by
      intro x hx
      rcases List.mem_append.mp hx with hx1 | hx3
      · rcases List.mem_append.mp hx1 with hx1a | hx1b
        · exact hblnl x (List.mem_of_mem_take hx1a)
        · exact hlnnl x hx1b
      · exact hblnl x (List.mem_of_mem_drop hx3)
    have hS1cr : ∀ x ∈ (rustLines b).take pl ++ rustLines ln
        ++ (rustLines b).drop (pl + dl), ∀ c ∈ x, c ≠ '\r' := by
      intro x hx
      rcases List.mem_append.mp hx with hx1 | hx3
      · rcases List.mem_append.mp hx1 with hx1a | hx1b
        · exact hblcr x (List.mem_of_mem_take hx1a)
        · exact hlncr x hx1b
      · exact hblcr x (List.mem_of_mem_drop hx3)
    have hS2nl : ∀ x ∈ (rustLines b).take pr ++ rustLines rn
        ++ (rustLines b).drop (pr + dr), ∀ c ∈ x, c ≠ '\n' := by
      intro x hx
      rcases List.mem_append.mp hx with hx1 | hx3
      · rcases List.mem_append.mp hx1 with hx1a | hx1b
        · exact hblnl x (List.mem_of_mem_take hx1a)
        · exact hrnnl x hx1b
      · exact hblnl x (List.mem_of_mem_drop hx3)
    have hS2cr : ∀ x ∈ (rustLines b).take pr ++ rustLines rn
        ++ (rustLines b).drop (pr + dr), ∀ c ∈ x, c ≠ '\r' := by
      intro x hx
      rcases List.mem_append.mp hx with hx1 | hx3
      · rcases List.mem_append.mp hx1 with hx1a | hx1b
        · exact hblcr x (List.mem_of_mem_take hx1a)
        · exact hrncr x hx1b
      · exact hblcr x (List.mem_of_mem_drop hx3)
    have hS1ne : (rustLines b).take pl ++ rustLines ln
        ++ (rustLines b).drop (pl + dl) ≠ [] := by
      intro hx
      have := congrArg List.length hx
      rw [hS1len, List.length_nil] at this
      omega
    have hS2ne : (rustLines b).take pr ++ rustLines rn
        ++ (rustLines b).drop (pr + dr) ≠ [] := by
      intro hx
      have := congrArg List.length hx
      rw [hS2len, List.length_nil] at this
      omega
    have hrp1 : rustLines (joinNL ((rustLines b).take pl ++ rustLines ln
          ++ (rustLines b).drop (pl + dl)) ++ ['\n'])
        = (rustLines b).take pl ++ rustLines ln ++ (rustLines b).drop (pl + dl) :=
      rustLines_joinNL _ hS1ne hS1nl hS1cr
    have hrp2 : rustLines (joinNL ((rustLines b).take pr ++ rustLines rn
          ++ (rustLines b).drop (pr + dr)) ++ ['\n'])
        = (rustLines b).take pr ++ rustLines rn ++ (rustLines b).drop (pr + dr) :=
      rustLines_joinNL _ hS2ne hS2nl hS2cr
    have hend1 : endsNL (joinNL ((rustLines b).take pl ++ rustLines ln
        ++ (rustLines b).drop (pl + dl)) ++ ['\n']) = true := by
      unfold endsNL
      rw [List.getLast?_concat]
      simp
    have hend2 : endsNL (joinNL ((rustLines b).take pr ++ rustLines rn
        ++ (rustLines b).drop (pr + dr)) ++ ['\n']) = true := by
      unfold endsNL
      rw [List.getLast?_concat]
      simp
    -- second hop on each side
    have hstep1 := textApply_replOp
      (joinNL ((rustLines b).take pl ++ rustLines ln
        ++ (rustLines b).drop (pl + dl)) ++ ['\n']) ro rn pr cr hend1
      (by rw [hrp1, hmaxr, hS1len]; omega)
      (by rw [hrp1, hS1len]; exact hsz)
      (by rw [hrp1, hmaxr]
          simp only [List.length_append, List.length_take, List.length_drop, hS1len, hdrn]
          omega)
    rw [hrp1, hmaxr] at hstep1
    have hstep2 := textApply_replOp
      (joinNL ((rustLines b).take pr ++ rustLines rn
        ++ (rustLines b).drop (pr + dr)) ++ ['\n']) lo ln pl cl hend2
      (by rw [hrp2, hmaxl, hS2len]; omega)
      (by rw [hrp2, hS2len]; exact hsz)
      (by rw [hrp2, hmaxl]
          simp only [List.length_append, List.length_take, List.length_drop, hS2len, hdln]
          omega)
    rw [hrp2, hmaxl] at hstep2
    -- the two spliced lists coincide
    have halg : ((rustLines b).take pl ++ rustLines ln
          ++ (rustLines b).drop (pl + dl)).take pr
        ++ rustLines rn
        ++ ((rustLines b).take pl ++ rustLines ln
          ++ (rustLines b).drop (pl + dl)).drop (pr + dr)
      = ((rustLines b).take pr ++ rustLines rn
          ++ (rustLines b).drop (pr + dr)).take pl
        ++ rustLines ln
        ++ ((rustLines b).take pr ++ rustLines rn
          ++ (rustLines b).drop (pr + dr)).drop (pl + dl) := by
      have hlen_takepl : ((rustLines b).take pl).length = pl := by
        rw [List.length_take]
        omega
      have hlen_takepr : ((rustLines b).take pr).length = pr := by
        rw [List.length_take]
        omega
      have h1 : ((rustLines b).take pl ++ rustLines ln
            ++ (rustLines b).drop (pl + dl)).take pr = (rustLines b).take pr := by
        rw [List.append_assoc, List.take_append_eq_append_take, hlen_takepl]
        rw [show pr - pl = 0 from by omega, List.take_zero, List.append_nil]
        rw [List.take_take]
        congr 1
        omega
      have h2 : ((rustLines b).take pl ++ rustLines ln
            ++ (rustLines b).drop (pl + dl)).drop (pr + dr)
          = ((rustLines b).drop (pr + dr)).take (pl - (pr + dr))
            ++ (rustLines ln ++ (rustLines b).drop (pl + dl)) := by
        rw [List.append_assoc, List.drop_append_eq_append_drop, hlen_takepl]
        rw [List.drop_take]
        rw [show pr + dr - pl = 0 from by omega, List.drop_zero]
      have h3 : ((rustLines b).take pr ++ rustLines rn
            ++ (rustLines b).drop (pr + dr)).take pl
          = (rustLines b).take pr ++ (rustLines rn
            ++ ((rustLines b).drop (pr + dr)).take (pl - (pr + dr))) := by
        rw [List.append_assoc, List.take_append_eq_append_take, hlen_takepr]
        rw [List.take_of_length_le (l := (rustLines b).take pr) (by omega)]
        rw [List.take_append_eq_append_take]
        rw [List.take_of_length_le (l := rustLines rn) (by rw [hdrn]; omega)]
        rw [hdrn]
        rw [show pl - pr - dr = pl - (pr + dr) from by omega]
      have h4 : ((rustLines b).take pr ++ rustLines rn
            ++ (rustLines b).drop (pr + dr)).drop (pl + dl)
          = (rustLines b).drop (pl + dl) := by
        rw [List.append_assoc, List.drop_append_eq_append_drop, hlen_takepr]
        have hd1 : ((rustLines b).take pr).length ≤ pl + dl := by
          rw [hlen_takepr]
          omega
        rw [List.drop_eq_nil_of_le hd1]
        rw [List.nil_append, List.drop_append_eq_append_drop]
        have hd2 : (rustLines rn).length ≤ pl + dl - pr := by
          rw [hdrn]
          omega
        rw [List.drop_eq_nil_of_le hd2]
        rw [List.nil_append, hdrn, List.drop_drop]
        congr 1
        omega
      rw [h1, h2, h3, h4]
      simp [List.append_assoc]
    refine ⟨joinNL (((rustLines b).take pr ++ rustLines rn
        ++ (rustLines b).drop (pr + dr)).take pl
      ++ rustLines ln
      ++ ((rustLines b).take pr ++ rustLines rn
        ++ (rustLines b).drop (pr + dr)).drop (pl + dl)) ++ ['\n'], ?_, ?_⟩
    · rw [happ1]
      rw [show (match (Except.ok (joinNL ((rustLines b).take pl ++ rustLines ln
            ++ (rustLines b).drop (pl + dl)) ++ ['\n']) : Except PatchErr (List Char)) with
          | .ok s1 => textApply s1 [replOp pr ro rn cr]
          | .error e => .error e)
        = textApply (joinNL ((rustLines b).take pl ++ rustLines ln
            ++ (rustLines b).drop (pl + dl)) ++ ['\n']) [replOp pr ro rn cr] from rfl]
      rw [hstep1, halg]
    · rw [happ2]
      rw [show (match (Except.ok (joinNL ((rustLines b).take pr ++ rustLines rn
            ++ (rustLines b).drop (pr + dr)) ++ ['\n']) : Except PatchErr (List Char)) with
          | .ok s1 => textApply s1 [replOp pl lo ln cl]
          | .error e => .error e)
        = textApply (joinNL ((rustLines b).take pr ++ rustLines rn
            ++ (rustLines b).drop (pr + dr)) ++ ['\n']) [replOp pl lo ln cl] from rfl]
      exact hstep2

/-- Closed witness for the amended C5: two disjoint single-line replaces on
`"a\nb\nc\n"`. -/
theorem C5_commute_replace_witness :
    textCommute [replOp 2 ['c', '\n'] ['z', '\n'] none] [replOp 0 ['a', '\n'] ['x', '\n'] none]
      = .ok ([replOp 0 ['a', '\n'] ['x', '\n'] none], [replOp 2 ['c', '\n'] ['z', '\n'] none])
    ∧ ∃ out : List Char,
      (match textApply ['a', '\n', 'b', '\n', 'c', '\n']
          [replOp 2 ['c', '\n'] ['z', '\n'] none] with
       | .ok s1 => textApply s1 [replOp 0 ['a', '\n'] ['x', '\n'] none]
       | .error e => .error e) = .ok out
      ∧ (match textApply ['a', '\n', 'b', '\n', 'c', '\n']
            [replOp 0 ['a', '\n'] ['x', '\n'] none] with
         | .ok s1 => textApply s1 [replOp 2 ['c', '\n'] ['z', '\n'] none]
         | .error e => .error e) = .ok out :=
  C5_commute_replace ['a', '\n', 'b', '\n', 'c', '\n'] ['c', '\n'] ['z', '\n']
    ['a', '\n'] ['x', '\n'] 2 0 1 1 none none (by decide) (by decide) (by decide)
    (by decide) (by decide) (by decide) (by decide) (by decide) (by decide) (by decide)
    (by decide) (by decide) (by decide)

mutual
/-- `serde_json::Value`, with object maps as key-sorted association lists
(the default `serde_json` map is a `BTreeMap`, ordered by byte-wise
lexicographic key order) and numbers restricted to the integers this
repository stores in JSON documents (floats are not modelled). -/
inductive Json where
  | nullJ : Json
  | boolJ (b : Bool) : Json
  | numJ (n : Int) : Json
  | strJ (s : List Nat) : Json
  | arrJ (xs : JArr) : Json
  | objJ (kvs : JObj) : Json
inductive JArr where
  | anil : JArr
  | acons (hd : Json) (tl : JArr) : JArr
inductive JObj where
  | onil : JObj
  | ocons (key : List Nat) (val : Json) (tl : JObj) : JObj
end

mutual
/-- Structural equality of `serde_json::Value`s (`==` on `Value`). -/
def jeq : Json → Json → Bool
  | .nullJ, .nullJ => true
  | .boolJ a, .boolJ b => a == b
  | .numJ a, .numJ b => a == b
  | .strJ a, .strJ b => a == b
  | .arrJ a, .arrJ b => jeqA a b
  | .objJ a, .objJ b => jeqO a b
  | _, _ => false
def jeqA : JArr → JArr → Bool
  | .anil, .anil => true
  | .acons h t, .acons h2 t2 => jeq h h2 && jeqA t t2
  | _, _ => false
def jeqO : JObj → JObj → Bool
  | .onil, .onil => true
  | .ocons k v t, .ocons k2 v2 t2 => k == k2 && jeq v v2 && jeqO t t2
  | _, _ => false
end

/-- Byte-wise lexicographic order on keys (`Ord` on Rust `String`). -/
def bytesLt : List Nat → List Nat → Bool
  | [], [] => false
  | [], _ :: _ => true
  | _ :: _, [] => false
  | a :: as, b :: bs => if a < b then true else if b < a then false else bytesLt as bs

/-- `BTreeMap::insert`: keep the association list key-sorted, replacing an
existing equal key. -/
def objInsert (k : List Nat) (v : Json) : JObj → JObj
  | .onil => .ocons k v .onil
  | .ocons k2 v2 t =>
    if bytesLt k k2 then .ocons k v (.ocons k2 v2 t)
    else if k == k2 then .ocons k v t
    else .ocons k2 v2 (objInsert k v t)

def objGet (k : List Nat) : JObj → Option Json
  | .onil => none
  | .ocons k2 v t => if k == k2 then some v else objGet k t

/-- `BTreeMap::remove` (ignoring the returned value). -/
def objRemove (k : List Nat) : JObj → JObj
  | .onil => .onil
  | .ocons k2 v t => if k == k2 then t else .ocons k2 v (objRemove k t)

def objHasKey (k : List Nat) (m : JObj) : Bool := (objGet k m).isSome

def jarrLen : JArr → Nat
  | .anil => 0
  | .acons _ t => jarrLen t + 1

def jarrGet : JArr → Nat → Option Json
  | .anil, _ => none
  | .acons h _, 0 => some h
  | .acons _ t, i + 1 => jarrGet t i

def jarrSet : JArr → Nat → Json → JArr
  | .anil, _, _ => .anil
  | .acons _ t, 0, v => .acons v t
  | .acons h t, i + 1, v => .acons h (jarrSet t i v)

def jarrInsert : JArr → Nat → Json → JArr
  | a, 0, v => .acons v a
  | .anil, _ + 1, v => .acons v .anil
  | .acons h t, i + 1, v => .acons h (jarrInsert t i v)

def jarrRemove : JArr → Nat → JArr
  | .anil, _ => .anil
  | .acons _ t, 0 => t
  | .acons h t, i + 1 => .acons h (jarrRemove t i)

def natDecB (n : Nat) : List Nat := (natDecimal n).map Char.toNat

/-- Decimal rendering of a JSON integer (`serde_json`'s number writer). -/
def intDecB (n : Int) : List Nat := if n < 0 then 45 :: natDecB n.natAbs else natDecB n.toNat

def hexDigitB (d : Nat) : Nat := if d < 10 then 48 + d else 87 + d

/-- `serde_json` string escaping: `"`, `\\`, the short control escapes, and
`\u00XX` for the remaining control bytes. -/
def escByte (b : Nat) : List Nat :=
  if b = 34 then [92, 34]
  else if b = 92 then [92, 92]
  else if b = 8 then [92, 98]
  else if b = 12 then [92, 102]
  else if b = 10 then [92, 110]
  else if b = 13 then [92, 114]
  else if b = 9 then [92, 116]
  else if b < 32 then [92, 117, 48, 48, hexDigitB (b / 16), hexDigitB (b % 16)]
  else [b]

def escStr (s : List Nat) : List Nat := 34 :: (s.map escByte).flatten ++ [34]

mutual
/-- `serde_json::to_vec`: compact serialization. -/
def jserC : Json → List Nat
  | .nullJ => [110, 117, 108, 108]
  | .boolJ true => [116, 114, 117, 101]
  | .boolJ false => [102, 97, 108, 115, 101]
  | .numJ n => intDecB n
  | .strJ s => escStr s
  | .arrJ a => 91 :: jserCA a ++ [93]
  | .objJ m => 123 :: jserCO m ++ [125]
def jserCA : JArr → List Nat
  | .anil => []
  | .acons h .anil => jserC h
  | .acons h (.acons h2 t) => jserC h ++ 44 :: jserCA (.acons h2 t)
def jserCO : JObj → List Nat
  | .onil => []
  | .ocons k v .onil => escStr k ++ 58 :: jserC v
  | .ocons k v (.ocons k2 v2 t) => escStr k ++ 58 :: jserC v ++ 44 :: jserCO (.ocons k2 v2 t)
end

def indentB (d : Nat) : List Nat := List.replicate (2 * d) 32

mutual
/-- `serde_json::to_vec_pretty`: pretty serialization with two-space
indentation, as used by `JsonTreeCodec::apply`. -/
def jserP : Nat → Json → List Nat
  | _, .nullJ => [110, 117, 108, 108]
  | _, .boolJ true => [116, 114, 117, 101]
  | _, .boolJ false => [102, 97, 108, 115, 101]
  | _, .numJ n => intDecB n
  | _, .strJ s => escStr s
  | _, .arrJ .anil => [91, 93]
  | d, .arrJ (.acons h t) =>
    91 :: 10 :: (indentB (d + 1) ++ jserPA (d + 1) (.acons h t) ++ 10 :: (indentB d ++ [93]))
  | _, .objJ .onil => [123, 125]
  | d, .objJ (.ocons k v t) =>
    123 :: 10 :: (indentB (d + 1) ++ jserPO (d + 1) (.ocons k v t) ++ 10 :: (indentB d ++ [125]))
def jserPA : Nat → JArr → List Nat
  | _, .anil => []
  | d, .acons h .anil => jserP d h
  | d, .acons h (.acons h2 t) =>
    jserP d h ++ 44 :: 10 :: (indentB d ++ jserPA d (.acons h2 t))
def jserPO : Nat → JObj → List Nat
  | _, .onil => []
  | d, .ocons k v .onil => escStr k ++ 58 :: 32 :: jserP d v
  | d, .ocons k v (.ocons k2 v2 t) =>
    escStr k ++ 58 :: 32 :: jserP d v ++ 44 :: 10 :: (indentB d ++ jserPO d (.ocons k2 v2 t))
end

def jwspB (b : Nat) : Bool := b == 32 || b == 9 || b == 10 || b == 13

def skipWS : List Nat → List Nat
  | [] => []
  | b :: rest => if jwspB b then skipWS rest else b :: rest

/-- JSON string body parsing (after the opening quote), with the standard
short escapes; `\uXXXX` escapes are not modelled. -/
def parseStrBytes : Nat → List Nat → Option (List Nat × List Nat)
  | 0, _ => none
  | _ + 1, [] => none
  | f + 1, b :: rest =>
    if b = 34 then some ([], rest)
    else if b = 92 then
      match rest with
      | [] => none
      | e :: rest2 =>
        let c : Option Nat :=
          if e = 34 then some 34 else if e = 92 then some 92 else if e = 47 then some 47
          else if e = 98 then some 8 else if e = 102 then some 12 else if e = 110 then some 10
          else if e = 114 then some 13 else if e = 116 then some 9 else none
        match c with
        | none => none
        | some cb =>
          match parseStrBytes f rest2 with
          | none => none
          | some (s, r) => some (cb :: s, r)
    else if b < 32 then none
    else
      match parseStrBytes f rest with
      | none => none
      | some (s, r) => some (b :: s, r)

def digitRun : List Nat → (List Nat × List Nat)
  | [] => ([], [])
  | b :: rest =>
    if 48 ≤ b ∧ b ≤ 57 then
      ((b :: (digitRun rest).1), (digitRun rest).2)
    else ([], b :: rest)

def digitsVal : List Nat → Nat → Nat
  | [], acc => acc
  | d :: ds, acc => digitsVal ds (acc * 10 + (d - 48))

/-- Integer parsing for JSON numbers: optional minus, no leading zeros, and
no float syntax (floats are outside the model). -/
def parseNumBytes (input : List Nat) : Option (Json × List Nat) :=
  let neg := match input with
    | 45 :: _ => true
    | _ => false
  let rest1 := if neg then input.drop 1 else input
  match digitRun rest1 with
  | ([], _) => none
  | (d :: ds, rest2) =>
    if d = 48 ∧ ds ≠ [] then none
    else
      match rest2 with
      | 46 :: _ => none
      | 101 :: _ => none
      | 69 :: _ => none
      | _ =>
        let v : Int := (digitsVal (d :: ds) 0 : Nat)
        some (.numJ (if neg then -v else v), rest2)

mutual
/-- `serde_json::from_slice`, value grammar (fuel-indexed; the fuel strictly
exceeds the input length at the top-level call). -/
def jparseVal : Nat → List Nat → Option (Json × List Nat)
  | 0, _ => none
  | f + 1, input =>
    match skipWS input with
    | [] => none
    | b :: rest =>
      if b = 110 then
        match rest with
        | 117 :: 108 :: 108 :: r => some (.nullJ, r)
        | _ => none
      else if b = 116 then
        match rest with
        | 114 :: 117 :: 101 :: r => some (.boolJ true, r)
        | _ => none
      else if b = 102 then
        match rest with
        | 97 :: 108 :: 115 :: 101 :: r => some (.boolJ false, r)
        | _ => none
      else if b = 34 then
        match parseStrBytes f rest with
        | none => none
        | some (s, r) => some (.strJ s, r)
      else if b = 91 then
        match skipWS rest with
        | 93 :: r => some (.arrJ .anil, r)
        | r2 =>
          match jparseItemsA f r2 with
          | none => none
          | some (a, r) => some (.arrJ a, r)
      else if b = 123 then
        match skipWS rest with
        | 125 :: r => some (.objJ .onil, r)
        | r2 =>
          match jparseItemsO f r2 with
          | none => none
          | some (entries, r) =>
            some (.objJ (entries.foldl (fun m kv => objInsert kv.1 kv.2 m) .onil), r)
      else parseNumBytes (b :: rest)
def jparseItemsA : Nat → List Nat → Option (JArr × List Nat)
  | 0, _ => none
  | f + 1, input =>
    match jparseVal f input with
    | none => none
    | some (v, r) =>
      match skipWS r with
      | 44 :: r2 =>
        match jparseItemsA f r2 with
        | none => none
        | some (t, r3) => some (.acons v t, r3)
      | 93 :: r2 => some (.acons v .anil, r2)
      | _ => none
def jparseItemsO : Nat → List Nat → Option (List (List Nat × Json) × List Nat)
  | 0, _ => none
  | f + 1, input =>
    match skipWS input with
    | 34 :: r =>
      match parseStrBytes f r with
      | none => none
      | some (k, r2) =>
        match skipWS r2 with
        | 58 :: r3 =>
          match jparseVal f r3 with
          | none => none
          | some (v, r4) =>
            match skipWS r4 with
            | 44 :: r5 =>
              match jparseItemsO f r5 with
              | none => none
              | some (t, r6) => some ((k, v) :: t, r6)
            | 125 :: r5 => some ([(k, v)], r5)
            | _ => none
        | _ => none
    | _ => none
end

/-- `serde_json::from_slice`: parse one value and require only trailing
whitespace. -/
def jsonFromSlice (bytes : List Nat) : Option Json :=
  match jparseVal (bytes.length + 1) bytes with
  | none => none
  | some (v, r) => if (skipWS r).isEmpty then some v else none

/-- A `claw_core::types::PatchOp` as emitted by the json/tree codec, with the
`String` address kept as its UTF-8 bytes. -/
structure JOp where
  address : List Nat
  opType : String
  oldData : Option (List Nat)
  newData : Option (List Nat)
  contextHash : Option Nat
deriving DecidableEq, Repr

mutual
/-- `diff_values` (json_tree.rs): deleted keys, then added keys, then changed
keys for objects; whole-array replace on length mismatch, else element-wise;
whole-value replace otherwise. -/
def diffValues (path : List Nat) (old new : Json) : List JOp :=
  if jeq old new then []
  else
    match old, new with
    | .objJ om, .objJ nm => diffDel path nm om ++ (diffAdd path om nm ++ diffChanged path nm om)
    | .arrJ oa, .arrJ na =>
      if jarrLen oa = jarrLen na then diffArr path 0 oa na
      else [{ address := path, opType := "replace", oldData := some (jserC (.arrJ oa)),
              newData := some (jserC (.arrJ na)), contextHash := none }]
    | o, n => [{ address := path, opType := "replace", oldData := some (jserC o),
                 newData := some (jserC n), contextHash := none }]
def diffDel (path : List Nat) (nm : JObj) : JObj → List JOp
  | .onil => []
  | .ocons k v t =>
    (if objHasKey k nm then []
     else [{ address := path ++ 47 :: k, opType := "delete", oldData := some (jserC v),
             newData := none, contextHash := none }]) ++ diffDel path nm t
def diffAdd (path : List Nat) (om : JObj) : JObj → List JOp
  | .onil => []
  | .ocons k v t =>
    (if objHasKey k om then []
     else [{ address := path ++ 47 :: k, opType := "insert", oldData := none,
             newData := some (jserC v), contextHash := none }]) ++ diffAdd path om t
def diffChanged (path : List Nat) (nm : JObj) : JObj → List JOp
  | .onil => []
  | .ocons k v t =>
    (match objGet k nm with
     | some nv => diffValues (path ++ 47 :: k) v nv
     | none => []) ++ diffChanged path nm t
def diffArr (path : List Nat) (i : Nat) : JArr → JArr → List JOp
  | .anil, _ => []
  | .acons _ _, .anil => []
  | .acons o ot, .acons n nt =>
    diffValues (path ++ 47 :: natDecB i) o n ++ diffArr path (i + 1) ot nt
end

def splitSlashAux : List Nat → List (List Nat)
  | [] => [[]]
  | b :: rest =>
    match splitSlashAux rest with
    | [] => [[]]
    | p :: ps => if b = 47 then [] :: p :: ps else (b :: p) :: ps

/-- `op.address.split('/').filter(|s| !s.is_empty())`. -/
def splitPath (address : List Nat) : List (List Nat) :=
  (splitSlashAux address).filter (fun p => !p.isEmpty)

def digitValB (b : Nat) : Option Nat :=
  if 48 ≤ b ∧ b ≤ 57 then some (b - 48) else none

def parseNatBytesAux : List Nat → Nat → Option Nat
  | [], acc => some acc
  | b :: bs, acc =>
    match digitValB b with
    | some d => parseNatBytesAux bs (acc * 10 + d)
    | none => none

/-- `str::parse::<usize>` on an array-index path component. -/
def parseNatBytes (bs : List Nat) : Option Nat :=
  match bs with
  | [] => none
  | _ => parseNatBytesAux bs 0

/-- Navigation of `apply_op` (json_tree.rs): follow the parent components
with `navigate_mut`, then run the mutation on the parent container.  The
mutable borrow is modelled by rebuilding the value along the path. -/
def applyAtParent (f : Json → Except PatchErr Json) :
    Json → List (List Nat) → Except PatchErr Json
  | v, [] => f v
  | v, part :: rest =>
    match v with
    | .objJ m =>
      match objGet part m with
      | none => .error (.applyFailed "key not found")
      | some child =>
        match applyAtParent f child rest with
        | .error e => .error e
        | .ok child2 => .ok (.objJ (objInsert part child2 m))
    | .arrJ a =>
      match parseNatBytes part with
      | none => .error (.applyFailed "invalid index")
      | some idx =>
        match jarrGet a idx with
        | none => .error (.applyFailed "index out of bounds")
        | some child =>
          match applyAtParent f child rest with
          | .error e => .error e
          | .ok child2 => .ok (.arrJ (jarrSet a idx child2))
    | _ => .error (.applyFailed "cannot navigate into scalar")

/-- The mutation run at the parent container by `apply_op`. -/
def applyOpAt (opType : String) (lastKey : List Nat) (newData : Option (List Nat))
    (parent : Json) : Except PatchErr Json :=
  if opType = "insert" then
    match newData with
    | none => .error (.applyFailed "insert missing new_data")
    | some nd =>
      match jsonFromSlice nd with
      | none => .error (.applyFailed "bad json")
      | some nv =>
        match parent with
        | .objJ m => .ok (.objJ (objInsert lastKey nv m))
        | .arrJ a =>
          match parseNatBytes lastKey with
          | none => .error (.applyFailed "invalid array index")
          | some idx =>
            if jarrLen a < idx then .error (.applyFailed "array index out of bounds")
            else .ok (.arrJ (jarrInsert a idx nv))
        | _ => .error (.applyFailed "cannot insert into non-container")
  else if opType = "delete" then
    match parent with
    | .objJ m => .ok (.objJ (objRemove lastKey m))
    | .arrJ a =>
      match parseNatBytes lastKey with
      | none => .error (.applyFailed "invalid array index")
      | some idx =>
        if jarrLen a ≤ idx then .error (.applyFailed "array index out of bounds")
        else .ok (.arrJ (jarrRemove a idx))
    | _ => .error (.applyFailed "cannot delete from non-container")
  else if opType = "replace" then
    match newData with
    | none => .error (.applyFailed "replace missing new_data")
    | some nd =>
      match jsonFromSlice nd with
      | none => .error (.applyFailed "bad json")
      | some nv =>
        match parent with
        | .objJ m => .ok (.objJ (objInsert lastKey nv m))
        | .arrJ a =>
          match parseNatBytes lastKey with
          | none => .error (.applyFailed "invalid array index")
          | some idx =>
            if jarrLen a ≤ idx then .error (.applyFailed "array index out of bounds")
            else .ok (.arrJ (jarrSet a idx nv))
        | _ => .error (.applyFailed "cannot replace in non-container")
  else .error (.applyFailed "unknown op type")

/-- `apply_op` (json_tree.rs). -/
def jsonApplyOp (v : Json) (op : JOp) : Except PatchErr Json :=
  match splitPath op.address with
  | [] =>
    if op.opType = "replace" then
      match op.newData with
      | none => .error (.applyFailed "replace missing new_data")
      | some nd =>
        match jsonFromSlice nd with
        | none => .error (.applyFailed "bad json")
        | some nv => .ok nv
    else .error (.applyFailed "unsupported root op")
  | parts =>
    applyAtParent (applyOpAt op.opType (parts.getLastD []) op.newData) v parts.dropLast

def jsonApplyOps (v : Json) : List JOp → Except PatchErr Json
  | [] => .ok v
  | op :: rest =>
    match jsonApplyOp v op with
    | .error e => .error e
    | .ok v2 => jsonApplyOps v2 rest

/-- `JsonTreeCodec::apply` (json_tree.rs): parse, apply each op, and
serialize with `serde_json::to_vec_pretty`. -/
def jsonApply (base : List Nat) (ops : List JOp) : Except PatchErr (List Nat) :=
  match jsonFromSlice base with
  | none => .error (.invalidJson "parse error")
  | some v =>
    match jsonApplyOps v ops with
    | .error e => .error e
    | .ok v2 => .ok (jserP 0 v2)

/-- `JsonTreeCodec::diff` (json_tree.rs). -/
def jsonDiff (old new : List Nat) : Except PatchErr (List JOp) :=
  match jsonFromSlice old with
  | none => .error (.invalidJson "parse error")
  | some ov =>
    match jsonFromSlice new with
    | none => .error (.invalidJson "parse error")
    | some nv => .ok (diffValues [] ov nv)

/-- Counterexample to C4 as stated, for the json/tree codec: with `b = "{}"`
and `b' = {"a":1}` (compact bytes), `apply(b, diff(b, b')) ` returns the
pretty-printed bytes `{\n  "a": 1\n}`, which differ from `b'`: the codec
serializes with `to_vec_pretty`, so byte-identity fails for any compactly
serialized `b'` whose value is not a scalar. -/
theorem C4_json_pretty_counterexample :
    jsonDiff [123, 125] [123, 34, 97, 34, 58, 49, 125]
      = .ok [{ address := [47, 97], opType := "insert", oldData := none,
               newData := some [49], contextHash := none }]
    ∧ jsonApply [123, 125]
        [{ address := [47, 97], opType := "insert", oldData := none,
           newData := some [49], contextHash := none }]
      = .ok [123, 10, 32, 32, 34, 97, 34, 58, 32, 49, 10, 125]
    ∧ ([123, 10, 32, 32, 34, 97, 34, 58, 32, 49, 10, 125] : List Nat)
      ≠ [123, 34, 97, 34, 58, 49, 125] :=
  ⟨rfl, rfl, by decide⟩

/-- All-zeros object id, the reflog representation of "ref did not exist"
(`ZERO_HEX` in reflog.rs, parsed back by `read_reflog` as 32 zero bytes). -/
def zeroId : ObjectId := List.replicate 32 0

/-- `ClawStore::set_ref` = `write_ref` (refs.rs): write the target's hex into
the ref file (creating parent directories), overwriting any previous value. -/
def setRef (st : Store) (name : String) (target : ObjectId) : Store :=
  { st with refs := alistPut st.refs name target }

/-- `ClawStore::get_ref` = `read_ref` (refs.rs): `None` when the ref file is
absent.  Filesystem read errors are outside the model. -/
def getRef (st : Store) (name : String) : Option ObjectId :=
  alistGet st.refs name

/-- `append_reflog` (reflog.rs): append one line
`old_hex new_hex timestamp author message` to the ref's log, with the
all-zeros hex when `old` is absent.  The log is modelled in its parsed form
(what `read_reflog` returns for the written file); the wall-clock timestamp
is the explicit argument `timestampMs`. -/
def appendReflog (st : Store) (refName : String) (old : Option ObjectId)
    (new : ObjectId) (timestampMs : Nat) (author message : String) : Store :=
  let line : RefLogLine :=
    { old := old.getD zeroId, new := new, timestampMs := timestampMs,
      author := author, message := message }
  { st with reflogs :=
      alistPut st.reflogs refName ((alistGet st.reflogs refName).getD [] ++ [line]) }

/-- `RefUpdate` (sync proto): targets carried as raw proto hash bytes. -/
structure RefUpdate where
  name : String
  oldTarget : Option (List Nat)
  newTarget : Option (List Nat)
  force : Bool
deriving DecidableEq, Repr

/-- `decode_object_id` (server.rs): the proto hash must be exactly 32 bytes. -/
def decodeObjectId (hash : List Nat) : Except String ObjectId :=
  if hash.length = 32 then .ok hash else .error "invalid object id"

/-- `update.old_target.as_ref().map(decode_object_id).transpose()?`. -/
def decodeOptId : Option (List Nat) → Except String (Option ObjectId)
  | none => .ok none
  | some b =>
    match decodeObjectId b with
    | .error e => .error e
    | .ok id => .ok (some id)

/-- The loop of `is_ancestor` (ancestry.rs): depth-first walk back from the
descendant over `Revision::parents`, with an explicit visited list for the
`HashSet` and the Lean queue holding the Rust `Vec` reversed (so `pop` from
the Vec's tail is `head` here, and `extend_from_slice(&parents)` prepends the
reversed parents).  Fuel bounds the walk; the source loop terminates because
the visited set grows, and the theorems below hold for every fuel value. -/
def isAncestorGo (loadO : ObjectId → Except StoreError Object) (anc : ObjectId) :
    Nat → List ObjectId → List ObjectId → Bool
  | 0, _, _ => false
  | _ + 1, _, [] => false
  | f + 1, visited, id :: rest =>
    if id = anc then true
    else if visited.contains id then isAncestorGo loadO anc f visited rest
    else
      match loadO id with
      | .ok (.revision rev) =>
        isAncestorGo loadO anc f (id :: visited) (rev.parents.reverse ++ rest)
      | _ => isAncestorGo loadO anc f (id :: visited) rest

/-- `is_ancestor` (ancestry.rs). -/
def isAncestor (loadO : ObjectId → Except StoreError Object)
    (potentialAncestor descendant : ObjectId) (fuel : Nat) : Bool :=
  if potentialAncestor = descendant then true
  else isAncestorGo loadO potentialAncestor fuel [] [descendant]

/-- The pass-1 loop body of `SyncServer::update_refs` (server.rs) for one
update entry: `.error` is a transport-level `Status` (malformed object id),
`.ok false` a CAS-conflict or non-fast-forward response, `.ok true` a passed
check.  `loadO` is the store's object loader used by `is_ancestor`; the
human-readable response message is not modelled. -/
def checkRefUpdate (loadO : ObjectId → Except StoreError Object) (fuel : Nat)
    (st : Store) (u : RefUpdate) : Except String Bool :=
  let current := getRef st u.name
  match decodeOptId u.oldTarget with
  | .error e => .error e
  | .ok expectedOld =>
    let casOk : Bool :=
      match expectedOld, current with
      | none, none => true
      | some e, some a => decide (e = a)
      | none, some _ => u.force
      | some _, none => false
    if casOk then
      match u.newTarget with
      | none => .ok true
      | some nb =>
        match decodeObjectId nb with
        | .error e => .error e
        | .ok newId =>
          match current with
          | some oldId =>
            if !u.force && !isAncestor loadO oldId newId fuel then .ok false
            else .ok true
          | none => .ok true
    else .ok false

/-- Pass 1 of `update_refs`: verify every entry, stopping at the first
transport error or failed precondition. -/
def updateRefsVerify (loadO : ObjectId → Except StoreError Object) (fuel : Nat)
    (st : Store) : List RefUpdate → Except String Bool
  | [] => .ok true
  | u :: rest =>
    match checkRefUpdate loadO fuel st u with
    | .error e => .error e
    | .ok false => .ok false
    | .ok true => updateRefsVerify loadO fuel st rest

/-- Pass 2 of `update_refs`: write each entry that has a new target; a decode
error aborts the pass (leaving earlier writes in place, as in the source). -/
def applyRefUpdates (st : Store) : List RefUpdate → Store × Option String
  | [] => (st, none)
  | u :: rest =>
    match u.newTarget with
    | none => applyRefUpdates st rest
    | some nb =>
      match decodeObjectId nb with
      | .error e => (st, some e)
      | .ok id => applyRefUpdates (setRef st u.name id) rest

/-- `SyncServer::update_refs` (server.rs): two passes over the batch — verify
all CAS/fast-forward preconditions, then apply.  Returns the store together
with the response (`.ok success`) or the transport error. -/
def updateRefs (loadO : ObjectId → Except StoreError Object) (fuel : Nat)
    (st : Store) (updates : List RefUpdate) : Store × Except String Bool :=
  match updateRefsVerify loadO fuel st updates with
  | .error e => (st, .error e)
  | .ok false => (st, .ok false)
  | .ok true =>
    match applyRefUpdates st updates with
    | (st2, none) => (st2, .ok true)
    | (st2, some e) => (st2, .error e)

/-- Modelled from the spec: `update_ref_cas(name, expected_old, new, author,
message)` (spec section 4.3) — the CLI call sites in src/ invoke
`store.update_ref_cas(...)`, but no definition of the method exists in src/,
so the operation is modelled from the spec's five steps: read the current
value; allow the transition iff it equals `expected_old` (including the
`None`/`None` creation case); unless `force`, require `expected_old` to be an
ancestor of `new`; on success write the ref and append a reflog entry with
`old = expected_old`, `new = new`.  `anc` stands for the section-4.8
ancestry test. -/
def updateRefCas (anc : ObjectId → ObjectId → Bool) (st : Store) (name : String)
    (expectedOld : Option ObjectId) (new : ObjectId) (force : Bool)
    (timestampMs : Nat) (author message : String) : Except String Store :=
  let actual := getRef st name
  if expectedOld = actual then
    if force || (match expectedOld with
                 | some old => anc old new
                 | none => true) then
      .ok (appendReflog (setRef st name new) name expectedOld new timestampMs author message)
    else .error "non-fast-forward"
  else .error "RefCasConflict"

theorem applyRefUpdates_reflogs (us : List RefUpdate) : ∀ (st : Store),
    (applyRefUpdates st us).1.reflogs = st.reflogs
      ∧ (applyRefUpdates st us).1.objects = st.objects := by
  induction us with
  | nil => intro st; exact ⟨rfl, rfl⟩
  | cons u rest ih =>
    intro st
    unfold applyRefUpdates
    cases hnb : u.newTarget with
    | none => exact ih st
    | some nb =>
      cases hdec : decodeObjectId nb with
      | error e => simp [hdec]
      | ok id =>
        simp only [hdec]
        exact ih (setRef st u.name id)

theorem checkRefUpdate_decode (loadO : ObjectId → Except StoreError Object)
    (fuel : Nat) (st : Store) (u : RefUpdate) (nb : List Nat)
    (hok : checkRefUpdate loadO fuel st u = .ok true)
    (hnb : u.newTarget = some nb) :
    ∃ id, decodeObjectId nb = .ok id := by
  unfold checkRefUpdate at hok
  cases hold : decodeOptId u.oldTarget with
  | error e =>
    rw [hold] at hok
    exact absurd hok (by simp)
  | ok expectedOld =>
    rw [hold] at hok
    simp only at hok
    split at hok
    · rw [hnb] at hok
      cases hdec : decodeObjectId nb with
      | error e =>
        exfalso
        have hok2 : (match decodeObjectId nb with
            | Except.error e => (Except.error e : Except String Bool)
            | Except.ok newId =>
              match getRef st u.name with
              | some oldId =>
                if !u.force && !isAncestor loadO oldId newId fuel then Except.ok false
                else Except.ok true
              | none => Except.ok true) = Except.ok true := hok
        rw [hdec] at hok2
        simp at hok2
      | ok id => exact ⟨id, rfl⟩
    · exact absurd hok (by simp)

theorem updateRefsVerify_all (loadO : ObjectId → Except StoreError Object)
    (fuel : Nat) (st : Store) (us : List RefUpdate)
    (hok : updateRefsVerify loadO fuel st us = .ok true) :
    ∀ u ∈ us, checkRefUpdate loadO fuel st u = .ok true := by
  induction us with
  | nil => intro u hu; exact absurd hu (List.not_mem_nil u)
  | cons v rest ih =>
    intro u hu
    unfold updateRefsVerify at hok
    cases hc : checkRefUpdate loadO fuel st v with
    | error e =>
      rw [hc] at hok
      exact absurd hok (by simp)
    | ok b =>
      rw [hc] at hok
      cases b with
      | false => exact absurd hok (by simp)
      | true =>
        simp only at hok
        rcases List.mem_cons.mp hu with h | h
        · rw [h]; exact hc
        · exact ih hok u h

theorem applyRefUpdates_ok (us : List RefUpdate)
    (hdec : ∀ u ∈ us, ∀ nb, u.newTarget = some nb → ∃ id, decodeObjectId nb = .ok id) :
    ∀ st : Store, (applyRefUpdates st us).2 = none := by
  induction us with
  | nil => intro st; rfl
  | cons u rest ih =>
    intro st
    unfold applyRefUpdates
    cases hnb : u.newTarget with
    | none => exact ih (fun v hv => hdec v (List.mem_cons_of_mem u hv)) st
    | some nb =>
      obtain ⟨id, hid⟩ := hdec u (List.mem_cons_self u rest) nb hnb
      simp only [hid]
      exact ih (fun v hv => hdec v (List.mem_cons_of_mem u hv)) (setRef st u.name id)

/-- **C7.**  Amended: the spec-modelled `update_ref_cas` writes the ref and
appends a reflog entry whose `old` is `expected_old` (the all-zeros id when
absent) and whose `new` is the new target; the `update_refs` batch operation
in src/ (server.rs), by contrast, writes the ref files but never touches any
reflog. -/
theorem C7_ref_update_reflog (anc : ObjectId → ObjectId → Bool) (st : Store)
    (name : String) (expectedOld : Option ObjectId) (new : ObjectId) (force : Bool)
    (ts : Nat) (author message : String) :
    (∀ st', updateRefCas anc st name expectedOld new force ts author message = .ok st' →
      getRef st' name = some new
        ∧ alistGet st'.reflogs name
            = some ((alistGet st.reflogs name).getD []
                ++ [{ old := expectedOld.getD zeroId, new := new, timestampMs := ts,
                      author := author, message := message }]))
    ∧ ∀ (loadO : ObjectId → Except StoreError Object) (fuel : Nat)
        (updates : List RefUpdate),
        (updateRefs loadO fuel st updates).1.reflogs = st.reflogs := by
  constructor
  · intro st' hok
    unfold updateRefCas at hok
    simp only at hok
    by_cases hcas : expectedOld = getRef st name
    · rw [if_pos hcas] at hok
      split at hok
      · replace hok := Except.ok.inj hok
        subst hok
        refine ⟨?_, ?_⟩
        · show alistGet (alistPut st.refs name new) name = some new
          exact alistGet_put st.refs name new
        · show alistGet (alistPut st.reflogs name _) name = _
          exact alistGet_put st.reflogs name _
      · exact absurd hok (by simp)
    · rw [if_neg hcas] at hok
      exact absurd hok (by simp)
  · intro loadO fuel updates
    unfold updateRefs
    cases hv : updateRefsVerify loadO fuel st updates with
    | error e => rfl
    | ok b =>
      cases b with
      | false => rfl
      | true =>
        simp only
        rcases happ : applyRefUpdates st updates with ⟨st2, oe⟩
        have hrl := (applyRefUpdates_reflogs updates st).1
        rw [happ] at hrl
        cases oe with
        | none => exact hrl
        | some e => exact hrl

/-- Witness for C7 at a creation update on a store with one existing reflog
line: the CAS update writes the ref and appends the entry. -/
theorem C7_ref_update_reflog_witness :
    getRef (appendReflog (setRef ⟨[], [], [("heads/main",
          [⟨List.replicate 32 0, List.replicate 32 9, 5, "bob", "seed"⟩])]⟩
        "heads/main" (List.replicate 32 2)) "heads/main" none
        (List.replicate 32 2) 7 "alice" "push") "heads/main"
      = some (List.replicate 32 2)
    ∧ alistGet (appendReflog (setRef ⟨[], [], [("heads/main",
          [⟨List.replicate 32 0, List.replicate 32 9, 5, "bob", "seed"⟩])]⟩
        "heads/main" (List.replicate 32 2)) "heads/main" none
        (List.replicate 32 2) 7 "alice" "push").reflogs "heads/main"
      = some [⟨List.replicate 32 0, List.replicate 32 9, 5, "bob", "seed"⟩,
              ⟨zeroId, List.replicate 32 2, 7, "alice", "push"⟩] :=
  (C7_ref_update_reflog (fun _ _ => true)
      ⟨[], [], [("heads/main",
        [⟨List.replicate 32 0, List.replicate 32 9, 5, "bob", "seed"⟩])]⟩
      "heads/main" none (List.replicate 32 2) false 7 "alice" "push").1 _ rfl

/-- Counterexample to C7 as stated: a ref update that succeeds through
`SyncServer::update_refs` (the only compare-and-set ref-update operation
defined in src/) writes the ref file but appends no reflog entry — the
resulting store's reflogs are exactly the empty initial reflogs. -/
theorem C7_update_refs_counterexample :
    updateRefs (fun id => .error (.objectNotFound id)) 0 ⟨[], [], []⟩
        [⟨"heads/main", none, some (List.replicate 32 1), false⟩]
      = (⟨[], [("heads/main", List.replicate 32 1)], []⟩, .ok true)
    ∧ (⟨[], [("heads/main", List.replicate 32 1)], []⟩ : Store).reflogs = [] :=
  ⟨rfl, rfl⟩

/-- **C8.**  `update_refs` is two-phase: a `false` response or a transport
error leaves the refs store exactly as it was; if any entry of the batch
fails its precondition check (CAS / fast-forward) against the original
store, the operation does not succeed and nothing is mutated; and success
implies every entry of the batch passed its check against the original
store (all preconditions were verified before any write). -/
theorem C8_batch_preconditions_first (loadO : ObjectId → Except StoreError Object)
    (fuel : Nat) (st : Store) (updates : List RefUpdate) :
    (∀ st', updateRefs loadO fuel st updates = (st', .ok false) → st' = st)
    ∧ (∀ e st', updateRefs loadO fuel st updates = (st', .error e) → st' = st)
    ∧ ((∃ u ∈ updates, checkRefUpdate loadO fuel st u = .ok false) →
        (updateRefs loadO fuel st updates).1 = st
          ∧ (updateRefs loadO fuel st updates).2 ≠ .ok true)
    ∧ (∀ st', updateRefs loadO fuel st updates = (st', .ok true) →
        ∀ u ∈ updates, checkRefUpdate loadO fuel st u = .ok true) := by
  have happly : updateRefsVerify loadO fuel st updates = .ok true →
      (applyRefUpdates st updates).2 = none := by
    intro hv
    refine applyRefUpdates_ok updates ?_ st
    intro u hu nb hnb
    exact checkRefUpdate_decode loadO fuel st u nb
      (updateRefsVerify_all loadO fuel st updates hv u hu) hnb
  have hcase : ∀ st' r, updateRefs loadO fuel st updates = (st', r) →
      (r = .ok false ∧ st' = st)
        ∨ ((∃ e, r = .error e) ∧ st' = st)
        ∨ (r = .ok true ∧ updateRefsVerify loadO fuel st updates = .ok true) := by
    intro st' r hr
    unfold updateRefs at hr
    cases hv : updateRefsVerify loadO fuel st updates with
    | error e =>
      rw [hv] at hr
      simp only [Prod.mk.injEq] at hr
      exact Or.inr (Or.inl ⟨⟨e, hr.2.symm⟩, hr.1.symm⟩)
    | ok b =>
      rw [hv] at hr
      cases b with
      | false =>
        simp only [Prod.mk.injEq] at hr
        exact Or.inl ⟨hr.2.symm, hr.1.symm⟩
      | true =>
        simp only at hr
        rcases happ : applyRefUpdates st updates with ⟨st2, oe⟩
        rw [happ] at hr
        cases oe with
        | none =>
          simp only [Prod.mk.injEq] at hr
          exact Or.inr (Or.inr ⟨hr.2.symm, rfl⟩)
        | some e =>
          have hnone := happly hv
          rw [happ] at hnone
          exact absurd hnone (by simp)
  refine ⟨?_, ?_, ?_, ?_⟩
  · intro st' hr
    rcases hcase st' (.ok false) hr with h | h | h
    · exact h.2
    · exact h.2
    · exact absurd h.1 (by simp)
  · intro e st' hr
    rcases hcase st' (.error e) hr with h | h | h
    · exact absurd h.1 (by simp)
    · exact h.2
    · exact absurd h.1 (by simp)
  · rintro ⟨u, hu, hfail⟩
    rcases hr : updateRefs loadO fuel st updates with ⟨st', r⟩
    rcases hcase st' r hr with h | h | h
    · refine ⟨h.2, ?_⟩
      show r ≠ Except.ok true
      rw [h.1]
      simp
    · rcases h.1 with ⟨e, he⟩
      refine ⟨h.2, ?_⟩
      show r ≠ Except.ok true
      rw [he]
      simp
    · have := updateRefsVerify_all loadO fuel st updates h.2 u hu
      rw [this] at hfail
      exact absurd (Except.ok.inj hfail) (by simp)
  · intro st' hr u hu
    rcases hcase st' (.ok true) hr with h | h | h
    · exact absurd h.1 (by simp)
    · rcases h.1 with ⟨e, he⟩
      exact absurd he (by simp)
    · exact updateRefsVerify_all loadO fuel st updates h.2 u hu

/-- Witness for C8: a successful one-entry batch on a concrete store, from
which the theorem recovers that the entry's precondition check passed. -/
theorem C8_batch_preconditions_first_witness :
    checkRefUpdate (fun id => .error (.objectNotFound id)) 0
        ⟨[], [("heads/main", List.replicate 32 1)], []⟩
        ⟨"heads/main", some (List.replicate 32 1), some (List.replicate 32 2), true⟩
      = .ok true :=
  (C8_batch_preconditions_first (fun id => .error (.objectNotFound id)) 0
      ⟨[], [("heads/main", List.replicate 32 1)], []⟩
      [⟨"heads/main", some (List.replicate 32 1), some (List.replicate 32 2), true⟩]).2.2.2
    ⟨[], [("heads/main", List.replicate 32 2)], []⟩ rfl
    ⟨"heads/main", some (List.replicate 32 1), some (List.replicate 32 2), true⟩
    (List.mem_cons_self _ _)

/-- **C10.**  On a store where the ref exists, an update with no expected old
target and `force` set passes both the CAS and the fast-forward check (the
ancestry test is short-circuited) and overwrites the ref, while the same
update without `force` is rejected as a CAS conflict and mutates nothing. -/
theorem C10_force_bypasses_cas (loadO : ObjectId → Except StoreError Object)
    (fuel : Nat) (st : Store) (name : String) (cur : ObjectId) (nb : List Nat)
    (newId : ObjectId) (hcur : getRef st name = some cur)
    (hdec : decodeObjectId nb = .ok newId) :
    updateRefs loadO fuel st [⟨name, none, some nb, true⟩]
        = (setRef st name newId, .ok true)
    ∧ updateRefs loadO fuel st [⟨name, none, some nb, false⟩] = (st, .ok false) := by
  constructor
  · simp [updateRefs, updateRefsVerify, checkRefUpdate, applyRefUpdates,
      decodeOptId, hcur, hdec]
  · simp [updateRefs, updateRefsVerify, checkRefUpdate, decodeOptId, hcur]

/-- Witness for C10 on a one-ref store. -/
theorem C10_force_bypasses_cas_witness :
    updateRefs (fun id => .error (.objectNotFound id)) 0
        ⟨[], [("heads/main", List.replicate 32 1)], []⟩
        [⟨"heads/main", none, some (List.replicate 32 2), true⟩]
      = (setRef ⟨[], [("heads/main", List.replicate 32 1)], []⟩ "heads/main"
          (List.replicate 32 2), .ok true)
    ∧ updateRefs (fun id => .error (.objectNotFound id)) 0
        ⟨[], [("heads/main", List.replicate 32 1)], []⟩
        [⟨"heads/main", none, some (List.replicate 32 2), false⟩]
      = (⟨[], [("heads/main", List.replicate 32 1)], []⟩, .ok false) :=
  C10_force_bypasses_cas (fun id => .error (.objectNotFound id)) 0
    ⟨[], [("heads/main", List.replicate 32 1)], []⟩ "heads/main"
    (List.replicate 32 1) (List.replicate 32 2) (List.replicate 32 2) rfl rfl

/-- `MergeError` (claw-merge error.rs); the wrapped error payloads carry only
what the theorems inspect. -/
inductive MergeErr where
  | noCommonAncestor
  | storeE (e : StoreError)
  | patchE (e : PatchErr)
  | coreE (msg : String)
  | conflictE (path : String) (reason : String)
deriving DecidableEq, Repr

/-- `MergeResult` (emit.rs). -/
structure MergeResult where
  revision : Revision
  newPatches : List ObjectId
  conflicts : List Conflict
  ancestor : ObjectId
deriving DecidableEq, Repr

/-- Byte-wise (= code-point-wise for UTF-8) lexicographic strict order on
strings, the `Ord` used by `BTreeSet<(String, String)>` keys. -/
def charsLt : List Char → List Char → Bool
  | [], [] => false
  | [], _ :: _ => true
  | _ :: _, [] => false
  | a :: as, b :: bs =>
    if a.toNat < b.toNat then true
    else if b.toNat < a.toNat then false
    else charsLt as bs

def keyLt (a b : String × String) : Bool :=
  charsLt a.1.data b.1.data
    || (a.1 = b.1 && charsLt a.2.data b.2.data)

/-- `BTreeSet` insert for `(path, codec_id)` keys: sorted, duplicates
collapsed. -/
def keyInsert (k : String × String) :
    List (String × String) → List (String × String)
  | [] => [k]
  | k2 :: rest =>
    if keyLt k k2 then k :: k2 :: rest
    else if k = k2 then k2 :: rest
    else k2 :: keyInsert k rest

/-- `left_groups.keys().chain(right_groups.keys()).cloned().collect()` into a
`BTreeSet`: every key of either map, sorted and deduplicated. -/
def allMergeKeys (leftKeys rightKeys : List (String × String)) :
    List (String × String) :=
  (leftKeys ++ rightKeys).foldl (fun s k => keyInsert k s) []

/-- The rebased-right arm of the per-group loop in `merge` (emit.rs): store
one `Patch` object per rebased op list and collect the new ids. -/
def storeRebasedPatches (h : List Nat → ObjectId) (penc : ProtoObject → List Nat)
    (zenc : List Nat → List Nat) (path codecId : String) :
    Store → List (List PatchOpB) → List ObjectId × Store
  | st, [] => ([], st)
  | st, ops :: rest =>
    let patch : PatchB :=
      { targetPath := path, codecId := codecId, baseObject := none,
        resultObject := none, ops := ops, codecPayload := none }
    let r := storeObject h penc zenc st (.patch patch)
    let tail := storeRebasedPatches h penc zenc path codecId r.2 rest
    (r.1 :: tail.1, tail.2)

/-- `conflicts.iter().map(|c| store.store_object(&Object::Conflict(...)))`
at the end of `merge`. -/
def storeConflicts (h : List Nat → ObjectId) (penc : ProtoObject → List Nat)
    (zenc : List Nat → List Nat) : Store → List Conflict → Store
  | st, [] => st
  | st, c :: rest =>
    storeConflicts h penc zenc (storeObject h penc zenc st (.conflict c)).2 rest

/-- The per-key loop of `merge` (emit.rs), threading the store and
accumulating `merged_patches` and `conflicts`.  `commuteRebase` stands for
`commute_rebase` (rebase.rs) and `tryMerge3` for the `try_merge3_fallback`
helper lower in emit.rs (which stores the merge3 patch, hence returns a
store); the `(None, None)` key case is `unreachable!()` in the source because
every key comes from one of the two maps. -/
def mergeGroups (h : List Nat → ObjectId) (penc : ProtoObject → List Nat)
    (zenc : List Nat → List Nat)
    (commuteRebase : Store → String → List ObjectId → List ObjectId →
      Except MergeErr (List (List PatchOpB) × List (List PatchOpB)))
    (tryMerge3 : Store → ObjectId → String → String → List ObjectId →
      List ObjectId → Except MergeErr (ObjectId × Store))
    (ancestor leftHead rightHead : ObjectId) (nowMs : Nat)
    (leftGroups rightGroups : List ((String × String) × List ObjectId)) :
    List (String × String) → Store → List ObjectId × List Conflict × Store
  | [], st => ([], [], st)
  | key :: keys, st =>
    let step : List ObjectId × List Conflict × Store :=
      match alistGet leftGroups key, alistGet rightGroups key with
      | some l, none => (l, [], st)
      | none, some r => (r, [], st)
      | some l, some r =>
        match commuteRebase st key.2 l r with
        | .ok (rebasedRight, _) =>
          let stored := storeRebasedPatches h penc zenc key.1 key.2 st rebasedRight
          (l ++ stored.1, [], stored.2)
        | .error _ =>
          match tryMerge3 st ancestor key.2 key.1 l r with
          | .ok (pid, st2) => ([pid], [], st2)
          | .error _ =>
            ([], [{ baseRevision := some ancestor, leftRevision := leftHead,
                    rightRevision := rightHead, filePath := key.1,
                    codecId := key.2, leftPatchIds := l, rightPatchIds := r,
                    resolutionPatchIds := [], status := .open,
                    createdAtMs := nowMs }], st)
      | none, none => ([], [], st)
    let rest := mergeGroups h penc zenc commuteRebase tryMerge3 ancestor
      leftHead rightHead nowMs leftGroups rightGroups keys step.2.2
    (step.1 ++ rest.1, step.2.1 ++ rest.2.1, rest.2.2)

/-- `rev.tree` extraction used three times in `merge`. -/
def revisionTreeOf : Object → Option ObjectId
  | .revision rev => rev.tree
  | _ => none

/-- `merge` (emit.rs).  External modules are parameters: `findLca`
(ancestor.rs), `collectPatches` (collect.rs), `groupPatches` (group.rs,
`BTreeMap` as an association list), `commuteRebase` (rebase.rs), `tryMerge3`
(the emit.rs fallback helper) and `buildMergedTree` (tree_build.rs, which
stores tree objects, hence returns a store).  Object storage and loading are
the store's own `storeObject`/`loadObject`; `nowMs` is the sampled wall
clock. -/
def merge (h : List Nat → ObjectId) (penc : ProtoObject → List Nat)
    (zenc : List Nat → List Nat) (pdec : TypeTag → List Nat → Option ProtoObject)
    (zdec : List Nat → Option (List Nat))
    (findLca : Store → ObjectId → ObjectId → Except MergeErr (Option ObjectId))
    (collectPatches : Store → ObjectId → ObjectId → Except MergeErr (List ObjectId))
    (groupPatches : Store → List ObjectId →
      Except MergeErr (List ((String × String) × List ObjectId)))
    (commuteRebase : Store → String → List ObjectId → List ObjectId →
      Except MergeErr (List (List PatchOpB) × List (List PatchOpB)))
    (tryMerge3 : Store → ObjectId → String → String → List ObjectId →
      List ObjectId → Except MergeErr (ObjectId × Store))
    (buildMergedTree : Store → Option ObjectId → Option ObjectId →
      Option ObjectId → List ObjectId → Except MergeErr (ObjectId × Store))
    (st : Store) (leftHead rightHead : ObjectId) (author message : String)
    (nowMs : Nat) : Except MergeErr (MergeResult × Store) :=
  match findLca st leftHead rightHead with
  | .error e => .error e
  | .ok none => .error .noCommonAncestor
  | .ok (some ancestor) =>
    match collectPatches st ancestor leftHead with
    | .error e => .error e
    | .ok leftPatches =>
      match collectPatches st ancestor rightHead with
      | .error e => .error e
      | .ok rightPatches =>
        match groupPatches st leftPatches with
        | .error e => .error e
        | .ok leftGroups =>
          match groupPatches st rightPatches with
          | .error e => .error e
          | .ok rightGroups =>
            let allKeys := allMergeKeys (leftGroups.map Prod.fst)
              (rightGroups.map Prod.fst)
            let looped := mergeGroups h penc zenc commuteRebase tryMerge3
              ancestor leftHead rightHead nowMs leftGroups rightGroups allKeys st
            let mergedPatches := looped.1
            let conflicts := looped.2.1
            let st1 := looped.2.2
            match loadObject pdec zdec st1 ancestor with
            | .error e => .error (.storeE e)
            | .ok ancObj =>
              match loadObject pdec zdec st1 leftHead with
              | .error e => .error (.storeE e)
              | .ok leftObj =>
                match loadObject pdec zdec st1 rightHead with
                | .error e => .error (.storeE e)
                | .ok rightObj =>
                  let treeStep : Except MergeErr (Option ObjectId × Store) :=
                    if conflicts.isEmpty then
                      match buildMergedTree st1 (revisionTreeOf ancObj)
                          (revisionTreeOf leftObj) (revisionTreeOf rightObj)
                          mergedPatches with
                      | .error e => .error e
                      | .ok (root, st2) => .ok (some root, st2)
                    else .ok (revisionTreeOf leftObj, st1)
                  match treeStep with
                  | .error e => .error e
                  | .ok (treeId, st2) =>
                    let st3 := storeConflicts h penc zenc st2 conflicts
                    .ok ({ revision :=
                            { changeId := none, parents := [leftHead, rightHead],
                              patches := mergedPatches, snapshotBase := none,
                              tree := treeId, capsuleId := none, author := author,
                              createdAtMs := nowMs, summary := message,
                              policyEvidence := [] },
                           newPatches := mergedPatches, conflicts := conflicts,
                           ancestor := ancestor }, st3)

theorem alistGet_put_mono [DecidableEq α] (l : List (α × β)) (k k' : α) (v : β)
    (hs : (alistGet l k').isSome = true) :
    (alistGet (alistPut l k v) k').isSome = true := by
  induction l with
  | nil => simp [alistGet] at hs
  | cons p rest ih =>
    obtain ⟨k0, v0⟩ := p
    by_cases hk : k0 = k
    · subst hk
      unfold alistPut
      rw [if_pos rfl]
      unfold alistGet at hs ⊢
      by_cases hk' : k0 = k'
      · rw [if_pos hk']
        rfl
      · rw [if_neg hk'] at hs
        rw [if_neg hk']
        exact hs
    · unfold alistPut
      rw [if_neg hk]
      unfold alistGet at hs ⊢
      by_cases hk' : k0 = k'
      · rw [if_pos hk'] at hs ⊢
        exact hs
      · rw [if_neg hk'] at hs ⊢
        exact ih hs

theorem storeObject_mono (h : List Nat → ObjectId) (penc : ProtoObject → List Nat)
    (zenc : List Nat → List Nat) (st : Store) (obj : Object) (k : ObjectId)
    (hs : (alistGet st.objects k).isSome = true) :
    (alistGet (storeObject h penc zenc st obj).2.objects k).isSome = true := by
  unfold storeObject writeLooseObject
  simp only
  split
  · exact hs
  · exact alistGet_put_mono st.objects _ k _ hs

theorem storeObject_self (h : List Nat → ObjectId) (penc : ProtoObject → List Nat)
    (zenc : List Nat → List Nat) (st : Store) (obj : Object) :
    (alistGet (storeObject h penc zenc st obj).2.objects
      (contentHash h obj.typeTag (serializePayload penc obj))).isSome = true := by
  unfold storeObject writeLooseObject
  simp only
  split
  · assumption
  · rw [alistGet_put]
    rfl

theorem storeConflicts_mono (h : List Nat → ObjectId) (penc : ProtoObject → List Nat)
    (zenc : List Nat → List Nat) (cs : List Conflict) : ∀ (st : Store) (k : ObjectId),
    (alistGet st.objects k).isSome = true →
    (alistGet (storeConflicts h penc zenc st cs).objects k).isSome = true := by
  induction cs with
  | nil => intro st k hs; exact hs
  | cons c rest ih =>
    intro st k hs
    unfold storeConflicts
    exact ih _ k (storeObject_mono h penc zenc st (.conflict c) k hs)

theorem storeConflicts_mem (h : List Nat → ObjectId) (penc : ProtoObject → List Nat)
    (zenc : List Nat → List Nat) (cs : List Conflict) : ∀ (st : Store), ∀ c ∈ cs,
    (alistGet (storeConflicts h penc zenc st cs).objects
      (contentHash h TypeTag.conflict
        (serializePayload penc (.conflict c)))).isSome = true := by
  induction cs with
  | nil => intro st c hc; exact absurd hc (List.not_mem_nil c)
  | cons c0 rest ih =>
    intro st c hc
    rcases List.mem_cons.mp hc with hceq | hmem
    · subst hceq
      unfold storeConflicts
      refine storeConflicts_mono h penc zenc rest _ _ ?_
      exact storeObject_self h penc zenc st (.conflict c)
    · unfold storeConflicts
      exact ih _ c hmem

theorem mergeGroups_conflicts (h : List Nat → ObjectId)
    (penc : ProtoObject → List Nat) (zenc : List Nat → List Nat)
    (commuteRebase : Store → String → List ObjectId → List ObjectId →
      Except MergeErr (List (List PatchOpB) × List (List PatchOpB)))
    (tryMerge3 : Store → ObjectId → String → String → List ObjectId →
      List ObjectId → Except MergeErr (ObjectId × Store))
    (ancestor leftHead rightHead : ObjectId) (nowMs : Nat)
    (leftGroups rightGroups : List ((String × String) × List ObjectId))
    (keys : List (String × String)) : ∀ (st : Store),
    ∀ c ∈ (mergeGroups h penc zenc commuteRebase tryMerge3 ancestor leftHead
        rightHead nowMs leftGroups rightGroups keys st).2.1,
      c.status = ConflictStatus.open
        ∧ c.baseRevision = some ancestor
        ∧ c.leftRevision = leftHead
        ∧ c.rightRevision = rightHead
        ∧ c.resolutionPatchIds = []
        ∧ c.createdAtMs = nowMs := by
  induction keys with
  | nil =>
    intro st c hc
    exact absurd hc (List.not_mem_nil c)
  | cons key rest ih =>
    intro st c hc
    unfold mergeGroups at hc
    simp only at hc
    rcases List.mem_append.mp hc with hstep | hrest
    · rcases hl : alistGet leftGroups key with _ | l <;>
        rcases hr : alistGet rightGroups key with _ | r <;>
          simp only [hl, hr] at hstep
      · exact absurd hstep (List.not_mem_nil c)
      · exact absurd hstep (List.not_mem_nil c)
      · exact absurd hstep (List.not_mem_nil c)
      · rcases hcr : commuteRebase st key.2 l r with e | pr
        · rw [hcr] at hstep
          rcases htm : tryMerge3 st ancestor key.2 key.1 l r with e2 | ps
          · rw [htm] at hstep
            simp only [List.mem_singleton] at hstep
            subst hstep
            exact ⟨rfl, rfl, rfl, rfl, rfl, rfl⟩
          · rw [htm] at hstep
            exact absurd hstep (List.not_mem_nil c)
        · rw [hcr] at hstep
          exact absurd hstep (List.not_mem_nil c)
    · exact ih _ c hrest

/-- **C6.**  Whenever `merge` returns successfully, the produced revision has
parents exactly `[leftHead, rightHead]` and its `patches` are exactly the
merged patch ids; every emitted conflict is an open `Conflict` recording the
two heads and the ancestor, and its conflict object is present in the
returned store; the revision's tree is a `build_merged_tree` root when no
conflicts were emitted, and is the left head's tree (as loaded after the
per-group loop) when conflicts were emitted — and in that case the merge
still returned `.ok`. -/
theorem C6_merge_revision_shape (h : List Nat → ObjectId)
    (penc : ProtoObject → List Nat) (zenc : List Nat → List Nat)
    (pdec : TypeTag → List Nat → Option ProtoObject)
    (zdec : List Nat → Option (List Nat))
    (findLca : Store → ObjectId → ObjectId → Except MergeErr (Option ObjectId))
    (collectPatches : Store → ObjectId → ObjectId → Except MergeErr (List ObjectId))
    (groupPatches : Store → List ObjectId →
      Except MergeErr (List ((String × String) × List ObjectId)))
    (commuteRebase : Store → String → List ObjectId → List ObjectId →
      Except MergeErr (List (List PatchOpB) × List (List PatchOpB)))
    (tryMerge3 : Store → ObjectId → String → String → List ObjectId →
      List ObjectId → Except MergeErr (ObjectId × Store))
    (buildMergedTree : Store → Option ObjectId → Option ObjectId →
      Option ObjectId → List ObjectId → Except MergeErr (ObjectId × Store))
    (st : Store) (leftHead rightHead : ObjectId) (author message : String)
    (nowMs : Nat) (res : MergeResult) (st' : Store)
    (hok : merge h penc zenc pdec zdec findLca collectPatches groupPatches
      commuteRebase tryMerge3 buildMergedTree st leftHead rightHead author
      message nowMs = .ok (res, st')) :
    res.revision.parents = [leftHead, rightHead]
    ∧ res.revision.patches = res.newPatches
    ∧ res.revision.author = author
    ∧ res.revision.summary = message
    ∧ (∀ c ∈ res.conflicts,
        c.status = ConflictStatus.open
          ∧ c.baseRevision = some res.ancestor
          ∧ c.leftRevision = leftHead
          ∧ c.rightRevision = rightHead
          ∧ (alistGet st'.objects (contentHash h TypeTag.conflict
              (serializePayload penc (.conflict c)))).isSome = true)
    ∧ (res.conflicts = [] →
        ∃ stMid aT lT rT root stAfter,
          buildMergedTree stMid aT lT rT res.newPatches = .ok (root, stAfter)
            ∧ res.revision.tree = some root)
    ∧ (res.conflicts ≠ [] →
        ∃ stMid leftObj, loadObject pdec zdec stMid leftHead = .ok leftObj
          ∧ res.revision.tree = revisionTreeOf leftObj) := by
  unfold merge at hok
  rcases hlca : findLca st leftHead rightHead with e | oanc
  · rw [hlca] at hok
    exact absurd hok (by simp)
  rcases oanc with _ | anc
  · rw [hlca] at hok
    exact absurd hok (by simp)
  rw [hlca] at hok
  dsimp only at hok
  rcases hcl : collectPatches st anc leftHead with e | leftPatches
  · rw [hcl] at hok
    exact absurd hok (by simp)
  rw [hcl] at hok
  dsimp only at hok
  rcases hcr : collectPatches st anc rightHead with e | rightPatches
  · rw [hcr] at hok
    exact absurd hok (by simp)
  rw [hcr] at hok
  dsimp only at hok
  rcases hgl : groupPatches st leftPatches with e | leftGroups
  · rw [hgl] at hok
    exact absurd hok (by simp)
  rw [hgl] at hok
  dsimp only at hok
  rcases hgr : groupPatches st rightPatches with e | rightGroups
  · rw [hgr] at hok
    exact absurd hok (by simp)
  rw [hgr] at hok
  dsimp only at hok
  rcases hla : loadObject pdec zdec (mergeGroups h penc zenc commuteRebase
      tryMerge3 anc leftHead rightHead nowMs leftGroups rightGroups
      (allMergeKeys (leftGroups.map Prod.fst) (rightGroups.map Prod.fst)) st).2.2
      anc with e | ancObj
  · rw [hla] at hok
    exact absurd hok (by simp)
  rw [hla] at hok
  dsimp only at hok
  rcases hll : loadObject pdec zdec (mergeGroups h penc zenc commuteRebase
      tryMerge3 anc leftHead rightHead nowMs leftGroups rightGroups
      (allMergeKeys (leftGroups.map Prod.fst) (rightGroups.map Prod.fst)) st).2.2
      leftHead with e | leftObj
  · rw [hll] at hok
    exact absurd hok (by simp)
  rw [hll] at hok
  dsimp only at hok
  rcases hlr : loadObject pdec zdec (mergeGroups h penc zenc commuteRebase
      tryMerge3 anc leftHead rightHead nowMs leftGroups rightGroups
      (allMergeKeys (leftGroups.map Prod.fst) (rightGroups.map Prod.fst)) st).2.2
      rightHead with e | rightObj
  · rw [hlr] at hok
    exact absurd hok (by simp)
  rw [hlr] at hok
  dsimp only at hok
  by_cases hce : (mergeGroups h penc zenc commuteRebase tryMerge3 anc leftHead
      rightHead nowMs leftGroups rightGroups
      (allMergeKeys (leftGroups.map Prod.fst) (rightGroups.map Prod.fst))
      st).2.1.isEmpty = true
  · rw [if_pos hce] at hok
    rcases hbt : buildMergedTree (mergeGroups h penc zenc commuteRebase
        tryMerge3 anc leftHead rightHead nowMs leftGroups rightGroups
        (allMergeKeys (leftGroups.map Prod.fst) (rightGroups.map Prod.fst))
        st).2.2 (revisionTreeOf ancObj) (revisionTreeOf leftObj)
        (revisionTreeOf rightObj)
        (mergeGroups h penc zenc commuteRebase tryMerge3 anc leftHead rightHead
          nowMs leftGroups rightGroups
          (allMergeKeys (leftGroups.map Prod.fst) (rightGroups.map Prod.fst))
          st).1 with e | rootSt
    · rw [hbt] at hok
      exact absurd hok (by simp)
    rw [hbt] at hok
    obtain ⟨root, stAfter⟩ := rootSt
    simp only at hok
    replace hok := Except.ok.inj hok
    rw [Prod.mk.injEq] at hok
    obtain ⟨hres, hst'⟩ := hok
    subst hst'
    subst hres
    refine ⟨rfl, rfl, rfl, rfl, ?_, ?_, ?_⟩
    · intro c hc
      have hempty := List.isEmpty_iff.mp hce
      rw [hempty] at hc
      exact absurd hc (List.not_mem_nil c)
    · intro _
      exact ⟨_, _, _, _, root, stAfter, hbt, rfl⟩
    · intro hne
      exact absurd (List.isEmpty_iff.mp hce) hne
  · rw [if_neg hce] at hok
    simp only at hok
    replace hok := Except.ok.inj hok
    rw [Prod.mk.injEq] at hok
    obtain ⟨hres, hst'⟩ := hok
    subst hst'
    subst hres
    refine ⟨rfl, rfl, rfl, rfl, ?_, ?_, ?_⟩
    · intro c hc
      have hflds := mergeGroups_conflicts h penc zenc commuteRebase tryMerge3
        anc leftHead rightHead nowMs leftGroups rightGroups
        (allMergeKeys (leftGroups.map Prod.fst) (rightGroups.map Prod.fst)) st c hc
      exact ⟨hflds.1, hflds.2.1, hflds.2.2.1, hflds.2.2.2.1,
        storeConflicts_mem h penc zenc _ _ c hc⟩
    · intro hempty
      rw [← List.isEmpty_iff] at hempty
      exact absurd hempty hce
    · intro _
      exact ⟨_, leftObj, hll, rfl⟩

/-- Sorted-dedup insert for object ids under byte-lexicographic order on the
32-byte hashes (hex order = byte order), the order of
`out.sort_by_key(|id| id.to_hex())` after `HashSet` dedup. -/
def depsInsert (id : ObjectId) : List ObjectId → List ObjectId
  | [] => [id]
  | x :: xs =>
    if bytesLt id x then id :: x :: xs
    else if id = x then x :: xs
    else x :: depsInsert id xs

def sortDedupIds (l : List ObjectId) : List ObjectId :=
  l.foldl (fun acc id => depsInsert id acc) []

/-- `Object::dependencies` (object.rs): the referenced object ids, deduplicated
(`HashSet`) and sorted by hex (= byte order; hex rendering preserves
byte-lexicographic order). -/
def Object.dependencies : Object → List ObjectId
  | .blob _ => []
  | .intent _ => []
  | .policy _ => []
  | .workstream _ => []
  | .tree t => sortDedupIds (t.entries.map (fun e => e.objectId))
  | .patch p => sortDedupIds (p.baseObject.toList ++ p.resultObject.toList)
  | .revision r =>
    sortDedupIds (r.parents ++ r.patches ++ r.snapshotBase.toList
      ++ r.tree.toList ++ r.capsuleId.toList)
  | .snapshot s => sortDedupIds [s.treeRoot, s.revisionId]
  | .change c => sortDedupIds c.headRevision.toList
  | .conflict c =>
    sortDedupIds (c.baseRevision.toList ++ [c.leftRevision, c.rightRevision]
      ++ c.leftPatchIds ++ c.rightPatchIds ++ c.resolutionPatchIds)
  | .capsule c => sortDedupIds [c.revisionId]
  | .reflog r =>
    sortDedupIds ((r.entries.map (fun e => e.oldTarget.toList ++ [e.newTarget])).flatten)

/-- The loop of `find_reachable_objects` (negotiation.rs): stack walk over
`Object::dependencies`, with the `HashSet` as a visited list in insertion
order and the Lean queue holding the Rust `Vec` reversed.  Load failures are
logged and skipped in the source.  Fuel bounds the walk. -/
def findReachableGo (loadO : ObjectId → Except StoreError Object) :
    Nat → List ObjectId → List ObjectId → List ObjectId
  | 0, visited, _ => visited
  | _ + 1, visited, [] => visited
  | f + 1, visited, id :: queue =>
    if visited.contains id then findReachableGo loadO f visited queue
    else
      match loadO id with
      | .ok obj =>
        findReachableGo loadO f (visited ++ [id]) (obj.dependencies.reverse ++ queue)
      | .error _ => findReachableGo loadO f (visited ++ [id]) queue

/-- `find_reachable_objects` (negotiation.rs), as the visited list in
insertion order; the `HashSet` it returns is this list's set of elements. -/
def findReachable (loadO : ObjectId → Except StoreError Object) (fuel : Nat)
    (heads : List ObjectId) : List ObjectId :=
  findReachableGo loadO fuel [] heads.reverse

/-- `ObjectChunk` (sync proto). -/
structure ObjectChunk where
  id : Option (List Nat)
  objectType : Nat
  data : List Nat
  isLast : Bool
deriving DecidableEq, Repr

/-- The `want`/`have` id decoding in `fetch_objects` (server.rs):
`filter_map` keeping only 32-byte hashes. -/
def decodeIdList (msgs : List (List Nat)) : List ObjectId :=
  msgs.filterMap (fun b => if b.length = 32 then some b else none)

/-- The partial-clone skip test in the send loop:
`if let Some(ref f) = filter { if !f.matches_object(&store, id) { continue } }`. -/
def filtSkip (filt : Option (ObjectId → Bool)) (id : ObjectId) : Bool :=
  match filt with
  | some f => !f id
  | none => false

/-- The complementary pass test, used to state the stream contents. -/
def filtPass (filt : Option (ObjectId → Bool)) (id : ObjectId) : Bool :=
  match filt with
  | some f => f id
  | none => true

theorem filtSkip_eq (filt : Option (ObjectId → Bool)) (id : ObjectId) :
    filtSkip filt id = !filtPass filt id := by
  cases filt <;> rfl

/-- The send loop of `fetch_objects` (server.rs) over an enumeration of
`want_set`: skip ids in `have_set`, skip ids rejected by the partial-clone
filter, skip ids that fail to load, and otherwise emit one COF-encoded
chunk. -/
def fetchEmit (penc : ProtoObject → List Nat) (zenc : List Nat → List Nat)
    (loadO : ObjectId → Except StoreError Object) (filt : Option (ObjectId → Bool))
    (haveSet : List ObjectId) : List ObjectId → List ObjectChunk
  | [] => []
  | id :: rest =>
    (if haveSet.contains id then []
     else if filtSkip filt id then []
     else
       match loadO id with
       | .ok obj =>
         [{ id := some id, objectType := obj.typeTag.toU8,
            data := cofEncode zenc obj.typeTag (serializePayload penc obj),
            isLast := false }]
       | .error _ => [])
    ++ fetchEmit penc zenc loadO filt haveSet rest

/-- `SyncServer::fetch_objects` (server.rs): stream the chunks for
`want_set \ have_set` and a trailing empty `is_last` marker.  `loadO` is the
store's loader, `filt` the converted partial-clone filter with its store
closure, and `iter` the enumeration of `want_set` produced by `HashSet`
iteration — the server iterates `&want_set` in arbitrary order, so `iter` is
constrained only to be a permutation of `findReachable` over the decoded
`want` ids (hypothesis of the theorems below). -/
def fetchObjects (penc : ProtoObject → List Nat) (zenc : List Nat → List Nat)
    (loadO : ObjectId → Except StoreError Object) (filt : Option (ObjectId → Bool))
    (fuel : Nat) (haveMsgs : List (List Nat)) (iter : List ObjectId) :
    List ObjectChunk :=
  fetchEmit penc zenc loadO filt (findReachable loadO fuel (decodeIdList haveMsgs))
    iter ++ [{ id := none, objectType := 0, data := [], isLast := true }]

theorem fetchEmit_flags (penc : ProtoObject → List Nat) (zenc : List Nat → List Nat)
    (loadO : ObjectId → Except StoreError Object) (filt : Option (ObjectId → Bool))
    (haveSet : List ObjectId) : ∀ ids : List ObjectId,
    ∀ c ∈ fetchEmit penc zenc loadO filt haveSet ids,
      c.isLast = false ∧ c.id ≠ none := by
  intro ids
  induction ids with
  | nil => intro c hc; exact absurd hc (List.not_mem_nil c)
  | cons id0 rest ih =>
    intro c hc
    unfold fetchEmit at hc
    rcases List.mem_append.mp hc with hhead | htail
    · by_cases hhave : haveSet.contains id0 = true
      · rw [if_pos hhave] at hhead
        exact absurd hhead (List.not_mem_nil c)
      · rw [if_neg hhave] at hhead
        by_cases hfil : filtSkip filt id0 = true
        · rw [if_pos hfil] at hhead
          exact absurd hhead (List.not_mem_nil c)
        · rw [if_neg hfil] at hhead
          cases hload : loadO id0 with
          | ok obj =>
            rw [hload] at hhead
            rw [List.mem_singleton.mp hhead]
            exact ⟨rfl, by simp⟩
          | error e =>
            rw [hload] at hhead
            exact absurd hhead (List.not_mem_nil c)
    · exact ih c htail

theorem fetchEmit_mem (penc : ProtoObject → List Nat) (zenc : List Nat → List Nat)
    (loadO : ObjectId → Except StoreError Object) (filt : Option (ObjectId → Bool))
    (haveSet : List ObjectId) (id : ObjectId) : ∀ ids : List ObjectId,
    (∃ c ∈ fetchEmit penc zenc loadO filt haveSet ids, c.id = some id)
      ↔ (id ∈ ids ∧ haveSet.contains id = false
          ∧ filtPass filt id = true
          ∧ ∃ obj, loadO id = .ok obj) := by
  intro ids
  induction ids with
  | nil =>
    constructor
    · rintro ⟨c, hc, _⟩
      exact absurd hc (List.not_mem_nil c)
    · rintro ⟨hmem, _⟩
      exact absurd hmem (List.not_mem_nil id)
  | cons id0 rest ih =>
    constructor
    · rintro ⟨c, hc, hcid⟩
      unfold fetchEmit at hc
      rcases List.mem_append.mp hc with hhead | htail
      · by_cases hhave : haveSet.contains id0 = true
        · rw [if_pos hhave] at hhead
          exact absurd hhead (List.not_mem_nil c)
        · rw [if_neg hhave] at hhead
          by_cases hfil : filtSkip filt id0 = true
          · rw [if_pos hfil] at hhead
            exact absurd hhead (List.not_mem_nil c)
          · rw [if_neg hfil] at hhead
            cases hload : loadO id0 with
            | error e =>
              rw [hload] at hhead
              exact absurd hhead (List.not_mem_nil c)
            | ok obj =>
              rw [hload] at hhead
              rw [List.mem_singleton.mp hhead] at hcid
              simp only [Option.some.injEq] at hcid
              subst hcid
              refine ⟨List.mem_cons_self id0 rest, ?_, ?_, obj, hload⟩
              · exact Bool.eq_false_iff.mpr hhave
              · cases hp : filtPass filt id0 with
                | true => rfl
                | false =>
                  exact absurd (by rw [filtSkip_eq, hp]; rfl) hfil
      · obtain ⟨hmem, hrest⟩ := ih.mp ⟨c, htail, hcid⟩
        exact ⟨List.mem_cons_of_mem id0 hmem, hrest⟩
    · rintro ⟨hmem, hhave, hfil, obj, hload⟩
      rcases List.mem_cons.mp hmem with heq | hrest
      · subst heq
        refine ⟨{ id := some id, objectType := obj.typeTag.toU8,
                  data := cofEncode zenc obj.typeTag (serializePayload penc obj),
                  isLast := false }, ?_, rfl⟩
        unfold fetchEmit
        refine List.mem_append.mpr (Or.inl ?_)
        rw [if_neg (by rw [hhave]; exact Bool.false_ne_true)]
        rw [if_neg (by rw [filtSkip_eq, hfil]; exact Bool.false_ne_true)]
        rw [hload]
        exact List.mem_singleton.mpr rfl
      · obtain ⟨c, hc, hcid⟩ := ih.mpr ⟨hrest, hhave, hfil, obj, hload⟩
        refine ⟨c, ?_, hcid⟩
        unfold fetchEmit
        exact List.mem_append.mpr (Or.inr hc)

/-- **C9.**  Amended: for any iteration order of the reachable-from-`want`
set (the `HashSet` order is arbitrary), the fetch stream ends with the empty
`is_last` marker, all earlier chunks are data chunks, and the stream contains
a chunk for exactly those ids that are reachable from the decoded `want`
ids, not reachable from the decoded `have` ids, pass the partial-clone
filter, and load successfully. -/
theorem C9_fetch_stream (penc : ProtoObject → List Nat) (zenc : List Nat → List Nat)
    (loadO : ObjectId → Except StoreError Object) (filt : Option (ObjectId → Bool))
    (fuel : Nat) (want haveMsgs : List (List Nat)) (iter : List ObjectId)
    (hiter : iter.Perm (findReachable loadO fuel (decodeIdList want))) :
    (fetchObjects penc zenc loadO filt fuel haveMsgs iter).getLast?
        = some { id := none, objectType := 0, data := [], isLast := true }
    ∧ (∀ c ∈ (fetchObjects penc zenc loadO filt fuel haveMsgs iter).dropLast,
        c.isLast = false ∧ c.id ≠ none)
    ∧ ∀ id : ObjectId,
        (∃ c ∈ fetchObjects penc zenc loadO filt fuel haveMsgs iter,
            c.id = some id)
          ↔ (id ∈ findReachable loadO fuel (decodeIdList want)
              ∧ (findReachable loadO fuel (decodeIdList haveMsgs)).contains id = false
              ∧ filtPass filt id = true
              ∧ ∃ obj, loadO id = .ok obj) := by
  unfold fetchObjects
  refine ⟨?_, ?_, ?_⟩
  · rw [List.getLast?_concat]
  · intro c hc
    rw [List.dropLast_concat] at hc
    exact fetchEmit_flags penc zenc loadO filt _ iter c hc
  · intro id
    constructor
    · rintro ⟨c, hc, hcid⟩
      rcases List.mem_append.mp hc with hemit | hmark
      · obtain ⟨hmem, hrest⟩ :=
          (fetchEmit_mem penc zenc loadO filt _ id iter).mp ⟨c, hemit, hcid⟩
        exact ⟨hiter.mem_iff.mp hmem, hrest⟩
      · rw [List.mem_singleton.mp hmark] at hcid
        exact absurd hcid (by simp)
    · rintro ⟨hmem, hrest⟩
      obtain ⟨c, hc, hcid⟩ :=
        (fetchEmit_mem penc zenc loadO filt _ id iter).mpr
          ⟨hiter.mem_iff.mpr hmem, hrest⟩
      exact ⟨c, List.mem_append.mpr (Or.inl hc), hcid⟩

def revP9 : Revision :=
  { changeId := none, parents := [], patches := [], snapshotBase := none,
    tree := none, capsuleId := none, author := "a", createdAtMs := 0,
    summary := "P", policyEvidence := [] }

def revR9 : Revision :=
  { changeId := none, parents := [List.replicate 32 1], patches := [],
    snapshotBase := none, tree := none, capsuleId := none, author := "a",
    createdAtMs := 0, summary := "R", policyEvidence := [] }

/-- A two-revision store: `R` (id `2,2,...`) is a child whose `parents`
reference `P` (id `1,1,...`). -/
def loadO9 : ObjectId → Except StoreError Object := fun id =>
  if id = List.replicate 32 2 then .ok (.revision revR9)
  else if id = List.replicate 32 1 then .ok (.revision revP9)
  else .error (.objectNotFound id)

/-- Witness for C9 at the two-revision store, with the canonical traversal
order as the iteration order. -/
theorem C9_fetch_stream_witness :
    (fetchObjects pencModel (fun x => x) loadO9 none 4 []
        (findReachable loadO9 4 (decodeIdList [List.replicate 32 2]))).getLast?
      = some { id := none, objectType := 0, data := [], isLast := true } :=
  (C9_fetch_stream pencModel (fun x => x) loadO9 none 4 [List.replicate 32 2] []
      (findReachable loadO9 4 (decodeIdList [List.replicate 32 2]))
      (List.Perm.refl _)).1

/-- Counterexample to C9 as stated: the revision `R` stored at id `2,2,...`
references its parent `P` (id `1,1,...`), and the reachable walk from `R`
visits `R` first, so the `HashSet` enumeration `[R, P]` is a possible
iteration order (here even the insertion order); the resulting stream emits
the chunk for `R` strictly before the chunk for its dependency `P`, so the
server does not emit in dependency-first order. -/
theorem C9_fetch_order_counterexample :
    findReachable loadO9 4 [List.replicate 32 2]
        = [List.replicate 32 2, List.replicate 32 1]
    ∧ (fetchObjects pencModel (fun x => x) loadO9 none 4 []
          [List.replicate 32 2, List.replicate 32 1]).map
            (fun c => (c.id, c.isLast))
        = [(some (List.replicate 32 2), false),
           (some (List.replicate 32 1), false), (none, true)]
    ∧ (Object.dependencies (.revision revR9)).contains (List.replicate 32 1)
        = true :=
  ⟨by decide, by decide, by decide⟩

def hW6 : List Nat → ObjectId := fun bytes => List.replicate 31 0 ++ [bytes.getLastD 0]

def idW6A : ObjectId := List.replicate 31 0 ++ [1]

def idW6L : ObjectId := List.replicate 31 0 ++ [2]

def idW6R : ObjectId := List.replicate 31 0 ++ [3]

def revW6A : Revision :=
  { changeId := none, parents := [], patches := [], snapshotBase := none,
    tree := none, capsuleId := none, author := "a", createdAtMs := 0,
    summary := "A", policyEvidence := [] }

def revW6L : Revision :=
  { changeId := none, parents := [idW6A], patches := [], snapshotBase := none,
    tree := some (List.replicate 32 5), capsuleId := none, author := "a",
    createdAtMs := 1, summary := "L", policyEvidence := [] }

def revW6R : Revision :=
  { changeId := none, parents := [idW6A], patches := [], snapshotBase := none,
    tree := some (List.replicate 32 6), capsuleId := none, author := "a",
    createdAtMs := 2, summary := "R", policyEvidence := [] }

/-- A prost decoder for the three-revision witness store: the stored payloads
are the markers `[1]`, `[2]`, `[3]`. -/
def pdecW6 : TypeTag → List Nat → Option ProtoObject := fun _ p =>
  if p = [1] then some (objToProto (.revision revW6A))
  else if p = [2] then some (objToProto (.revision revW6L))
  else if p = [3] then some (objToProto (.revision revW6R))
  else none

def stW6 : Store :=
  ⟨[(idW6A, cofEncode (fun x => x) TypeTag.revision [1]),
    (idW6L, cofEncode (fun x => x) TypeTag.revision [2]),
    (idW6R, cofEncode (fun x => x) TypeTag.revision [3])], [], []⟩

/-- A concrete merge run where the single shared group fails both the
commute rebase and the merge3 fallback, so a conflict is emitted. -/
def mergeW6 : Except MergeErr (MergeResult × Store) :=
  merge hW6 (fun _ => [9]) (fun x => x) pdecW6 (fun x => some x)
    (fun _ _ _ => .ok (some idW6A))
    (fun _ _ hd => .ok [hd])
    (fun _ ps => .ok [(("f.txt", "text/line"), ps)])
    (fun _ _ _ _ => .error (.patchE (.applyFailed "overlap")))
    (fun _ _ _ _ _ _ => .error (.conflictE "f.txt" "m3"))
    (fun st _ _ _ _ => .ok (List.replicate 32 9, st))
    stW6 idW6L idW6R "m" "merged" 99

def mergeW6run : MergeResult × Store :=
  mergeW6.toOption.getD
    ⟨⟨{ changeId := none, parents := [], patches := [], snapshotBase := none,
        tree := none, capsuleId := none, author := "", createdAtMs := 0,
        summary := "", policyEvidence := [] }, [], [], []⟩, emptyStore⟩

/-- Witness for C6: the conflicted merge run returns `.ok`, its revision has
parents `[L, R]` and `patches` equal to the merged ids, and conflicts were
emitted rather than aborting. -/
theorem C6_merge_revision_shape_witness :
    mergeW6run.1.revision.parents = [idW6L, idW6R]
      ∧ mergeW6run.1.revision.patches = mergeW6run.1.newPatches
      ∧ mergeW6run.1.conflicts ≠ [] :=
  have t := C6_merge_revision_shape hW6 (fun _ => [9]) (fun x => x) pdecW6
    (fun x => some x) (fun _ _ _ => .ok (some idW6A)) (fun _ _ hd => .ok [hd])
    (fun _ ps => .ok [(("f.txt", "text/line"), ps)])
    (fun _ _ _ _ => .error (.patchE (.applyFailed "overlap")))
    (fun _ _ _ _ _ _ => .error (.conflictE "f.txt" "m3"))
    (fun st _ _ _ _ => .ok (List.replicate 32 9, st))
    stW6 idW6L idW6R "m" "merged" 99 mergeW6run.1 mergeW6run.2 rfl
  ⟨t.1, t.2.1, by decide⟩

end Claw
